import Mathlib

/-!
# ForwardCom binary tools: assembler and disassembler headers

A shallow embedding of the data structures and inline operators declared in
`assem.h` and `disassem.h`, and theorems about them.

Conventions of the embedding:

* unsigned machine integers are `Nat` bit patterns, reduced `% 2 ^ w` wherever
  the value is stored into a `w`-bit field;
* signed machine integers (`int64_t`, `int8_t`, signed bit-fields) are `Int`,
  stored in two's complement;
* structures are laid out little-endian without padding (every member of the
  structures below is naturally aligned), and bit-fields are allocated from the
  least-significant bit in declaration order;
* a `char` buffer is a `List Nat` of bytes; a C string is the run of bytes up to
  the first NUL.
-/

namespace ForwardCom

/-! ## Machine words -/

/-- Read `len` bits of the word `w`, starting at bit `off` (bit 0 is the
least-significant bit). -/
def bits (w off len : Nat) : Nat := w / 2 ^ off % 2 ^ len

/-- Two's-complement bit pattern of a signed `w`-bit integer. -/
def toUnsigned (w : Nat) (x : Int) : Nat := (x % 2 ^ w).toNat

/-- Signed value of a `w`-bit two's-complement bit pattern. -/
def toSigned (w : Nat) (u : Nat) : Int :=
  if u % 2 ^ w < 2 ^ (w - 1) then ((u % 2 ^ w : Nat) : Int)
  else ((u % 2 ^ w : Nat) : Int) - 2 ^ w

/-! ## `SExpression` (assem.h) -/

/-- The `struct SExpression` of assem.h.  The union `value` is represented by its
`uint64_t` member `u`. -/
structure SExpression where
  /-- immediate value or addend to memory address (union, as `uint64_t`) -/
  value : Nat
  /-- offset for memory operand or jump (`int64_t`) -/
  offset : Int
  /-- flags for elements in expression: `XPR_...` (`uint32_t`) -/
  etype : Nat
  /-- number of tokens used (`uint32_t`) -/
  tokens : Nat
  /-- first symbol (`uint32_t`) -/
  sym1 : Nat
  /-- reference symbol (`uint32_t`) -/
  sym2 : Nat
  /-- instruction corresponding to operator (`uint32_t`) -/
  instruction : Nat
  /-- option bits or sign bits (`uint8_t`) -/
  optionbits : Nat
  /-- base register of memory operand (`uint8_t`) -/
  base : Nat
  /-- index register of memory operand (`uint8_t`) -/
  index : Nat
  /-- length or broadcast register of memory operand (`uint8_t`) -/
  length : Nat
  /-- scale factor for index register (`int8_t`) -/
  scale : Int
  /-- scale factor for sym1-sym2 (`uint8_t`) -/
  symscale : Nat
  /-- mask register (`uint8_t`) -/
  mask : Nat
  /-- first register operand (`uint8_t`) -/
  reg1 : Nat
  /-- second register operand (`uint8_t`) -/
  reg2 : Nat
  /-- third register operand (`uint8_t`) -/
  reg3 : Nat
  /-- fallback register (`uint8_t`) -/
  fallback : Nat
  /-- alignment filler or future extension (`uint8_t`) -/
  unused1 : Nat
  deriving DecidableEq

namespace SExpression

/-- Value of `sizeof(SExpression)`: 8 + 8 + 5 * 4 + 12 * 1 bytes. -/
def sizeof : Nat := 8 + 8 + 5 * 4 + 12 * 1

/-- Value of `sizeof(uint64_t)`. -/
def sizeofU64 : Nat := 8

/-- Every member holds a value of its declared C type. -/
def InRange (e : SExpression) : Prop :=
  e.value < 2 ^ 64 ∧ (-(2 ^ 63 : Int) ≤ e.offset ∧ e.offset < 2 ^ 63) ∧
  e.etype < 2 ^ 32 ∧ e.tokens < 2 ^ 32 ∧ e.sym1 < 2 ^ 32 ∧ e.sym2 < 2 ^ 32 ∧
  e.instruction < 2 ^ 32 ∧ e.optionbits < 2 ^ 8 ∧ e.base < 2 ^ 8 ∧
  e.index < 2 ^ 8 ∧ e.length < 2 ^ 8 ∧ (-(2 ^ 7 : Int) ≤ e.scale ∧ e.scale < 2 ^ 7) ∧
  e.symscale < 2 ^ 8 ∧ e.mask < 2 ^ 8 ∧ e.reg1 < 2 ^ 8 ∧ e.reg2 < 2 ^ 8 ∧
  e.reg3 < 2 ^ 8 ∧ e.fallback < 2 ^ 8 ∧ e.unused1 < 2 ^ 8

instance (e : SExpression) : Decidable e.InRange := by
  unfold InRange; infer_instance

/-- The object representation of an `SExpression` read as an array of
`uint64_t`, which is what `(&expr.value.u)[i]` accesses. -/
def toWords (e : SExpression) : List Nat :=
  [ e.value % 2 ^ 64,
    toUnsigned 64 e.offset,
    e.etype % 2 ^ 32 + 2 ^ 32 * (e.tokens % 2 ^ 32),
    e.sym1 % 2 ^ 32 + 2 ^ 32 * (e.sym2 % 2 ^ 32),
    e.instruction % 2 ^ 32 + 2 ^ 32 * (e.optionbits % 2 ^ 8) + 2 ^ 40 * (e.base % 2 ^ 8)
      + 2 ^ 48 * (e.index % 2 ^ 8) + 2 ^ 56 * (e.length % 2 ^ 8),
    toUnsigned 8 e.scale + 2 ^ 8 * (e.symscale % 2 ^ 8) + 2 ^ 16 * (e.mask % 2 ^ 8)
      + 2 ^ 24 * (e.reg1 % 2 ^ 8) + 2 ^ 32 * (e.reg2 % 2 ^ 8) + 2 ^ 40 * (e.reg3 % 2 ^ 8)
      + 2 ^ 48 * (e.fallback % 2 ^ 8) + 2 ^ 56 * (e.unused1 % 2 ^ 8) ]

/-- The `SExpression` whose object representation is the given array of
`uint64_t` (a missing word reads as zero). -/
def ofWords (ws : List Nat) : SExpression where
  value := bits (ws.getD 0 0) 0 64
  offset := toSigned 64 (ws.getD 1 0)
  etype := bits (ws.getD 2 0) 0 32
  tokens := bits (ws.getD 2 0) 32 32
  sym1 := bits (ws.getD 3 0) 0 32
  sym2 := bits (ws.getD 3 0) 32 32
  instruction := bits (ws.getD 4 0) 0 32
  optionbits := bits (ws.getD 4 0) 32 8
  base := bits (ws.getD 4 0) 40 8
  index := bits (ws.getD 4 0) 48 8
  length := bits (ws.getD 4 0) 56 8
  scale := toSigned 8 (bits (ws.getD 5 0) 0 8)
  symscale := bits (ws.getD 5 0) 8 8
  mask := bits (ws.getD 5 0) 16 8
  reg1 := bits (ws.getD 5 0) 24 8
  reg2 := bits (ws.getD 5 0) 32 8
  reg3 := bits (ws.getD 5 0) 40 8
  fallback := bits (ws.getD 5 0) 48 8
  unused1 := bits (ws.getD 5 0) 56 8

/-- The loop `for (i = 0; i < n; i++) r[i] = x[i] | y[i];` over arrays of
`uint64_t`. -/
def orLoop (n : Nat) (x y : List Nat) : List Nat :=
  (List.range n).map fun i => x.getD i 0 ||| y.getD i 0

/-- The `operator | (SExpression const &, SExpression const &)` of assem.h:
combine contents of two expressions. -/
def or (exp1 exp2 : SExpression) : SExpression :=
  ofWords (orLoop (sizeof / sizeofU64) exp1.toWords exp2.toWords)

instance : OrOp SExpression := ⟨SExpression.or⟩

/-- The all-zero expression. -/
def zero : SExpression :=
  ⟨0, 0, 0, 0, 0, 0, 0, 0, 0, 0, 0, 0, 0, 0, 0, 0, 0, 0, 0⟩

/-- A sample expression: an integer constant with a symbol reference, a
negative memory offset and a negative scale factor. -/
def sampleA : SExpression :=
  { zero with value := 5, offset := -3, etype := 0x201, sym1 := 7, scale := -1 }

/-- A sample expression populating members that `sampleA` leaves empty. -/
def sampleB : SExpression :=
  { zero with tokens := 3, reg1 := 0x25, unused1 := 255 }

/-- A sample expression with an unresolved symbol reference and an addend. -/
def sampleU : SExpression :=
  { zero with value := 5, etype := 0x40000201, sym1 := 7 }

/-- Field-wise choice between two unsigned members: the one that is
non-zero, and zero when both are zero. -/
def mergeNat (x y : Nat) : Nat := if x ≠ 0 then x else y

/-- Field-wise choice between two signed members: the one that is non-zero,
and zero when both are zero. -/
def mergeInt (x y : Int) : Int := if x ≠ 0 then x else y

/-- The field-wise merge that the design notes ask for in place of the
bitwise-OR combine: every member is taken from the operand in which it is
populated (non-zero). -/
def merge (a b : SExpression) : SExpression where
  value := mergeNat a.value b.value
  offset := mergeInt a.offset b.offset
  etype := mergeNat a.etype b.etype
  tokens := mergeNat a.tokens b.tokens
  sym1 := mergeNat a.sym1 b.sym1
  sym2 := mergeNat a.sym2 b.sym2
  instruction := mergeNat a.instruction b.instruction
  optionbits := mergeNat a.optionbits b.optionbits
  base := mergeNat a.base b.base
  index := mergeNat a.index b.index
  length := mergeNat a.length b.length
  scale := mergeInt a.scale b.scale
  symscale := mergeNat a.symscale b.symscale
  mask := mergeNat a.mask b.mask
  reg1 := mergeNat a.reg1 b.reg1
  reg2 := mergeNat a.reg2 b.reg2
  reg3 := mergeNat a.reg3 b.reg3
  fallback := mergeNat a.fallback b.fallback
  unused1 := mergeNat a.unused1 b.unused1

/-- No member is populated on both sides: for each member at least one of the
two expressions holds zero. -/
def NoOverlap (a b : SExpression) : Prop :=
  (a.value = 0 ∨ b.value = 0) ∧ (a.offset = 0 ∨ b.offset = 0) ∧
  (a.etype = 0 ∨ b.etype = 0) ∧ (a.tokens = 0 ∨ b.tokens = 0) ∧
  (a.sym1 = 0 ∨ b.sym1 = 0) ∧ (a.sym2 = 0 ∨ b.sym2 = 0) ∧
  (a.instruction = 0 ∨ b.instruction = 0) ∧ (a.optionbits = 0 ∨ b.optionbits = 0) ∧
  (a.base = 0 ∨ b.base = 0) ∧ (a.index = 0 ∨ b.index = 0) ∧
  (a.length = 0 ∨ b.length = 0) ∧ (a.scale = 0 ∨ b.scale = 0) ∧
  (a.symscale = 0 ∨ b.symscale = 0) ∧ (a.mask = 0 ∨ b.mask = 0) ∧
  (a.reg1 = 0 ∨ b.reg1 = 0) ∧ (a.reg2 = 0 ∨ b.reg2 = 0) ∧
  (a.reg3 = 0 ∨ b.reg3 = 0) ∧ (a.fallback = 0 ∨ b.fallback = 0) ∧
  (a.unused1 = 0 ∨ b.unused1 = 0)

instance (a b : SExpression) : Decidable (NoOverlap a b) := by
  unfold NoOverlap; infer_instance

/-- Six words, each a `uint64_t`. -/
def Words6 (ws : List Nat) : Prop := ws.length = 6 ∧ ∀ w ∈ ws, w < 2 ^ 64

end SExpression

/-! ## C strings -/

/-- The C library `strcmp` on two `char` pointers, each given as the memory
from the pointer onwards.  Bytes compare as `unsigned char`; the result is the
difference of the first pair of bytes that differ, and zero when both strings
end together.  Memory past the end of the buffer reads as NUL. -/
def strcmp : List Nat → List Nat → Int
  | c1 :: s1, c2 :: s2 =>
    if c1 = c2 then (if c1 = 0 then 0 else strcmp s1 s2) else (c1 : Int) - (c2 : Int)
  | c1 :: _, [] => (c1 : Int)
  | [], c2 :: _ => -(c2 : Int)
  | [], [] => 0

/-- The C library `tolower` in the C locale: ASCII upper-case letters map to
lower case, every other byte is unchanged. -/
def tolower (c : Nat) : Nat := if 65 ≤ c ∧ c ≤ 90 then c + 32 else c

/-- The C library `strcasecmp` (`_stricmp` with the Microsoft compiler): as
`strcmp`, but on the lower-cased bytes. -/
def strcasecmp : List Nat → List Nat → Int
  | c1 :: s1, c2 :: s2 =>
    if tolower c1 = tolower c2 then (if c1 = 0 then 0 else strcasecmp s1 s2)
    else (tolower c1 : Int) - (tolower c2 : Int)
  | c1 :: _, [] => (tolower c1 : Int)
  | [], c2 :: _ => -(tolower c2 : Int)
  | [], [] => 0

/-- The byte string a `char` pointer denotes: the bytes before the first NUL. -/
def cstr (s : List Nat) : List Nat := s.takeWhile (fun c => c ≠ 0)

/-- The offset `off` points at a NUL-terminated string inside `buf`. -/
def NulTerminated (buf : List Nat) (off : Nat) : Prop := 0 ∈ buf.drop off

instance (buf : List Nat) (off : Nat) : Decidable (NulTerminated buf off) := by
  unfold NulTerminated; infer_instance

/-! ## Symbols (assem.h, disassem.h) -/

/-- Modelled from the spec: the `struct ElfFWC_Sym` symbol record, which is
declared in the ELF header file and is not among the sources.  The members are
those the two headers and the data model name: name offset, type, binding,
other, section index, value, size and the two register-use words. -/
structure ElfFWC_Sym where
  /-- symbol name: offset into the name buffer -/
  st_name : Nat
  /-- symbol type -/
  st_type : Nat
  /-- symbol binding -/
  st_bind : Nat
  /-- other attributes -/
  st_other : Nat
  /-- section index -/
  st_shndx : Nat
  /-- value: address or constant -/
  st_value : Nat
  /-- size -/
  st_size : Nat
  /-- register use, first word -/
  st_reguse1 : Nat
  /-- register use, second word -/
  st_reguse2 : Nat
  deriving DecidableEq

/-- The `struct ElfFWC_Sym2 : public ElfFWC_Sym` of assem.h: the symbol
structure, sorted by name. -/
structure ElfFWC_Sym2 extends ElfFWC_Sym
  deriving DecidableEq

namespace ElfFWC_Sym2

/-- The `operator <` on `ElfFWC_Sym2` of assem.h; the global
`symbolNameBuffer` is passed as the list of its bytes. -/
def lt (symbolNameBuffer : List Nat) (a b : ElfFWC_Sym2) : Bool :=
  decide (strcmp (symbolNameBuffer.drop a.st_name) (symbolNameBuffer.drop b.st_name) < 0)

/-- The `operator ==` on `ElfFWC_Sym2` of assem.h. -/
def eq (symbolNameBuffer : List Nat) (a b : ElfFWC_Sym2) : Bool :=
  decide (strcmp (symbolNameBuffer.drop a.st_name) (symbolNameBuffer.drop b.st_name) = 0)

/-- The name of a symbol: the byte string at its `st_name` offset. -/
def name (symbolNameBuffer : List Nat) (a : ElfFWC_Sym2) : List Nat :=
  cstr (symbolNameBuffer.drop a.st_name)

/-- A list of symbols is sorted by `operator <`: no symbol is less than one
that stands before it. -/
def Sorted (symbolNameBuffer : List Nat) (symbols : List ElfFWC_Sym2) : Prop :=
  symbols.Pairwise (fun x y => lt symbolNameBuffer y x = false)

instance (symbolNameBuffer : List Nat) (symbols : List ElfFWC_Sym2) :
    Decidable (Sorted symbolNameBuffer symbols) := by
  unfold Sorted; infer_instance

/-- Modelled from the spec: the loop of the binary search over the sorted
symbol list (the search routine of the dynamic array is not among the
sources).  It narrows the interval from `a` to `b` to the first symbol that is
not less than `key`; `fuel` bounds the number of halvings. -/
def searchLoop (symbolNameBuffer : List Nat) (symbols : List ElfFWC_Sym2) (key : ElfFWC_Sym2) :
    Nat → Nat → Nat → Nat
  | 0, a, _ => a
  | fuel + 1, a, b =>
    if a < b then
      match symbols[(a + b) / 2]? with
      | some s =>
        if lt symbolNameBuffer s key then searchLoop symbolNameBuffer symbols key fuel ((a + b) / 2 + 1) b
        else searchLoop symbolNameBuffer symbols key fuel a ((a + b) / 2)
      | none => a
    else a

/-- Modelled from the spec: binary search by name in the sorted symbol list
(the search routine of the dynamic array is not among the sources).  The
result is the index of the first symbol that is neither less nor greater than
`key`, or `none` when there is no such symbol. -/
def findFirst (symbolNameBuffer : List Nat) (symbols : List ElfFWC_Sym2) (key : ElfFWC_Sym2) :
    Option Nat :=
  let a := searchLoop symbolNameBuffer symbols key symbols.length 0 symbols.length
  match symbols[a]? with
  | some s => if lt symbolNameBuffer key s then none else some a
  | none => none

end ElfFWC_Sym2

namespace ElfFWC_Sym

/-- The `operator <` on `ElfFWC_Sym` of disassem.h: operator for sorting
symbols by address. -/
def lt (a b : ElfFWC_Sym) : Bool :=
  if a.st_shndx < b.st_shndx then true
  else if a.st_shndx > b.st_shndx then false
  else decide (a.st_value < b.st_value)

/-- The `operator ==` on `ElfFWC_Sym` of disassem.h: tells if symbols have the
same address. -/
def eq (a b : ElfFWC_Sym) : Bool :=
  decide (a.st_shndx = b.st_shndx) && decide (a.st_value = b.st_value)

end ElfFWC_Sym

/-! ## Keywords (assem.h) -/

/-- The `struct SKeyword` of assem.h.  The member `name` is given as the bytes
written into the `char[28]` array from its start; `nameArray` is the array
they make. -/
structure SKeyword where
  /-- name (`char[28]`) -/
  name : List Nat
  /-- identifier (`uint32_t`) -/
  id : Nat
  deriving DecidableEq

/-- The lower-case form of a byte, by the table of the 26 ASCII letters: `A`
to `Z` (65 to 90) become `a` to `z` (97 to 122), every other byte is itself.
This is the lower-casing that the statement about keywords speaks of, written
independently of the library function `tolower`. -/
def asciiLower : Nat → Nat
  | 65 => 97 | 66 => 98 | 67 => 99 | 68 => 100 | 69 => 101 | 70 => 102 | 71 => 103
  | 72 => 104 | 73 => 105 | 74 => 106 | 75 => 107 | 76 => 108 | 77 => 109 | 78 => 110
  | 79 => 111 | 80 => 112 | 81 => 113 | 82 => 114 | 83 => 115 | 84 => 116 | 85 => 117
  | 86 => 118 | 87 => 119 | 88 => 120 | 89 => 121 | 90 => 122
  | c => c

/-- Two bytes are the same byte or the upper-case and lower-case form of one
ASCII letter. -/
def sameLetter (x y : Nat) : Bool :=
  decide (x = y ∨ (65 ≤ x ∧ x ≤ 90 ∧ y = x + 32) ∨ (65 ≤ y ∧ y ≤ 90 ∧ x = y + 32))

/-- Two byte strings differ only in letter case: they have the same length and
agree byte by byte up to the case of ASCII letters. -/
def sameUpToCase : List Nat → List Nat → Bool
  | [], [] => true
  | x :: s, y :: t => sameLetter x y && sameUpToCase s t
  | _, _ => false

namespace SKeyword

/-- The number of elements of the array `name`. -/
def nameSize : Nat := 28

/-- The 28 bytes of the array `name`: the bytes given, cut at the end of the
array, the rest of the array being NUL as after an initialiser. -/
def nameArray (a : SKeyword) : List Nat := (a.name ++ List.replicate nameSize 0).take nameSize

/-- The four bytes of the member `id`, which follows the array `name` in the
structure, in little-endian order. -/
def idBytes (a : SKeyword) : List Nat :=
  [a.id % 256, a.id / 2 ^ 8 % 256, a.id / 2 ^ 16 % 256, a.id / 2 ^ 24 % 256]

/-- The memory from the pointer `a.name` onwards, up to the end of the record:
the array `name`, then the member `id`. -/
def toBytes (a : SKeyword) : List Nat := a.nameArray ++ a.idBytes

/-- The `operator <` on `SKeyword` of assem.h, `strcasecmp(a.name, b.name) < 0`:
case insensitive compare of the memory from the two pointers onwards.  A name
that fills its array without a NUL is read on into the member `id`; the memory
after the record reads as NUL. -/
def lt (a b : SKeyword) : Bool := decide (strcasecmp a.toBytes b.toBytes < 0)

/-- The array `name` holds a C string: a NUL is among its 28 bytes. -/
def Terminated (a : SKeyword) : Prop := 0 ∈ a.nameArray

instance (a : SKeyword) : Decidable a.Terminated := by
  unfold Terminated; infer_instance

/-- The name of a keyword: the bytes of the array `name` before the first NUL
(all 28 bytes when there is none). -/
def cname (a : SKeyword) : List Nat := cstr a.nameArray

/-- The lower-cased name of a keyword. -/
def lowerName (a : SKeyword) : List Nat := a.cname.map asciiLower

end SKeyword

/-! ## Instruction records (disassem.h) -/

/-- The `struct SInstruction` of disassem.h: record structure for an
instruction definition.  The two `char` arrays are given as their bytes. -/
structure SInstruction where
  /-- id number (`uint32_t`) -/
  id : Nat
  /-- 1: single format, 2: tiny, 3: multiformat, 4: jump (`uint32_t`) -/
  category : Nat
  /-- formats supported (`uint64_t`) -/
  format : Nat
  /-- format template (`uint32_t`) -/
  templt : Nat
  /-- number of source operands (`uint32_t`) -/
  sourceoperands : Nat
  /-- operation code (`uint32_t`) -/
  op1 : Nat
  /-- additional operation code (`uint32_t`) -/
  op2 : Nat
  /-- operand types supported for general purpose registers (`uint32_t`) -/
  optypesgp : Nat
  /-- operand types supported for scalars in vector registers (`uint32_t`) -/
  optypesscalar : Nat
  /-- operand types supported for vectors (`uint32_t`) -/
  optypesvector : Nat
  /-- type of immediate operand for single-format instructions (`uint32_t`) -/
  opimmediate : Nat
  /-- template variant (`char[8]`) -/
  template_variant : List Nat
  /-- name of instruction (`char[maxINameLen+1]`) -/
  name : List Nat
  deriving DecidableEq

/-- The `struct SInstruction2 : public SInstruction` of disassem.h: same
structure, but sorted by category, format, and operation codes. -/
structure SInstruction2 extends SInstruction
  deriving DecidableEq

namespace SInstruction2

/-- The tail of `operator <` on `SInstruction2`: sort by op1, last sort
criterion is op2. -/
def ltOp (a b : SInstruction2) : Bool :=
  if a.op1 < b.op1 then true
  else if a.op1 > b.op1 then false
  else decide (a.op2 < b.op2)

/-- The `operator <` on `SInstruction2` of disassem.h: operator for sorting
instructions by category, format, and operation codes. -/
def lt (a b : SInstruction2) : Bool :=
  if a.category < b.category then true
  else if a.category > b.category then false
  else if a.category = 1 then
    if a.format < b.format then true
    else if a.format > b.format then false
    else ltOp a b
  else ltOp a b

/-- The sort key the data model names: (category, format, op1, op2), in
lexicographic order. -/
def key (a : SInstruction2) : Nat ×ₗ Nat ×ₗ Nat ×ₗ Nat :=
  toLex (a.category, toLex (a.format, toLex (a.op1, a.op2)))

/-- The sort key with the format counted for single-format records only
(category 1); for every other category the format is left out of the key. -/
def key1 (a : SInstruction2) : Nat ×ₗ Nat ×ₗ Nat ×ₗ Nat :=
  toLex (a.category, toLex (if a.category = 1 then a.format else 0, toLex (a.op1, a.op2)))

end SInstruction2

/-! ## Instruction templates (disassem.h) -/

/-- Offset of a bit-field in its storage: bit-fields are allocated from the
least-significant bit in declaration order, so the offset is the sum of the
widths declared before it. -/
def fieldOffset {α : Type} [DecidableEq α] : List (α × Nat) → α → Nat
  | [], _ => 0
  | (n, w) :: rest, x => if n = x then 0 else w + fieldOffset rest x

/-- Declared width of a bit-field. -/
def fieldWidth {α : Type} [DecidableEq α] : List (α × Nat) → α → Nat
  | [], _ => 0
  | (n, w) :: rest, x => if n = x then w else fieldWidth rest x

/-- Read an unsigned bit-field of a structure stored in `storage`. -/
def readField {α : Type} [DecidableEq α] (decl : List (α × Nat)) (x : α) (storage : Nat) : Nat :=
  bits storage (fieldOffset decl x) (fieldWidth decl x)

/-- Read a signed (`int32_t`) bit-field of a structure stored in `storage`. -/
def readSigned {α : Type} [DecidableEq α] (decl : List (α × Nat)) (x : α) (storage : Nat) : Int :=
  toSigned (fieldWidth decl x) (readField decl x storage)

/-- The `union STemplate` of disassem.h, universal template for all
instruction formats, given by its three 32-bit words `i[3]`. -/
structure STemplate where
  /-- first word `i[0]` -/
  i0 : Nat
  /-- second word `i[1]` -/
  i1 : Nat
  /-- third word `i[2]` -/
  i2 : Nat
  deriving DecidableEq

namespace STemplate

/-- The member `q` of the union: first 64 bits. -/
def q (t : STemplate) : Nat := t.i0 % 2 ^ 32 + 2 ^ 32 * (t.i1 % 2 ^ 32)

/-- Member names of the view `a`. -/
inductive AField where
  | rt | mask | rs | ot | rd | op1 | mode | il | im2 | ru | im3 | mode2 | op2
  deriving DecidableEq

/-- Member names of the view `d`. -/
inductive DField where
  | im2 | op1 | mode | il
  deriving DecidableEq

/-- Member names of the view `t`. -/
inductive TField where
  | tiny1 | tiny2 | ilmd
  deriving DecidableEq

/-- Declaration of the view `a`: members and widths, in declaration order. -/
def aDecl : List (AField × Nat) :=
  [(.rt, 5), (.mask, 3), (.rs, 5), (.ot, 3), (.rd, 5), (.op1, 6), (.mode, 3), (.il, 2),
   (.im2, 16), (.ru, 5), (.im3, 6), (.mode2, 3), (.op2, 2)]

/-- Declaration of the view `d`: members and widths, in declaration order. -/
def dDecl : List (DField × Nat) :=
  [(.im2, 24), (.op1, 3), (.mode, 3), (.il, 2)]

/-- Declaration of the view `t`: members and widths, in declaration order. -/
def tDecl : List (TField × Nat) :=
  [(.tiny1, 14), (.tiny2, 14), (.ilmd, 4)]

namespace a

/-- Member `a.rt`: source register RT. -/
def rt (t : STemplate) : Nat := readField aDecl .rt t.q
/-- Member `a.mask`: mask register. -/
def mask (t : STemplate) : Nat := readField aDecl .mask t.q
/-- Member `a.rs`: source register RS. -/
def rs (t : STemplate) : Nat := readField aDecl .rs t.q
/-- Member `a.ot`: operand type and M. -/
def ot (t : STemplate) : Nat := readField aDecl .ot t.q
/-- Member `a.rd`: destination register RD. -/
def rd (t : STemplate) : Nat := readField aDecl .rd t.q
/-- Member `a.op1`: operation code OP1. -/
def op1 (t : STemplate) : Nat := readField aDecl .op1 t.q
/-- Member `a.mode`: mode in all formats. -/
def mode (t : STemplate) : Nat := readField aDecl .mode t.q
/-- Member `a.il`: instruction length in all formats. -/
def il (t : STemplate) : Nat := readField aDecl .il t.q
/-- Member `a.im2`: IM2 in format E. -/
def im2 (t : STemplate) : Nat := readField aDecl .im2 t.q
/-- Member `a.ru`: source register RU in format E. -/
def ru (t : STemplate) : Nat := readField aDecl .ru t.q
/-- Member `a.im3`: IM3 in format E. -/
def im3 (t : STemplate) : Nat := readField aDecl .im3 t.q
/-- Member `a.mode2`: mode2 in format E. -/
def mode2 (t : STemplate) : Nat := readField aDecl .mode2 t.q
/-- Member `a.op2`: OP2 in format E. -/
def op2 (t : STemplate) : Nat := readField aDecl .op2 t.q

end a

namespace d

/-- Member `d.im2`: IM2 in format D (signed). -/
def im2 (t : STemplate) : Int := readSigned dDecl .im2 (t.i0 % 2 ^ 32)
/-- Member `d.op1`: the remaining part of OP1 in format D. -/
def op1 (t : STemplate) : Nat := readField dDecl .op1 (t.i0 % 2 ^ 32)
/-- Member `d.mode`: mode in format D. -/
def mode (t : STemplate) : Nat := readField dDecl .mode (t.i0 % 2 ^ 32)
/-- Member `d.il`: instruction length in format D. -/
def il (t : STemplate) : Nat := readField dDecl .il (t.i0 % 2 ^ 32)

end d

namespace t

/-- Member `t.tiny1`: first tiny instruction in format T. -/
def tiny1 (t : STemplate) : Nat := readField tDecl .tiny1 (t.i0 % 2 ^ 32)
/-- Member `t.tiny2`: second tiny instruction in format T. -/
def tiny2 (t : STemplate) : Nat := readField tDecl .tiny2 (t.i0 % 2 ^ 32)
/-- Member `t.ilmd`: 0B0111 in format T. -/
def ilmd (t : STemplate) : Nat := readField tDecl .ilmd (t.i0 % 2 ^ 32)

end t

end STemplate

/-! ## Constants (assem.h)

The `const int` identifiers, as natural numbers; each value is written as in
the header.  The attribute ids that add the section flags of the ELF header
file are left out, that file not being among the sources. -/

/-! ### Token types -/

/-- Token type: end of file. -/
def TOK_EOF : Nat := 1

/-- Token type: unidentified name. -/
def TOK_NAM : Nat := 2

/-- Token type: code label or function name. -/
def TOK_LAB : Nat := 3

/-- Token type: data label. -/
def TOK_VAR : Nat := 4

/-- Token type: section name. -/
def TOK_SEC : Nat := 5

/-- Token type: instruction name. -/
def TOK_INS : Nat := 6

/-- Token type: operator. -/
def TOK_OPR : Nat := 7

/-- Token type: integer number. -/
def TOK_NUM : Nat := 8

/-- Token type: floating point number. -/
def TOK_FLT : Nat := (TOK_NUM + 1)

/-- Token type: character or string in single quotes. -/
def TOK_CHA : Nat := 0x0A

/-- Token type: string in double quotes. -/
def TOK_STR : Nat := 0x0B

/-- Token type: section or function directive. -/
def TOK_DIR : Nat := 0x11

/-- Token type: attribute of sections, functions, or symbols. also some keywords. -/
def TOK_ATT : Nat := 0x12

/-- Token type: type identifier. -/
def TOK_TYP : Nat := 0x14

/-- Token type: options of instructions and operands. -/
def TOK_OPT : Nat := 0x15

/-- Token type: register name. -/
def TOK_REG : Nat := 0x16

/-- Token type: symbol, constant, variable, function. id = symbol index. -/
def TOK_SYM : Nat := 0x1A

/-- Token type: expression. id = expression index. -/
def TOK_XPR : Nat := 0x1B

/-- Token type: high level language block (if, for, etc.). -/
def TOK_HLL : Nat := 0x20

/-- Token type: error. illegal character or unmatched quote. -/
def TOK_ERR : Nat := 0x80

/-! ### Directives -/

/-- Directive keyword id. -/
def DIR_SECTION : Nat := ((TOK_DIR <<< 24) + 1)

/-- Directive keyword id. -/
def DIR_FUNCTION : Nat := ((TOK_DIR <<< 24) + 2)

/-- Directive keyword id. -/
def DIR_END : Nat := ((TOK_DIR <<< 24) + 4)

/-- Directive keyword id. -/
def DIR_PUBLIC : Nat := ((TOK_DIR <<< 24) + 8)

/-- Directive keyword id. -/
def DIR_EXTERN : Nat := ((TOK_DIR <<< 24) + 0x10)

/-! ### Attributes -/

/-- Attribute keyword id. -/
def ATT_ALIGN : Nat := ((TOK_ATT <<< 24) + 0x10)

/-- Attribute keyword id. -/
def ATT_WEAK : Nat := ((TOK_ATT <<< 24) + 0x20)

/-- Attribute keyword id: used for external constants. -/
def ATT_CONSTANT : Nat := ((TOK_ATT <<< 24) + 0x10000)

/-- Attribute keyword id: uninitialized section (BSS). -/
def ATT_UNINIT : Nat := ((TOK_ATT <<< 24) + 0x20000)

/-- Attribute keyword id: communal section. duplicates and unreferenced sections are removed. -/
def ATT_COMDAT : Nat := ((TOK_ATT <<< 24) + 0x40000)

/-! ### Type definitions -/

/-- Type keyword id. -/
def TYP_INT8 : Nat := ((TOK_TYP <<< 24) + 0x10)

/-- Type keyword id. -/
def TYP_INT16 : Nat := ((TOK_TYP <<< 24) + 0x11)

/-- Type keyword id. -/
def TYP_INT32 : Nat := ((TOK_TYP <<< 24) + 0x12)

/-- Type keyword id. -/
def TYP_INT64 : Nat := ((TOK_TYP <<< 24) + 0x13)

/-- Type keyword id. -/
def TYP_INT128 : Nat := ((TOK_TYP <<< 24) + 0x14)

/-- Type keyword id: add this for unsigned integer types. -/
def TYP_UNS : Nat := 0x20

/-- Type keyword id: add this larger type allowed. -/
def TYP_PLUS : Nat := 0x100

/-- Type keyword id. -/
def TYP_FLOAT16 : Nat := ((TOK_TYP <<< 24) + 0x44)

/-- Type keyword id. -/
def TYP_FLOAT32 : Nat := ((TOK_TYP <<< 24) + 0x45)

/-- Type keyword id. -/
def TYP_FLOAT64 : Nat := ((TOK_TYP <<< 24) + 0x46)

/-- Type keyword id. -/
def TYP_FLOAT128 : Nat := ((TOK_TYP <<< 24) + 0x47)

/-- Type keyword id: generic test for int types. -/
def TYP_INT : Nat := 0x10

/-- Type keyword id: generic test for float types. -/
def TYP_FLOAT : Nat := 0x40

/-- Type keyword id. -/
def TYP_STRING : Nat := ((TOK_TYP <<< 24) + 0x18)

/-! ### Options and attributes of instructions -/

/-- Option keyword id. -/
def OPT_MASK : Nat := ((TOK_OPT <<< 24) + 1)

/-- Option keyword id. -/
def OPT_FALLBACK : Nat := ((TOK_OPT <<< 24) + 2)

/-- Option keyword id. -/
def OPT_LENGTH : Nat := ((TOK_OPT <<< 24) + 3)

/-- Option keyword id. -/
def OPT_BROADCAST : Nat := ((TOK_OPT <<< 24) + 4)

/-- Option keyword id. -/
def OPT_LIMIT : Nat := ((TOK_OPT <<< 24) + 5)

/-- Option keyword id. -/
def OPT_SCALAR : Nat := ((TOK_OPT <<< 24) + 6)

/-- Option keyword id. -/
def OPT_OPTIONS : Nat := ((TOK_OPT <<< 24) + 7)

/-! ### Registers -/

/-- Register keyword id: register name prefixes. -/
def REG_R : Nat := 0x20

/-- Register keyword id. -/
def REG_V : Nat := 0x40

/-- Register keyword id. -/
def REG_THREADP : Nat := ((TOK_REG <<< 24) + 0x1C)

/-- Register keyword id. -/
def REG_DATAP : Nat := ((TOK_REG <<< 24) + 0x1D)

/-- Register keyword id. -/
def REG_IP : Nat := ((TOK_REG <<< 24) + 0x1E)

/-- Register keyword id. -/
def REG_SP : Nat := ((TOK_REG <<< 24) + 0x1F + REG_R)

/-- Register keyword id. -/
def REG_SPEC : Nat := 0x60

/-- Register keyword id. -/
def REG_CAPAB : Nat := 0x80

/-- Register keyword id. -/
def REG_PERF : Nat := 0xA0

/-- Register keyword id. -/
def REG_SYS : Nat := 0xC0

/-! ### High level language directives -/

/-- High level language keyword id. -/
def HLL_IF : Nat := ((TOK_HLL <<< 24) + 1)

/-- High level language keyword id. -/
def HLL_ELSE : Nat := ((TOK_HLL <<< 24) + 2)

/-- High level language keyword id. -/
def HLL_SWITCH : Nat := ((TOK_HLL <<< 24) + 3)

/-- High level language keyword id. -/
def HLL_CASE : Nat := ((TOK_HLL <<< 24) + 4)

/-- High level language keyword id. -/
def HLL_FOR : Nat := ((TOK_HLL <<< 24) + 5)

/-- High level language keyword id. -/
def HLL_IN : Nat := ((TOK_HLL <<< 24) + 6)

/-- High level language keyword id. -/
def HLL_NOCHECK : Nat := ((TOK_HLL <<< 24) + 7)

/-- High level language keyword id. -/
def HLL_WHILE : Nat := ((TOK_HLL <<< 24) + 8)

/-- High level language keyword id. -/
def HLL_DO : Nat := ((TOK_HLL <<< 24) + 9)

/-- High level language keyword id. -/
def HLL_BREAK : Nat := ((TOK_HLL <<< 24) + 10)

/-- High level language keyword id. -/
def HLL_CONTINUE : Nat := ((TOK_HLL <<< 24) + 11)

/-- High level language keyword id. -/
def HLL_PUSH : Nat := ((TOK_HLL <<< 24) + 12)

/-- High level language keyword id. -/
def HLL_POP : Nat := ((TOK_HLL <<< 24) + 13)

/-! ### Operator id additions -/

/-- Operator id addition: operator followed by equal sign, e.g. +=. -/
def EQ : Nat := 0x100

/-- Operator id addition: operator repeated, e.g. <<. -/
def D2 : Nat := 0x200

/-- Operator id addition: operator triple, e.g. >>>. -/
def D3 : Nat := 0x400

/-- Operator id addition: unsigned operation. -/
def OP_UNS : Nat := 0x1000

/-! ### SExpression types in .etype -/

/-- Expression type flag: contains integer value. -/
def XPR_INT : Nat := 0x01

/-- Expression type flag: contains a second integer constant in the upper half of value. -/
def XPR_INT2 : Nat := 0x02

/-- Expression type flag: contains floating point value. -/
def XPR_FLT : Nat := 0x04

/-- Expression type flag: contains immediate constant. -/
def XPR_IMMEDIATE : Nat := 0x07

/-- Expression type flag: contains string (u = string buffer entry, sym2 = length). -/
def XPR_STRING : Nat := 0x08

/-- Expression type flag: contains register operand. -/
def XPR_REG : Nat := 0x10

/-- Expression type flag: contains instruction or operator. -/
def XPR_OP : Nat := 0x20

/-- Expression type flag: contains option keyword for memory operand. -/
def XPR_OPTION : Nat := 0x80

/-- Expression type flag: contains memory operand, or part of it. -/
def XPR_MEM : Nat := 0x100

/-- Expression type flag: contains symbol address. -/
def XPR_SYM1 : Nat := 0x200

/-- Expression type flag: contains reference symbol address. -/
def XPR_SYM2 : Nat := 0x400

/-- Expression type flag: contains scale factor on (sym1-sym2). -/
def XPR_SYMSCALE : Nat := 0x800

/-- Expression type flag: contains first register operand. -/
def XPR_REG1 : Nat := 0x1000

/-- Expression type flag: contains second register operand. -/
def XPR_REG2 : Nat := 0x2000

/-- Expression type flag: contains third register operand in value.u. -/
def XPR_REG3 : Nat := 0x4000

/-- Expression type flag: contains base register. -/
def XPR_BASE : Nat := 0x8000

/-- Expression type flag: contains index register and scale factor. -/
def XPR_INDEX : Nat := 0x10000

/-- Expression type flag: contains memory address offset. -/
def XPR_OFFSET : Nat := 0x20000

/-- Expression type flag: contains limit for index. -/
def XPR_LIMIT : Nat := 0x40000

/-- Expression type flag: contains scalar memory operand without broadcast. -/
def XPR_SCALAR : Nat := 0x80000

/-- Expression type flag: contains vector length register. -/
def XPR_LENGTH : Nat := 0x100000

/-- Expression type flag: contains vector broadcast length register. -/
def XPR_BROADC : Nat := 0x200000

/-- Expression type flag: contains mask register. -/
def XPR_MASK : Nat := 0x400000

/-- Expression type flag: contains fallback register. -/
def XPR_FALLBACK : Nat := 0x800000

/-- Expression type flag: contains options or signbits in IM3. -/
def XPR_OPTIONS : Nat := 0x1000000

/-- Expression type flag: contains self-relative jump offset. -/
def XPR_JUMPOS : Nat := 0x2000000

/-- Expression type flag: contains unresolved name or value. -/
def XPR_UNRESOLV : Nat := 0x40000000

/-- Expression type flag: an error occurred during the generation. -/
def XPR_ERROR : Nat := 0x80000000

/-! ### Instruction ids -/

/-- Instruction id. -/
def II_NOP : Nat := 0x30000

/-- Instruction id. -/
def II_STORE : Nat := 1

/-- Instruction id. -/
def II_MOVE : Nat := 2

/-- Instruction id. -/
def II_COMPARE : Nat := 7

/-- Instruction id. -/
def II_ADD : Nat := 8

/-- Instruction id. -/
def II_SUB : Nat := 9

/-- Instruction id. -/
def II_SUB_REV : Nat := 10

/-- Instruction id. -/
def II_MUL : Nat := 11

/-- Instruction id. -/
def II_MUL_HI : Nat := 12

/-- Instruction id. -/
def II_MUL_EX : Nat := 14

/-- Instruction id. -/
def II_DIV : Nat := 16

/-- Instruction id. -/
def II_DIV_U : Nat := 17

/-- Instruction id. -/
def II_DIV_REV : Nat := 18

/-- Instruction id. -/
def II_DIV_EX : Nat := 0x12018

/-- Instruction id. -/
def II_REM : Nat := 20

/-- Instruction id. -/
def II_REM_U : Nat := 21

/-- Instruction id. -/
def II_MIN : Nat := 22

/-- Instruction id. -/
def II_MIN_U : Nat := 23

/-- Instruction id. -/
def II_MAX : Nat := 24

/-- Instruction id. -/
def II_MAX_U : Nat := 25

/-- Instruction id: 0x1C. -/
def II_AND : Nat := 28

/-- Instruction id. -/
def II_AND_NOT : Nat := 29

/-- Instruction id: 0x1E. -/
def II_OR : Nat := 30

/-- Instruction id: 0x1F. -/
def II_XOR : Nat := 31

/-- Instruction id. -/
def II_SHIFT_LEFT : Nat := 32

/-- Instruction id. -/
def II_MUL_2POW : Nat := 32

/-- Instruction id. -/
def II_ROTATE : Nat := 33

/-- Instruction id. -/
def II_SHIFT_RIGHT_S : Nat := 34

/-- Instruction id: must be = II_SHIFT_RIGHT_S | 1. -/
def II_SHIFT_RIGHT_U : Nat := 35

/-- Instruction id. -/
def II_SET_BIT : Nat := 36

/-- Instruction id. -/
def II_CLEAR_BIT : Nat := 37

/-- Instruction id. -/
def II_TOGGLE_BIT : Nat := 38

/-- Instruction id: 0x27. -/
def II_AND_BIT : Nat := 39

/-- Instruction id: 0x28. -/
def II_TEST_BIT : Nat := 40

/-- Instruction id. -/
def II_MUL_ADD : Nat := 48

/-- Instruction id. -/
def II_MUL_ADD2 : Nat := 49

/-- Instruction id. -/
def II_ADD_ADD : Nat := 50

/-- Instruction id. -/
def II_SHIFT_U_ADD : Nat := 0x0101

/-- Instruction id: float16. -/
def II_ADD_H : Nat := 0x50008

/-- Instruction id. -/
def II_SUB_H : Nat := 0x50009

/-- Instruction id. -/
def II_MUL_H : Nat := 0x5000B

/-- Instruction id. -/
def II_DIV_H : Nat := 0x50010

/-- Instruction id. -/
def II_MUL_ADD_H : Nat := 0x50030

/-- Instruction id. -/
def II_REPLACE : Nat := 0xA0001

/-- Instruction id. -/
def II_REPLACE_EVEN : Nat := 0x26004

/-- Instruction id. -/
def II_REPLACE_ODD : Nat := 0x26005

/-- Instruction id: increment. combine with II_JUMP_POSITIVE. -/
def II_INCREMENT : Nat := 0x0051

/-- Instruction id: sbutract max vector length. combine with II_JUMP_POSITIVE. -/
def II_SUB_MAXLEN : Nat := 0x0052

/-- Instruction id: jump codes may be combined with II_ADD etc. -/
def II_JUMP : Nat := 0x101000

/-- Instruction id: xor with 0x100 for opposite condition. -/
def II_JUMP_ZERO : Nat := 0x101200

/-- Instruction id: not zero or not equal. -/
def II_JUMP_NOTZERO : Nat := 0x101300

/-- Instruction id: positive or signed above. -/
def II_JUMP_POSITIVE : Nat := 0x101400

/-- Instruction id: positive or signed below. -/
def II_JUMP_NEGATIVE : Nat := 0x101600

/-- Instruction id: signed overflow. -/
def II_JUMP_OVERFLOW : Nat := 0x101800

/-- Instruction id: carry, borrow, unsigned below, abs below. Reverse condition if sub n replaced by add (-n). -/
def II_JUMP_CARRY : Nat := 0x102000

/-- Instruction id: unsigned above, abs above. -/
def II_JUMP_UABOVE : Nat := 0x102200

/-- Instruction id. -/
def II_JUMP_ALL1 : Nat := 0x102400

/-- Instruction id. -/
def II_JUMP_NFINITE : Nat := 0x102600

/-- Instruction id: bit to identify direct jump and call instructions. -/
def II_JUMP_INSTR : Nat := 0x100000

/-- Instruction id: flip this bit to invert condition. -/
def II_JUMP_INVERT : Nat := 0x0100

/-- Instruction id: align directive. -/
def II_ALIGN : Nat := 0x100000

/-! ### Bit values generated by fitConstant -/

/-- Fit flag: x fits into unsigned 4-bit integer. -/
def IFIT_U4 : Nat := 4

/-- Fit flag: fits into signed 8-bit integer. -/
def IFIT_I8 : Nat := 0x10

/-- Fit flag: (-x) fits into signed 8-bit integer. -/
def IFIT_J8 : Nat := 0x20

/-- Fit flag: x fits into unsigned 8-bit integer. -/
def IFIT_U8 : Nat := 0x40

/-- Fit flag: fits into signed 8-bit integer with left shift. -/
def IFIT_I8SHIFT : Nat := 0x80

/-- Fit flag: fits into signed 16-bit integer. -/
def IFIT_I16 : Nat := 0x100

/-- Fit flag: (-x) fits into signed 16-bit integer. -/
def IFIT_J16 : Nat := 0x200

/-- Fit flag: fits into unsigned 16-bit integer. -/
def IFIT_U16 : Nat := 0x400

/-- Fit flag: fits into signed 16-bit integer with left shift. -/
def IFIT_I16SHIFT : Nat := 0x800

/-- Fit flag: fits into signed 16-bit integer shifted left by 16. -/
def IFIT_I16SH16 : Nat := 0x1000

/-- Fit flag: fits into signed 24-bit signed integer. -/
def IFIT_I24 : Nat := 0x4000

/-- Fit flag: fits into signed 32-bit integer. -/
def IFIT_I32 : Nat := 0x10000

/-- Fit flag: (-x) fits into signed 32-bit integer. -/
def IFIT_J32 : Nat := 0x20000

/-- Fit flag: fits into unsigned 32-bit integer. -/
def IFIT_U32 : Nat := 0x40000

/-- Fit flag: fits into signed 32-bit integer with left shift. -/
def IFIT_I32SHIFT : Nat := 0x80000

/-- Fit flag: fits into 32-bit integer shifted left by 32. -/
def IFIT_I32SH32 : Nat := 0x100000

/-- Fit flag: (-x) fits better than x. -/
def IFIT_J : Nat := (IFIT_J8 ||| IFIT_J16 ||| IFIT_J32)

/-- Fit flag: fits into normal half precision. -/
def FFIT_16 : Nat := 0x1000000

/-- Fit flag: fits into normal single precision. -/
def FFIT_32 : Nat := 0x2000000

/-- Fit flag: fits into double precision. -/
def FFIT_64 : Nat := 0x4000000

/-- Fit flag: relocation record needed. -/
def IFIT_RELOC : Nat := 0x10000000

/-- Fit flag: choose the larger size if uncertain. This input is used if optimization process has convergence problems. -/
def IFIT_LARGE : Nat := 0x20000000

/-! ## Ids built from the constants -/

/-- The additions an operator id may carry. -/
def operatorFlags : Finset Nat := {EQ, D2, D3, OP_UNS}

/-- The operator id of the character code `c` with the additions `F`: the
ASCII code plus the additions. -/
def operatorId (c : Nat) (F : Finset Nat) : Nat := c + F.sum id

/-- The token types, in the order of the header. -/
def tokenTypes : List Nat :=
  [TOK_EOF, TOK_NAM, TOK_LAB, TOK_VAR, TOK_SEC, TOK_INS, TOK_OPR, TOK_NUM, TOK_FLT, TOK_CHA,
   TOK_STR, TOK_DIR, TOK_ATT, TOK_TYP, TOK_OPT, TOK_REG, TOK_SYM, TOK_XPR, TOK_HLL, TOK_ERR]

/-- The keyword ids of the directives. -/
def directiveIds : List Nat := [DIR_SECTION, DIR_FUNCTION, DIR_END, DIR_PUBLIC, DIR_EXTERN]

/-- The keyword ids of the attributes whose value the header fixes. -/
def attributeIds : List Nat := [ATT_ALIGN, ATT_WEAK, ATT_CONSTANT, ATT_UNINIT, ATT_COMDAT]

/-- The keyword ids of the types. -/
def typeIds : List Nat :=
  [TYP_INT8, TYP_INT16, TYP_INT32, TYP_INT64, TYP_INT128, TYP_FLOAT16, TYP_FLOAT32,
   TYP_FLOAT64, TYP_FLOAT128, TYP_STRING]

/-- The keyword ids of the options. -/
def optionIds : List Nat :=
  [OPT_MASK, OPT_FALLBACK, OPT_LENGTH, OPT_BROADCAST, OPT_LIMIT, OPT_SCALAR, OPT_OPTIONS]

/-- The keyword ids of the named registers. -/
def registerIds : List Nat := [REG_THREADP, REG_DATAP, REG_IP, REG_SP]

/-- The keyword ids of the high level language directives. -/
def hllIds : List Nat :=
  [HLL_IF, HLL_ELSE, HLL_SWITCH, HLL_CASE, HLL_FOR, HLL_IN, HLL_NOCHECK, HLL_WHILE, HLL_DO,
   HLL_BREAK, HLL_CONTINUE, HLL_PUSH, HLL_POP]

/-- All keyword ids. -/
def keywordIds : List Nat :=
  directiveIds ++ attributeIds ++ typeIds ++ optionIds ++ registerIds ++ hllIds

/-- The token type a keyword id resolves to: its bits 24 and up. -/
def tokenTypeOf (id : Nat) : Nat := id >>> 24

/-- The jump ids. -/
def jumpIds : List Nat :=
  [II_JUMP, II_JUMP_ZERO, II_JUMP_NOTZERO, II_JUMP_POSITIVE, II_JUMP_NEGATIVE,
   II_JUMP_OVERFLOW, II_JUMP_CARRY, II_JUMP_UABOVE, II_JUMP_ALL1, II_JUMP_NFINITE]

/-- The arithmetic instruction ids that the claim names as combinable with a jump id. -/
def arithmeticIds : List Nat :=
  [II_COMPARE, II_ADD, II_SUB, II_AND, II_OR, II_XOR, II_TEST_BIT, II_INCREMENT,
   II_SUB_MAXLEN]

/-- The C operator `~` on a 32-bit `int`, as a bit pattern. -/
def not32 (x : Nat) : Nat := 2 ^ 32 - 1 - x % 2 ^ 32

/-- The register name prefixes: the family of a register code. -/
def registerFamilies : List Nat := [REG_R, REG_V, REG_SPEC, REG_CAPAB, REG_PERF, REG_SYS]

/-- The code of register number `n` of the family with prefix `f`. -/
def registerCode (f n : Nat) : Nat := f + n

namespace SExpression

/-- The flags of `SExpression::etype`. -/
def xprFlags : List Nat :=
  [XPR_INT, XPR_INT2, XPR_FLT, XPR_IMMEDIATE, XPR_STRING, XPR_REG, XPR_OP, XPR_OPTION,
   XPR_MEM, XPR_SYM1, XPR_SYM2, XPR_SYMSCALE, XPR_REG1, XPR_REG2, XPR_REG3, XPR_BASE,
   XPR_INDEX, XPR_OFFSET, XPR_LIMIT, XPR_SCALAR, XPR_LENGTH, XPR_BROADC, XPR_MASK,
   XPR_FALLBACK, XPR_OPTIONS, XPR_JUMPOS, XPR_UNRESOLV, XPR_ERROR]

/-- The expression has the flag `F` in its `etype`: the test `etype & F`. -/
def hasFlag (e : SExpression) (F : Nat) : Bool := e.etype &&& F != 0

end SExpression

/-! ## Bit-field assignment -/

/-- Assign `v` to a bit-field of a structure stored in `storage`: the value is
reduced to the width of the field and the other bits of the storage are kept. -/
def writeField {α : Type} [DecidableEq α] (decl : List (α × Nat)) (x : α) (storage v : Nat) :
    Nat :=
  storage % 2 ^ fieldOffset decl x + 2 ^ fieldOffset decl x * (v % 2 ^ fieldWidth decl x) +
    2 ^ (fieldOffset decl x + fieldWidth decl x) *
      (storage / 2 ^ (fieldOffset decl x + fieldWidth decl x))

/-- Assign `v` to a signed bit-field: its two's-complement bit pattern is stored. -/
def writeSigned {α : Type} [DecidableEq α] (decl : List (α × Nat)) (x : α) (storage : Nat)
    (v : Int) : Nat :=
  writeField decl x storage (toUnsigned (fieldWidth decl x) v)

/-- The bit positions a bit-field member occupies: it covers bit `p`. -/
def fieldCovers {α : Type} [DecidableEq α] (decl : List (α × Nat)) (x : α) (p : Nat) : Bool :=
  decide (fieldOffset decl x ≤ p ∧ p < fieldOffset decl x + fieldWidth decl x)

/-- The members of a declaration that cover bit `p`. -/
def coveringFields {α : Type} [DecidableEq α] (decl : List (α × Nat)) (p : Nat) : List α :=
  (decl.map Prod.fst).filter (fun x => fieldCovers decl x p)

namespace STemplate

/-- The template whose first 64 bits are `q` and whose third word is `i2`. -/
def ofQ (q i2 : Nat) : STemplate := ⟨q % 2 ^ 32, q / 2 ^ 32 % 2 ^ 32, i2⟩

namespace a

/-- Read the member `f` of the view `a`. -/
def read (f : AField) (x : STemplate) : Nat := readField aDecl f x.q

/-- Assign `v` to the member `f` of the view `a`. -/
def write (f : AField) (v : Nat) (x : STemplate) : STemplate :=
  ofQ (writeField aDecl f x.q v) x.i2

/-- Assign every member of the view `a`, in declaration order, starting from
an all-zero template. -/
def pack (vals : AField → Nat) : STemplate :=
  aDecl.foldl (fun x fw => write fw.1 (vals fw.1) x) ⟨0, 0, 0⟩

end a
end STemplate

namespace STemplate
namespace d

/-- Assign `v` to the member `d.im2`. -/
def setIm2 (v : Int) (x : STemplate) : STemplate :=
  { x with i0 := writeSigned dDecl .im2 (x.i0 % 2 ^ 32) v }

end d
end STemplate

/-- The `union STinyTemplate` of disassem.h, given by its member `i`. -/
structure STinyTemplate where
  /-- the member `i` (`uint32_t`) -/
  i : Nat
  deriving DecidableEq

namespace STinyTemplate

/-- Member names of the view `t` of a tiny instruction. -/
inductive TinyField where
  | rs | rd | op1
  deriving DecidableEq

/-- Declaration of the view `t`: members and widths, in declaration order. -/
def tDecl : List (TinyField × Nat) := [(.rs, 4), (.rd, 5), (.op1, 5)]

namespace t

/-- Member `t.rs` (signed). -/
def rs (x : STinyTemplate) : Int := readSigned tDecl .rs (x.i % 2 ^ 32)
/-- Member `t.rd`. -/
def rd (x : STinyTemplate) : Nat := readField tDecl .rd (x.i % 2 ^ 32)
/-- Member `t.op1`. -/
def op1 (x : STinyTemplate) : Nat := readField tDecl .op1 (x.i % 2 ^ 32)

/-- Assign the three members, in declaration order, starting from zero. -/
def pack (rs : Int) (rd op1 : Nat) : STinyTemplate :=
  ⟨writeField tDecl .op1 (writeField tDecl .rd (writeSigned tDecl .rs 0 rs) rd) op1⟩

end t
end STinyTemplate

/-! ## Format lookup (disassem.h) -/

/-- The `struct SFormatIndex` of disassem.h: record in nested lookup lists for
formats. -/
structure SFormatIndex where
  /-- criterion for lookup into next table: 0 = format table (`uint8_t`) -/
  crit : Nat
  /-- offset into next table, or index into the format table (`uint8_t`) -/
  index : Nat
  deriving DecidableEq

namespace STemplate

/-- The member `b[0]` of the union: IM1 in format B, the low byte of the first
word. -/
def IM1 (x : STemplate) : Nat := x.i0 % 2 ^ 32 % 2 ^ 8

/-- The member `s[0]` of the union: IM1+2 in format C, the low half of the
first word. -/
def IM12 (x : STemplate) : Nat := x.i0 % 2 ^ 32 % 2 ^ 16

end STemplate

/-- Modelled from the spec: the number a lookup criterion adds to the offset
into the next table.  The code that evaluates a criterion is in the body of
`lookupFormat`, which the headers only declare; the values are those that the
comment on `SFormatIndex::crit` lists: 1: mode2, 2: op1 / 8, 3: op1 % 8,
4: IM1 % 64 / 8, 5: IM1 % 8, 6: IM12 == 0xFFFF. -/
def criterion (crit : Nat) (x : STemplate) : Nat :=
  match crit with
  | 1 => STemplate.a.mode2 x
  | 2 => STemplate.a.op1 x / 8
  | 3 => STemplate.a.op1 x % 8
  | 4 => STemplate.IM1 x % 64 / 8
  | 5 => STemplate.IM1 x % 8
  | 6 => if STemplate.IM12 x = 0xFFFF then 1 else 0
  | _ => 0

/-- Modelled from the spec: the walk of `lookupFormat` through the nested
`SFormatIndex` tables (the body of `lookupFormat` and the tables are not among
the sources).  The tables are given as one array; a node with `crit` = 0 is a
leaf and ends the walk, any other node sends the walk to its `index` plus the
value of its criterion.  The walk gives `none` when it leaves the array or
when `fuel` steps did not reach a leaf. -/
def lookupWalk (table : List SFormatIndex) (x : STemplate) : Nat → Nat → Option SFormatIndex
  | 0, _ => none
  | fuel + 1, pos =>
    match table[pos]? with
    | none => none
    | some node =>
      if node.crit = 0 then some node
      else lookupWalk table x fuel (node.index + criterion node.crit x)

/-- Modelled from the spec: `lookupFormat`, look up format in the format list
(its body is not among the sources).  The walk starts at the entry for `il`
and `mode` of the first word and lasts at most as many steps as the tables
have nodes; the result is the format index of the leaf reached when that is
an index of a record of the format list, and the sentinel `invalid`
otherwise. -/
def lookupFormat (table : List SFormatIndex) (formatListSize invalid : Nat) (instruct : Nat) :
    Nat :=
  match lookupWalk table (STemplate.ofQ instruct 0) table.length
      (STemplate.a.il (STemplate.ofQ instruct 0) * 8 +
        STemplate.a.mode (STemplate.ofQ instruct 0)) with
  | some leaf => if leaf.index < formatListSize then leaf.index else invalid
  | none => invalid

/-- The largest number a lookup criterion can add: 7 for the criteria 1 to 5,
which are three-bit numbers, 1 for criterion 6, which is a comparison. -/
def criterionMax (crit : Nat) : Nat :=
  match crit with
  | 1 => 7
  | 2 => 7
  | 3 => 7
  | 4 => 7
  | 5 => 7
  | 6 => 1
  | _ => 0

/-- A node obeys the nesting of the tables: a node that is not a leaf points
into a later table that has an entry for every value of its criterion. -/
def nodeNested (size pos : Nat) (node : SFormatIndex) : Bool :=
  node.crit == 0 ||
    (decide (pos < node.index) && decide (node.index + criterionMax node.crit < size))

/-- Modelled from the spec: the lookup tables are nested.  The first table has
an entry for each of the 32 values of `il` and `mode`, and every node obeys
the nesting. -/
def Nested (table : List SFormatIndex) : Prop :=
  32 ≤ table.length ∧
    ∀ pos : Nat, pos < table.length → nodeNested table.length pos (table.getD pos ⟨0, 0⟩) = true

instance (table : List SFormatIndex) : Decidable (Nested table) := by
  unfold Nested; infer_instance

/-- A sample of nested tables: the first table has 32 entries, all leaves but
entry 8, which looks `op1 / 8` up in a second table of eight leaves. -/
def sampleTable : List SFormatIndex :=
  (List.range 32).map (fun i => if i = 8 then ⟨2, 32⟩ else ⟨0, i⟩) ++
    (List.range 8).map (fun j => ⟨0, 40 + j⟩)

/-- A sample of tables that are not nested: every node sends the walk back to
the start of the first table. -/
def sampleCycle : List SFormatIndex := List.replicate 32 ⟨6, 0⟩

/-! ## Codes and constant fitting (assem.h) -/

/-- The `struct SCode : public SExpression` of assem.h: the result of
interpreting a line of code containing an instruction.  The pointer `formatp`
is given as the index of the record it points to. -/
structure SCode extends SExpression where
  /-- instruction format: record in the format list -/
  formatp : Nat
  /-- entry into lines buffer (`uint32_t`) -/
  line : Nat
  /-- code section (`uint32_t`) -/
  section_ : Nat
  /-- address relative to begin of section (`uint32_t`) -/
  address : Nat
  /-- a code or data label (`uint32_t`) -/
  label : Nat
  /-- data type (`uint32_t`) -/
  dtype : Nat
  /-- index to instruction in instructionlist (`uint32_t`) -/
  instr1 : Nat
  /-- indicates if immediate constant fits a certain representation (`uint32_t`) -/
  fitNum : Nat
  /-- indicates if relative address or jump offset fits a certain number of bits (`uint32_t`) -/
  fitAddr : Nat
  /-- destination register (`uint8_t`) -/
  dest : Nat
  /-- number of source operands (`uint8_t`) -/
  numOp : Nat
  /-- size of instruction (`uint8_t`) -/
  size : Nat
  /-- actual size may be up to this value bigger (`uint8_t`) -/
  sizeUnknown : Nat
  /-- instruction category (`uint8_t`) -/
  category : Nat
  deriving DecidableEq

/-! ## Combining a code with an expression (assem.h) -/

namespace SCode

/-- Value of `sizeof(SCode)` with 8-byte pointers: the base `SExpression`, the
pointer, eight `uint32_t`, five `uint8_t` and three bytes of padding. -/
def sizeof : Nat := SExpression.sizeof + 8 + 8 * 4 + 5 * 1 + 3

/-- Every member that `SCode` adds to `SExpression` holds a value of its
declared C type. -/
def OwnInRange (c : SCode) : Prop :=
  c.formatp < 2 ^ 64 ∧ c.line < 2 ^ 32 ∧ c.section_ < 2 ^ 32 ∧ c.address < 2 ^ 32 ∧
  c.label < 2 ^ 32 ∧ c.dtype < 2 ^ 32 ∧ c.instr1 < 2 ^ 32 ∧ c.fitNum < 2 ^ 32 ∧
  c.fitAddr < 2 ^ 32 ∧ c.dest < 2 ^ 8 ∧ c.numOp < 2 ^ 8 ∧ c.size < 2 ^ 8 ∧
  c.sizeUnknown < 2 ^ 8 ∧ c.category < 2 ^ 8

instance (c : SCode) : Decidable c.OwnInRange := by
  unfold OwnInRange; infer_instance

/-- The object representation of an `SCode` read as an array of `uint64_t`:
the six words of the base `SExpression`, then the members of `SCode` in
declaration order; the padding reads as zero. -/
def toWords (c : SCode) : List Nat :=
  c.toSExpression.toWords ++
  [ c.formatp % 2 ^ 64,
    c.line % 2 ^ 32 + 2 ^ 32 * (c.section_ % 2 ^ 32),
    c.address % 2 ^ 32 + 2 ^ 32 * (c.label % 2 ^ 32),
    c.dtype % 2 ^ 32 + 2 ^ 32 * (c.instr1 % 2 ^ 32),
    c.fitNum % 2 ^ 32 + 2 ^ 32 * (c.fitAddr % 2 ^ 32),
    c.dest % 2 ^ 8 + 2 ^ 8 * (c.numOp % 2 ^ 8) + 2 ^ 16 * (c.size % 2 ^ 8)
      + 2 ^ 24 * (c.sizeUnknown % 2 ^ 8) + 2 ^ 32 * (c.category % 2 ^ 8) ]

/-- The `SCode` whose object representation is the given array of `uint64_t`
(a missing word reads as zero). -/
def ofWords (ws : List Nat) : SCode where
  toSExpression := SExpression.ofWords ws
  formatp := bits (ws.getD 6 0) 0 64
  line := bits (ws.getD 7 0) 0 32
  section_ := bits (ws.getD 7 0) 32 32
  address := bits (ws.getD 8 0) 0 32
  label := bits (ws.getD 8 0) 32 32
  dtype := bits (ws.getD 9 0) 0 32
  instr1 := bits (ws.getD 9 0) 32 32
  fitNum := bits (ws.getD 10 0) 0 32
  fitAddr := bits (ws.getD 10 0) 32 32
  dest := bits (ws.getD 11 0) 0 8
  numOp := bits (ws.getD 11 0) 8 8
  size := bits (ws.getD 11 0) 16 8
  sizeUnknown := bits (ws.getD 11 0) 24 8
  category := bits (ws.getD 11 0) 32 8

/-- The loop `for (i = 0; i < n; i++) r[i] = x[i] | y[i];` writing into the
array `r`, whose other words stay as they are. -/
def orInto (n : Nat) (r x y : List Nat) : List Nat :=
  (List.range r.length).map fun i => if i < n then x.getD i 0 ||| y.getD i 0 else r.getD i 0

/-- The `operator | (SCode const &, SExpression const &)` of assem.h: `code0`
is a copy of `code1`, and the loop runs over the words of an `SExpression`. -/
def or (code1 : SCode) (exp2 : SExpression) : SCode :=
  ofWords (orInto (SExpression.sizeof / SExpression.sizeofU64) code1.toWords code1.toWords
    exp2.toWords)

instance : HOr SCode SExpression SCode := ⟨SCode.or⟩

end SCode

/-! ## Relocations (disassem.h) -/

/-- Modelled from the spec: the `struct ElfFWC_Rela2` relocation record, which
is declared in the ELF header file and is not among the sources.  The members
`r_section` and `r_offset` are the two that `operator <` reads; the others are
those of the data model: symbol, addend, type, scale and reference symbol. -/
structure ElfFWC_Rela2 where
  /-- section of the relocated field -/
  r_section : Nat
  /-- offset of the relocated field within its section -/
  r_offset : Nat
  /-- symbol the relocation refers to -/
  r_sym : Nat
  /-- addend -/
  r_addend : Int
  /-- relocation type -/
  r_type : Nat
  /-- scale factor -/
  r_scale : Nat
  /-- reference symbol of a difference relocation -/
  r_refsym : Nat
  deriving DecidableEq, Repr

namespace ElfFWC_Rela2

/-- The `operator <` of disassem.h on `ElfFWC_Rela2`: operator for sorting
relocations by address. -/
def lt (a b : ElfFWC_Rela2) : Bool :=
  if a.r_section < b.r_section then true
  else if a.r_section > b.r_section then false
  else decide (a.r_offset < b.r_offset)

end ElfFWC_Rela2

/-! ## Jump ids and type tests (assem.h) -/

/-- The instruction ids of assem.h, `II_NOP` to `II_ALIGN` in the order of
their definition, without the two masks `II_JUMP_INSTR` and `II_JUMP_INVERT`. -/
def instructionIds : List Nat :=
  [II_NOP, II_STORE, II_MOVE, II_COMPARE, II_ADD, II_SUB, II_SUB_REV, II_MUL, II_MUL_HI,
   II_MUL_EX, II_DIV, II_DIV_U, II_DIV_REV, II_DIV_EX, II_REM, II_REM_U, II_MIN, II_MIN_U,
   II_MAX, II_MAX_U, II_AND, II_AND_NOT, II_OR, II_XOR, II_SHIFT_LEFT, II_MUL_2POW, II_ROTATE,
   II_SHIFT_RIGHT_S, II_SHIFT_RIGHT_U, II_SET_BIT, II_CLEAR_BIT, II_TOGGLE_BIT, II_AND_BIT,
   II_TEST_BIT, II_MUL_ADD, II_MUL_ADD2, II_ADD_ADD, II_SHIFT_U_ADD, II_ADD_H, II_SUB_H,
   II_MUL_H, II_DIV_H, II_MUL_ADD_H, II_REPLACE, II_REPLACE_EVEN, II_REPLACE_ODD,
   II_INCREMENT, II_SUB_MAXLEN, II_JUMP, II_JUMP_ZERO, II_JUMP_NOTZERO, II_JUMP_POSITIVE,
   II_JUMP_NEGATIVE, II_JUMP_OVERFLOW, II_JUMP_CARRY, II_JUMP_UABOVE, II_JUMP_ALL1,
   II_JUMP_NFINITE, II_ALIGN]

/-- The test `id & II_JUMP_INSTR` of the bit to identify direct jump and call
instructions. -/
def isJumpInstr (id : Nat) : Bool := id &&& II_JUMP_INSTR != 0

/-- The id with the bit `II_JUMP_INVERT` flipped: `id ^ II_JUMP_INVERT`. -/
def invertCondition (id : Nat) : Nat := id ^^^ II_JUMP_INVERT

/-- The seven condition ids that are defined without an opposite. -/
def oneWayConditions : List Nat :=
  [II_JUMP_POSITIVE, II_JUMP_NEGATIVE, II_JUMP_OVERFLOW, II_JUMP_CARRY, II_JUMP_UABOVE,
   II_JUMP_ALL1, II_JUMP_NFINITE]

/-- The signed integer type ids. -/
def intTypeIds : List Nat := [TYP_INT8, TYP_INT16, TYP_INT32, TYP_INT64, TYP_INT128]

/-- The unsigned integer type ids: an integer type id with `TYP_UNS` added. -/
def unsignedTypeIds : List Nat := intTypeIds.map fun t => t + TYP_UNS

/-- The floating point type ids. -/
def floatTypeIds : List Nat := [TYP_FLOAT16, TYP_FLOAT32, TYP_FLOAT64, TYP_FLOAT128]

/-- The type ids that the type tests are applied to: the integer types, signed
and unsigned, the floating point types and the string type. -/
def definedTypeIds : List Nat := intTypeIds ++ unsignedTypeIds ++ floatTypeIds ++ [TYP_STRING]

/-- The generic test for int types: `t & TYP_INT`. -/
def isIntType (t : Nat) : Bool := t &&& TYP_INT != 0

/-- The generic test for float types: `t & TYP_FLOAT`. -/
def isFloatType (t : Nat) : Bool := t &&& TYP_FLOAT != 0

/-! ## Fit flags (assem.h) -/

/-- The bit values generated by `fitConstant()` that name a representation, in
the order of their definition, with `IFIT_RELOC` and `IFIT_LARGE`; the
combination `IFIT_J` is left out. -/
def fitFlags : List Nat :=
  [IFIT_U4, IFIT_I8, IFIT_J8, IFIT_U8, IFIT_I8SHIFT, IFIT_I16, IFIT_J16, IFIT_U16,
   IFIT_I16SHIFT, IFIT_I16SH16, IFIT_I24, IFIT_I32, IFIT_J32, IFIT_U32, IFIT_I32SHIFT,
   IFIT_I32SH32, FFIT_16, FFIT_32, FFIT_64, IFIT_RELOC, IFIT_LARGE]

/-- The bit numbers of the fit flags, in the order of `fitFlags`. -/
def fitBits : List Nat :=
  [2, 4, 5, 6, 7, 8, 9, 10, 11, 12, 14, 16, 17, 18, 19, 20, 24, 25, 26, 28, 29]

/-- The bitmap holding the given flags: their bitwise OR. -/
def bitmapOf (s : List Nat) : Nat := s.foldr (fun f m => f ||| m) 0

/-! ## Sample data -/

/-- A sample name buffer: an empty first entry followed by the NUL-terminated
names `ab` (offset 1), `cd` (offset 4) and `ab` again (offset 7). -/
def sampleNames : List Nat := [0, 97, 98, 0, 99, 100, 0, 97, 98, 0]

/-- A sample symbol with the given name offset, section index and value. -/
def sampleSym (st_name st_shndx st_value : Nat) : ElfFWC_Sym2 :=
  { st_name := st_name, st_type := 0, st_bind := 0, st_other := 0, st_shndx := st_shndx,
    st_value := st_value, st_size := 0, st_reguse1 := 0, st_reguse2 := 0 }

/-- A sample symbol list, sorted by name: `ab`, `ab`, `cd`. -/
def sampleSymbols : List ElfFWC_Sym2 :=
  [sampleSym 1 1 0x10, sampleSym 7 2 0x20, sampleSym 4 1 0x30]

/-- A sample instruction record with the given category, format and
operation codes. -/
def sampleInstr (category format op1 op2 : Nat) : SInstruction2 :=
  { id := 0, category := category, format := format, templt := 0, sourceoperands := 0,
    op1 := op1, op2 := op2, optypesgp := 0, optypesscalar := 0, optypesvector := 0,
    opimmediate := 0, template_variant := [], name := [] }

/-- A sample code record: the expression `sampleA` with every member that
`SCode` adds populated. -/
def SCode.sampleC : SCode :=
  { SExpression.sampleA with
    formatp := 0x7FFF00001000, line := 12, section_ := 1, address := 0x40, label := 9,
    dtype := 0x6000013, instr1 := 77, fitNum := 0x3F, fitAddr := 0x800000, dest := 2,
    numOp := 3, size := 1, sizeUnknown := 2, category := 255 }

/-- A sample relocation. -/
def ElfFWC_Rela2.sampleR : ElfFWC_Rela2 :=
  { r_section := 2, r_offset := 0x40, r_sym := 5, r_addend := -4, r_type := 0x1000,
    r_scale := 1, r_refsym := 0 }

/-- A sample relocation at the address of `sampleR` that differs from it in
every other member. -/
def ElfFWC_Rela2.sampleS : ElfFWC_Rela2 :=
  { r_section := 2, r_offset := 0x40, r_sym := 9, r_addend := 16, r_type := 0x2001,
    r_scale := 4, r_refsym := 3 }

/-- A sample keyword whose name fills the array `name` with 28 letters `x`,
leaving no room for a NUL. -/
def sampleFull1 : SKeyword := ⟨List.replicate 28 120, 1⟩

/-- A sample keyword with the name of `sampleFull1` and another `id`. -/
def sampleFull2 : SKeyword := ⟨List.replicate 28 120, 2⟩

/-- The sample keyword `Section`. -/
def sampleSection : SKeyword := ⟨[83, 101, 99, 116, 105, 111, 110], DIR_SECTION⟩

/-- The sample keyword `SECTION`. -/
def sampleSECTION : SKeyword := ⟨[83, 69, 67, 84, 73, 79, 78], DIR_SECTION⟩

/-- The sample keyword `public`. -/
def samplePublic : SKeyword := ⟨[112, 117, 98, 108, 105, 99], DIR_PUBLIC⟩

/-! # Theorems -/

/-! ## Layout of `SExpression` -/

namespace SExpression

theorem toUnsigned_lt (w : Nat) (x : Int) : toUnsigned w x < 2 ^ w := by
  unfold toUnsigned
  have hpos : (0 : Int) < 2 ^ w := by positivity
  have h1 := Int.emod_nonneg x (ne_of_gt hpos)
  have h2 := Int.emod_lt_of_pos x hpos
  have h3 : ((x % 2 ^ w).toNat : Int) = x % 2 ^ w := Int.toNat_of_nonneg h1
  have h4 : ((x % 2 ^ w).toNat : Int) < ((2 ^ w : Nat) : Int) := by
    rw [h3]; push_cast; exact h2
  exact_mod_cast h4

theorem toWords_words6 (e : SExpression) : Words6 e.toWords := by
  refine ⟨rfl, ?_⟩
  have h1 := toUnsigned_lt 64 e.offset
  have h2 := toUnsigned_lt 8 e.scale
  intro w hw
  simp only [toWords, List.mem_cons, List.mem_singleton, List.not_mem_nil, or_false] at hw
  rcases hw with h | h | h | h | h | h <;> subst h <;> omega

theorem words6_cases {ws : List Nat} (h : Words6 ws) :
    ∃ w0 w1 w2 w3 w4 w5, ws = [w0, w1, w2, w3, w4, w5] ∧ w0 < 2 ^ 64 ∧ w1 < 2 ^ 64 ∧
      w2 < 2 ^ 64 ∧ w3 < 2 ^ 64 ∧ w4 < 2 ^ 64 ∧ w5 < 2 ^ 64 := by
  obtain ⟨hl, hb⟩ := h
  match ws, hl with
  | [w0, w1, w2, w3, w4, w5], _ =>
    refine ⟨w0, w1, w2, w3, w4, w5, rfl, ?_, ?_, ?_, ?_, ?_, ?_⟩ <;> apply hb <;> simp

theorem orLoop_six (a0 a1 a2 a3 a4 a5 b0 b1 b2 b3 b4 b5 : Nat) :
    orLoop (sizeof / sizeofU64) [a0, a1, a2, a3, a4, a5] [b0, b1, b2, b3, b4, b5] =
      [a0 ||| b0, a1 ||| b1, a2 ||| b2, a3 ||| b3, a4 ||| b4, a5 ||| b5] := by
  rfl

theorem orLoop_words6 {x y : List Nat} (hx : Words6 x) (hy : Words6 y) :
    Words6 (orLoop (sizeof / sizeofU64) x y) := by
  obtain ⟨a0, a1, a2, a3, a4, a5, rfl, ha⟩ := words6_cases hx
  obtain ⟨b0, b1, b2, b3, b4, b5, rfl, hb⟩ := words6_cases hy
  rw [orLoop_six]
  refine ⟨rfl, ?_⟩
  intro w hw
  simp only [List.mem_cons, List.mem_singleton, List.not_mem_nil, or_false] at hw
  obtain ⟨ha0, ha1, ha2, ha3, ha4, ha5⟩ := ha
  obtain ⟨hb0, hb1, hb2, hb3, hb4, hb5⟩ := hb
  rcases hw with h | h | h | h | h | h <;> subst h <;> apply Nat.or_lt_two_pow <;> assumption

theorem toSigned_toUnsigned64 (w : Nat) (h : w < 2 ^ 64) :
    toUnsigned 64 (toSigned 64 w) = w := by
  unfold toUnsigned toSigned
  split <;> omega

theorem toSigned_toUnsigned8 (w : Nat) (h : w < 2 ^ 8) :
    toUnsigned 8 (toSigned 8 w) = w := by
  unfold toUnsigned toSigned
  split <;> omega

theorem toWords_ofWords {ws : List Nat} (h : Words6 ws) : (ofWords ws).toWords = ws := by
  obtain ⟨w0, w1, w2, w3, w4, w5, rfl, h0, h1, h2, h3, h4, h5⟩ := words6_cases h
  have e1 := toSigned_toUnsigned64 w1 h1
  have e5 := toSigned_toUnsigned8 (w5 / 2 ^ 0 % 2 ^ 8) (Nat.mod_lt _ (by norm_num))
  simp only [toWords, ofWords, bits, List.getD_cons_zero, List.getD_cons_succ, e1, e5]
  simp only [List.cons.injEq, and_true]
  refine ⟨?_, trivial, ?_, ?_, ?_, ?_⟩ <;> omega

theorem toWords_or (a b : SExpression) :
    (a ||| b).toWords = orLoop (sizeof / sizeofU64) a.toWords b.toWords :=
  toWords_ofWords (orLoop_words6 (toWords_words6 a) (toWords_words6 b))

theorem orLoop_assoc {x y z : List Nat} (hx : Words6 x) (hy : Words6 y) (hz : Words6 z) :
    orLoop (sizeof / sizeofU64) (orLoop (sizeof / sizeofU64) x y) z =
      orLoop (sizeof / sizeofU64) x (orLoop (sizeof / sizeofU64) y z) := by
  obtain ⟨a0, a1, a2, a3, a4, a5, rfl, -⟩ := words6_cases hx
  obtain ⟨b0, b1, b2, b3, b4, b5, rfl, -⟩ := words6_cases hy
  obtain ⟨c0, c1, c2, c3, c4, c5, rfl, -⟩ := words6_cases hz
  simp only [orLoop_six, Nat.lor_assoc]

/-- C1: the combine operator on `SExpression` is associative,
`(a | b) | c = a | (b | c)`, as an equality of structures and hence on every
member. -/
theorem combine_assoc (a b c : SExpression) : (a ||| b) ||| c = a ||| (b ||| c) := by
  show ofWords (orLoop (sizeof / sizeofU64) (a ||| b).toWords c.toWords) =
    ofWords (orLoop (sizeof / sizeofU64) a.toWords (b ||| c).toWords)
  rw [toWords_or, toWords_or,
    orLoop_assoc (toWords_words6 a) (toWords_words6 b) (toWords_words6 c)]

theorem bits_or (x y off len : Nat) :
    bits (x ||| y) off len = bits x off len ||| bits y off len := by
  unfold bits
  apply Nat.eq_of_testBit_eq
  intro i
  simp only [← Nat.shiftRight_eq_div_pow, Nat.testBit_mod_two_pow, Nat.testBit_or,
    Nat.testBit_shiftRight]
  cases decide (i < len) <;> simp

/-- The members of a combined expression, read back from the combined words. -/
theorem or_members (a b : SExpression) :
    a ||| b =
      { value := a.value % 2 ^ 64 ||| b.value % 2 ^ 64
        offset := toSigned 64 (toUnsigned 64 a.offset ||| toUnsigned 64 b.offset)
        etype := a.etype % 2 ^ 32 ||| b.etype % 2 ^ 32
        tokens := a.tokens % 2 ^ 32 ||| b.tokens % 2 ^ 32
        sym1 := a.sym1 % 2 ^ 32 ||| b.sym1 % 2 ^ 32
        sym2 := a.sym2 % 2 ^ 32 ||| b.sym2 % 2 ^ 32
        instruction := a.instruction % 2 ^ 32 ||| b.instruction % 2 ^ 32
        optionbits := a.optionbits % 2 ^ 8 ||| b.optionbits % 2 ^ 8
        base := a.base % 2 ^ 8 ||| b.base % 2 ^ 8
        index := a.index % 2 ^ 8 ||| b.index % 2 ^ 8
        length := a.length % 2 ^ 8 ||| b.length % 2 ^ 8
        scale := toSigned 8 (toUnsigned 8 a.scale ||| toUnsigned 8 b.scale)
        symscale := a.symscale % 2 ^ 8 ||| b.symscale % 2 ^ 8
        mask := a.mask % 2 ^ 8 ||| b.mask % 2 ^ 8
        reg1 := a.reg1 % 2 ^ 8 ||| b.reg1 % 2 ^ 8
        reg2 := a.reg2 % 2 ^ 8 ||| b.reg2 % 2 ^ 8
        reg3 := a.reg3 % 2 ^ 8 ||| b.reg3 % 2 ^ 8
        fallback := a.fallback % 2 ^ 8 ||| b.fallback % 2 ^ 8
        unused1 := a.unused1 % 2 ^ 8 ||| b.unused1 % 2 ^ 8 } := by
  show ofWords (orLoop (sizeof / sizeofU64) a.toWords b.toWords) = _
  have ha := toUnsigned_lt 8 a.scale
  have hb := toUnsigned_lt 8 b.scale
  have ha64 := toUnsigned_lt 64 a.offset
  have hb64 := toUnsigned_lt 64 b.offset
  simp only [toWords, orLoop_six, ofWords, List.getD_cons_zero, List.getD_cons_succ, bits_or,
    SExpression.mk.injEq]
  refine ⟨?_, ?_, ?_, ?_, ?_, ?_, ?_, ?_, ?_, ?_, ?_, ?_, ?_, ?_, ?_, ?_, ?_, ?_, ?_⟩
  all_goals first
    | rfl
    | (congr 1 <;> (simp only [bits]; first | done | omega))
    | (congr 2 <;> (simp only [bits]; first | done | omega))

theorem lor_mod_merge (w x y : Nat) (hx : x < 2 ^ w) (hy : y < 2 ^ w) (h : x = 0 ∨ y = 0) :
    x % 2 ^ w ||| y % 2 ^ w = mergeNat x y := by
  rw [Nat.mod_eq_of_lt hx, Nat.mod_eq_of_lt hy]
  unfold mergeNat
  rcases h with h | h
  · subst h; simp
  · subst h; by_cases hx0 : x = 0 <;> simp [hx0]

theorem toSigned_toUnsigned_int64 (x : Int) (h1 : -(2 ^ 63 : Int) ≤ x) (h2 : x < 2 ^ 63) :
    toSigned 64 (toUnsigned 64 x) = x := by
  unfold toUnsigned toSigned
  split <;> omega

theorem toSigned_toUnsigned_int8 (x : Int) (h1 : -(2 ^ 7 : Int) ≤ x) (h2 : x < 2 ^ 7) :
    toSigned 8 (toUnsigned 8 x) = x := by
  unfold toUnsigned toSigned
  split <;> omega

theorem toUnsigned_zero (w : Nat) : toUnsigned w 0 = 0 := by
  simp [toUnsigned]

theorem lor_signed_merge64 (x y : Int) (hx1 : -(2 ^ 63 : Int) ≤ x) (hx2 : x < 2 ^ 63)
    (hy1 : -(2 ^ 63 : Int) ≤ y) (hy2 : y < 2 ^ 63) (h : x = 0 ∨ y = 0) :
    toSigned 64 (toUnsigned 64 x ||| toUnsigned 64 y) = mergeInt x y := by
  unfold mergeInt
  rcases h with h | h
  · subst h
    rw [toUnsigned_zero, Nat.zero_or, toSigned_toUnsigned_int64 y hy1 hy2]; simp
  · subst h
    rw [toUnsigned_zero, Nat.or_zero, toSigned_toUnsigned_int64 x hx1 hx2]
    by_cases hx0 : x = 0 <;> simp [hx0]

theorem lor_signed_merge8 (x y : Int) (hx1 : -(2 ^ 7 : Int) ≤ x) (hx2 : x < 2 ^ 7)
    (hy1 : -(2 ^ 7 : Int) ≤ y) (hy2 : y < 2 ^ 7) (h : x = 0 ∨ y = 0) :
    toSigned 8 (toUnsigned 8 x ||| toUnsigned 8 y) = mergeInt x y := by
  unfold mergeInt
  rcases h with h | h
  · subst h
    rw [toUnsigned_zero, Nat.zero_or, toSigned_toUnsigned_int8 y hy1 hy2]; simp
  · subst h
    rw [toUnsigned_zero, Nat.or_zero, toSigned_toUnsigned_int8 x hx1 hx2]
    by_cases hx0 : x = 0 <;> simp [hx0]

/-- C2: when no member is populated on both sides, the bitwise-OR combine
`a | b` equals the field-wise merge: every member of the result is that member
of the operand in which it is non-zero, and zero when it is zero in both. -/
theorem combine_eq_merge (a b : SExpression) (ha : a.InRange) (hb : b.InRange)
    (h : NoOverlap a b) : a ||| b = merge a b := by
  obtain ⟨a1, ⟨a2, a2'⟩, a3, a4, a5, a6, a7, a8, a9, a10, a11, ⟨a12, a12'⟩, a13, a14, a15, a16,
    a17, a18, a19⟩ := ha
  obtain ⟨b1, ⟨b2, b2'⟩, b3, b4, b5, b6, b7, b8, b9, b10, b11, ⟨b12, b12'⟩, b13, b14, b15, b16,
    b17, b18, b19⟩ := hb
  obtain ⟨h1, h2, h3, h4, h5, h6, h7, h8, h9, h10, h11, h12, h13, h14, h15, h16, h17, h18,
    h19⟩ := h
  rw [or_members]
  unfold merge
  rw [lor_mod_merge 64 _ _ a1 b1 h1, lor_signed_merge64 _ _ a2 a2' b2 b2' h2,
    lor_mod_merge 32 _ _ a3 b3 h3, lor_mod_merge 32 _ _ a4 b4 h4,
    lor_mod_merge 32 _ _ a5 b5 h5, lor_mod_merge 32 _ _ a6 b6 h6,
    lor_mod_merge 32 _ _ a7 b7 h7, lor_mod_merge 8 _ _ a8 b8 h8,
    lor_mod_merge 8 _ _ a9 b9 h9, lor_mod_merge 8 _ _ a10 b10 h10,
    lor_mod_merge 8 _ _ a11 b11 h11, lor_signed_merge8 _ _ a12 a12' b12 b12' h12,
    lor_mod_merge 8 _ _ a13 b13 h13, lor_mod_merge 8 _ _ a14 b14 h14,
    lor_mod_merge 8 _ _ a15 b15 h15, lor_mod_merge 8 _ _ a16 b16 h16,
    lor_mod_merge 8 _ _ a17 b17 h17, lor_mod_merge 8 _ _ a18 b18 h18,
    lor_mod_merge 8 _ _ a19 b19 h19]

/-- Witness for C2: two sample expressions with disjoint populated members
combine to their field-wise merge. -/
theorem combine_eq_merge_witness :
    sampleA.InRange ∧ sampleB.InRange ∧ NoOverlap sampleA sampleB ∧
      sampleA ||| sampleB = merge sampleA sampleB :=
  ⟨by decide, by decide, by decide,
    combine_eq_merge sampleA sampleB (by decide) (by decide) (by decide)⟩

end SExpression

/-! ## C strings -/

theorem cstr_nil : cstr [] = [] := rfl

theorem cstr_cons (c : Nat) (s : List Nat) :
    cstr (c :: s) = if c = 0 then [] else c :: cstr s := by
  unfold cstr
  by_cases h : c = 0 <;> simp [List.takeWhile_cons, h]

theorem lex_cons_cons (a b : Nat) (s t : List Nat) :
    List.Lex (fun x y : Nat => x < y) (a :: s) (b :: t) ↔
      a < b ∨ (a = b ∧ List.Lex (fun x y : Nat => x < y) s t) := by
  constructor
  · intro h
    cases h with
    | cons h => exact Or.inr ⟨rfl, h⟩
    | rel h => exact Or.inl h
  · rintro (h | ⟨rfl, h⟩)
    · exact List.Lex.rel h
    · exact List.Lex.cons h

theorem strcmp_lt_iff (s1 s2 : List Nat) :
    strcmp s1 s2 < 0 ↔ List.Lex (fun x y : Nat => x < y) (cstr s1) (cstr s2) := by
  induction s1 generalizing s2 with
  | nil =>
    cases s2 with
    | nil => simp [strcmp, cstr_nil, List.Lex.not_nil_right]
    | cons c2 s2 =>
      by_cases h : c2 = 0
      · simp [strcmp, cstr_nil, cstr_cons, h, List.Lex.not_nil_right]
      · simp only [strcmp, cstr_nil, cstr_cons, h, if_false]
        constructor
        · intro _; exact List.Lex.nil
        · intro _; omega
  | cons c1 s1 ih =>
    cases s2 with
    | nil =>
      simp only [strcmp, cstr_nil, List.Lex.not_nil_right, iff_false]
      omega
    | cons c2 s2 =>
      simp only [strcmp, cstr_cons]
      by_cases h12 : c1 = c2
      · subst h12
        by_cases h1 : c1 = 0
        · simp [h1, List.Lex.not_nil_right]
        · simp only [h1, if_false, if_true, lex_cons_cons, ih s2]
          simp
      · simp only [h12, if_false]
        by_cases h1 : c1 = 0
        · have h2 : c2 ≠ 0 := fun h => h12 (h1.trans h.symm)
          simp only [h1, h2, if_true, if_false]
          constructor
          · intro _; exact List.Lex.nil
          · intro _; omega
        · by_cases h2 : c2 = 0
          · simp only [h1, h2, if_true, if_false, List.Lex.not_nil_right, iff_false]
            omega
          · simp only [h1, h2, if_false, lex_cons_cons]
            constructor
            · intro h; left; omega
            · rintro (h | ⟨h, _⟩)
              · omega
              · exact absurd h h12

theorem strcmp_eq_iff (s1 s2 : List Nat) : strcmp s1 s2 = 0 ↔ cstr s1 = cstr s2 := by
  induction s1 generalizing s2 with
  | nil =>
    cases s2 with
    | nil => simp [strcmp]
    | cons c2 s2 =>
      by_cases h : c2 = 0
      · simp [strcmp, cstr_nil, cstr_cons, h]
      · simp [strcmp, cstr_nil, cstr_cons, h]
  | cons c1 s1 ih =>
    cases s2 with
    | nil =>
      by_cases h : c1 = 0
      · simp [strcmp, cstr_nil, cstr_cons, h]
      · simp [strcmp, cstr_nil, cstr_cons, h]
    | cons c2 s2 =>
      simp only [strcmp, cstr_cons]
      by_cases h12 : c1 = c2
      · subst h12
        by_cases h1 : c1 = 0
        · simp [h1]
        · simp [h1, ih s2]
      · simp only [h12, if_false]
        by_cases h1 : c1 = 0
        · have h2 : c2 ≠ 0 := fun h => h12 (h1.trans h.symm)
          simp only [h1, h2, if_true, if_false]
          constructor
          · intro h; omega
          · intro h; simp at h
        · by_cases h2 : c2 = 0
          · simp only [h1, h2, if_true, if_false]
            constructor
            · intro h; omega
            · intro h; simp at h
          · simp only [h1, h2, if_false]
            constructor
            · intro h; omega
            · intro h; simp at h; exact absurd h.1 h12

/-! ## Symbols sorted by name -/

namespace ElfFWC_Sym2

theorem lt_iff_name (buf : List Nat) (a b : ElfFWC_Sym2) :
    lt buf a b = true ↔ name buf a < name buf b := by
  unfold lt name
  rw [decide_eq_true_iff]
  exact strcmp_lt_iff _ _

theorem lt_false_iff_name (buf : List Nat) (a b : ElfFWC_Sym2) :
    lt buf a b = false ↔ name buf b ≤ name buf a := by
  rw [← not_lt, ← lt_iff_name]; simp

theorem eq_iff_name (buf : List Nat) (a b : ElfFWC_Sym2) :
    eq buf a b = true ↔ name buf a = name buf b := by
  unfold eq name
  rw [decide_eq_true_iff]
  exact strcmp_eq_iff _ _

/-- C3: for a fixed name buffer and two symbols whose `st_name` offsets point at
NUL-terminated names, `a == b` holds exactly when the two names are the same
byte string, which holds exactly when neither `a < b` nor `b < a`; and the
results of `==` and `<` are the same for any two symbols with the same name
offsets, whatever their other members. -/
theorem sym2_eq_by_name (buf : List Nat) (a b : ElfFWC_Sym2)
    (_ha : NulTerminated buf a.st_name) (_hb : NulTerminated buf b.st_name) :
    (eq buf a b = true ↔ name buf a = name buf b) ∧
    (name buf a = name buf b ↔ (lt buf a b = false ∧ lt buf b a = false)) ∧
    (∀ a' b' : ElfFWC_Sym2, a'.st_name = a.st_name → b'.st_name = b.st_name →
      eq buf a' b' = eq buf a b ∧ lt buf a' b' = lt buf a b) := by
  refine ⟨eq_iff_name buf a b, ?_, ?_⟩
  · rw [lt_false_iff_name, lt_false_iff_name]
    constructor
    · intro h; rw [h]; exact ⟨le_refl _, le_refl _⟩
    · rintro ⟨h1, h2⟩; exact le_antisymm h2 h1
  · intro a' b' h1 h2
    unfold eq lt
    rw [h1, h2]
    exact ⟨rfl, rfl⟩

theorem searchLoop_spec (buf : List Nat) (l : List ElfFWC_Sym2) (key : ElfFWC_Sym2)
    (hmono : ∀ (i j : Nat) (s t : ElfFWC_Sym2), i ≤ j → l[i]? = some s → l[j]? = some t →
      lt buf t key = true → lt buf s key = true) :
    ∀ fuel a b, a ≤ b → b ≤ l.length → b - a ≤ fuel →
      (∀ i s, i < a → l[i]? = some s → lt buf s key = true) →
      (∀ i s, b ≤ i → l[i]? = some s → lt buf s key = false) →
      a ≤ searchLoop buf l key fuel a b ∧ searchLoop buf l key fuel a b ≤ b ∧
      (∀ i s, i < searchLoop buf l key fuel a b → l[i]? = some s → lt buf s key = true) ∧
      (∀ i s, searchLoop buf l key fuel a b ≤ i → l[i]? = some s → lt buf s key = false) := by
  intro fuel
  induction fuel with
  | zero =>
    intro a b hab _ hf hpre hpost
    have hba : b = a := by omega
    subst hba
    simp only [searchLoop]
    exact ⟨le_refl _, le_refl _, hpre, hpost⟩
  | succ fuel ih =>
    intro a b hab hbl hf hpre hpost
    simp only [searchLoop]
    by_cases hlt : a < b
    · simp only [hlt, if_true]
      have hmid : (a + b) / 2 < l.length := by omega
      have hget : l[(a + b) / 2]? = some l[(a + b) / 2] := List.getElem?_eq_getElem hmid
      rw [hget]
      simp only
      by_cases hs : lt buf l[(a + b) / 2] key = true
      · simp only [hs, if_true]
        have := ih ((a + b) / 2 + 1) b (by omega) hbl (by omega)
          (fun i s hi his => hmono i ((a + b) / 2) s _ (by omega) his hget hs) hpost
        refine ⟨by omega, this.2.1, this.2.2.1, this.2.2.2⟩
      · have hs' : lt buf l[(a + b) / 2] key = false := by simpa using hs
        simp only [hs', Bool.false_eq_true, if_false]
        have := ih a ((a + b) / 2) (by omega) (by omega) (by omega) hpre
          (fun i s hi his => by
            by_contra hc
            have hc' : lt buf s key = true := by simpa using hc
            exact hs (hmono ((a + b) / 2) i _ s hi hget his hc'))
        refine ⟨this.1, by omega, this.2.2.1, this.2.2.2⟩
    · have hba : b = a := by omega
      subst hba
      simp only [hlt, if_false]
      exact ⟨le_refl _, le_refl _, hpre, hpost⟩

theorem sorted_names (buf : List Nat) (l : List ElfFWC_Sym2) (hs : Sorted buf l) :
    ∀ (i j : Nat) (s t : ElfFWC_Sym2), i ≤ j → l[i]? = some s → l[j]? = some t →
      name buf s ≤ name buf t := by
  intro i j s t hij hi hj
  rcases Nat.eq_or_lt_of_le hij with h | h
  · subst h
    rw [hi] at hj
    cases hj
    exact le_refl _
  · unfold Sorted at hs
    rw [List.pairwise_iff_getElem] at hs
    obtain ⟨hi', rfl⟩ := List.getElem?_eq_some.mp hi
    obtain ⟨hj', rfl⟩ := List.getElem?_eq_some.mp hj
    exact (lt_false_iff_name buf _ _).mp (hs i j hi' hj' h)

theorem sorted_mono (buf : List Nat) (l : List ElfFWC_Sym2) (key : ElfFWC_Sym2)
    (hs : Sorted buf l) :
    ∀ (i j : Nat) (s t : ElfFWC_Sym2), i ≤ j → l[i]? = some s → l[j]? = some t →
      lt buf t key = true → lt buf s key = true := by
  intro i j s t hij hi hj ht
  rw [lt_iff_name] at ht ⊢
  exact lt_of_le_of_lt (sorted_names buf l hs i j s t hij hi hj) ht

theorem findFirst_spec (buf : List Nat) (l : List ElfFWC_Sym2) (key : ElfFWC_Sym2)
    (hs : Sorted buf l) (hk : ∃ s ∈ l, name buf s = name buf key) :
    ∃ (i : Nat) (s : ElfFWC_Sym2), findFirst buf l key = some i ∧ l[i]? = some s ∧
      name buf s = name buf key ∧
      ∀ (j : Nat) (t : ElfFWC_Sym2), j < i → l[j]? = some t → name buf t ≠ name buf key := by
  obtain ⟨s0, hs0, hname⟩ := hk
  obtain ⟨i0, hi0, hget0⟩ := List.getElem_of_mem hs0
  have hget0' : l[i0]? = some s0 := by rw [List.getElem?_eq_getElem hi0, hget0]
  have hspec := searchLoop_spec buf l key (sorted_mono buf l key hs) l.length 0 l.length
    (Nat.zero_le _) (le_refl _) (by omega)
    (fun i s hi _ => absurd hi (Nat.not_lt_zero i))
    (fun i s hi his => by
      rw [List.getElem?_eq_none hi] at his
      cases his)
  obtain ⟨-, hr, hpre, hpost⟩ := hspec
  generalize hrdef : searchLoop buf l key l.length 0 l.length = r at hr hpre hpost
  have hs0key : lt buf s0 key = false := by
    rw [lt_false_iff_name, hname]
  have hri0 : r ≤ i0 := by
    by_contra hc
    have := hpre i0 s0 (by omega) hget0'
    rw [hs0key] at this
    cases this
  have hrl : r < l.length := by omega
  have hgetr : l[r]? = some l[r] := List.getElem?_eq_getElem hrl
  have h1 : name buf key ≤ name buf l[r] :=
    (lt_false_iff_name buf _ _).mp (hpost r _ (le_refl _) hgetr)
  have h2 : name buf l[r] ≤ name buf key := by
    rw [← hname]
    exact sorted_names buf l hs r i0 _ _ hri0 hgetr hget0'
  have h3 : lt buf key l[r] = false := (lt_false_iff_name buf _ _).mpr h2
  refine ⟨r, l[r], ?_, hgetr, le_antisymm h2 h1, ?_⟩
  · unfold findFirst
    simp only [hrdef, hgetr, h3, Bool.false_eq_true, if_false]
  · intro j t hj hjt
    have := (lt_iff_name buf _ _).mp (hpre j t hj hjt)
    exact ne_of_lt this

/-- C4: for a fixed name buffer, `operator <` on `ElfFWC_Sym2` is irreflexive
and transitive, its incomparability is transitive, and exactly one of `a < b`,
`a == b`, `b < a` holds; in a list sorted by it the symbols bearing one name
stand in one contiguous run, and the binary search for a name that occurs in
the list returns the first index of that run. -/
theorem sym2_lt_strict_weak_order (buf : List Nat) :
    (∀ a : ElfFWC_Sym2, lt buf a a = false) ∧
    (∀ a b c : ElfFWC_Sym2, lt buf a b = true → lt buf b c = true → lt buf a c = true) ∧
    (∀ a b c : ElfFWC_Sym2, lt buf a b = false ∧ lt buf b a = false →
      lt buf b c = false ∧ lt buf c b = false → lt buf a c = false ∧ lt buf c a = false) ∧
    (∀ a b : ElfFWC_Sym2,
      (lt buf a b = true ∧ eq buf a b = false ∧ lt buf b a = false) ∨
      (lt buf a b = false ∧ eq buf a b = true ∧ lt buf b a = false) ∨
      (lt buf a b = false ∧ eq buf a b = false ∧ lt buf b a = true)) ∧
    (∀ symbols : List ElfFWC_Sym2, Sorted buf symbols →
      (∀ (i k j : Nat) (x y z : ElfFWC_Sym2), i ≤ k → k ≤ j →
        symbols[i]? = some x → symbols[k]? = some y → symbols[j]? = some z →
        name buf x = name buf z → name buf y = name buf x) ∧
      (∀ key : ElfFWC_Sym2, (∃ s ∈ symbols, name buf s = name buf key) →
        ∃ (i : Nat) (s : ElfFWC_Sym2), findFirst buf symbols key = some i ∧
          symbols[i]? = some s ∧ name buf s = name buf key ∧
          ∀ (j : Nat) (t : ElfFWC_Sym2), j < i → symbols[j]? = some t →
            name buf t ≠ name buf key)) := by
  refine ⟨?_, ?_, ?_, ?_, ?_⟩
  · intro a
    rw [lt_false_iff_name]
  · intro a b c hab hbc
    rw [lt_iff_name] at hab hbc ⊢
    exact lt_trans hab hbc
  · rintro a b c ⟨h1, h2⟩ ⟨h3, h4⟩
    rw [lt_false_iff_name] at h1 h2 h3 h4
    exact ⟨(lt_false_iff_name buf a c).mpr (le_trans h3 h1),
      (lt_false_iff_name buf c a).mpr (le_trans h2 h4)⟩
  · intro a b
    have hne : eq buf a b = false ↔ name buf a ≠ name buf b := by
      rw [Ne, ← eq_iff_name]; simp
    rcases lt_trichotomy (name buf a) (name buf b) with h | h | h
    · left
      exact ⟨(lt_iff_name buf a b).mpr h, hne.mpr (ne_of_lt h),
        (lt_false_iff_name buf b a).mpr (le_of_lt h)⟩
    · right; left
      exact ⟨(lt_false_iff_name buf a b).mpr (le_of_eq h.symm), (eq_iff_name buf a b).mpr h,
        (lt_false_iff_name buf b a).mpr (le_of_eq h)⟩
    · right; right
      exact ⟨(lt_false_iff_name buf a b).mpr (le_of_lt h), hne.mpr (ne_of_gt h),
        (lt_iff_name buf b a).mpr h⟩
  · intro symbols hs
    refine ⟨?_, fun key hk => findFirst_spec buf symbols key hs hk⟩
    intro i k j x y z hik hkj hx hy hz hxz
    have h1 := sorted_names buf symbols hs i k x y hik hx hy
    have h2 := sorted_names buf symbols hs k j y z hkj hy hz
    rw [← hxz] at h2
    exact le_antisymm h2 h1

/-- Witness for C3: in the sample buffer the symbols at offsets 1 and 7 both
bear the name `ab`; they differ in offset, section and value and are equal. -/
theorem sym2_eq_by_name_witness :
    NulTerminated sampleNames (sampleSym 1 1 0x10).st_name ∧
    NulTerminated sampleNames (sampleSym 7 2 0x20).st_name ∧
    eq sampleNames (sampleSym 1 1 0x10) (sampleSym 7 2 0x20) = true ∧
    ((eq sampleNames (sampleSym 1 1 0x10) (sampleSym 7 2 0x20) = true ↔
        name sampleNames (sampleSym 1 1 0x10) = name sampleNames (sampleSym 7 2 0x20)) ∧
      (name sampleNames (sampleSym 1 1 0x10) = name sampleNames (sampleSym 7 2 0x20) ↔
        (lt sampleNames (sampleSym 1 1 0x10) (sampleSym 7 2 0x20) = false ∧
          lt sampleNames (sampleSym 7 2 0x20) (sampleSym 1 1 0x10) = false)) ∧
      (∀ a' b' : ElfFWC_Sym2, a'.st_name = (sampleSym 1 1 0x10).st_name →
        b'.st_name = (sampleSym 7 2 0x20).st_name →
        eq sampleNames a' b' = eq sampleNames (sampleSym 1 1 0x10) (sampleSym 7 2 0x20) ∧
          lt sampleNames a' b' = lt sampleNames (sampleSym 1 1 0x10) (sampleSym 7 2 0x20))) :=
  ⟨by decide, by decide, by decide,
    sym2_eq_by_name sampleNames (sampleSym 1 1 0x10) (sampleSym 7 2 0x20)
      (by decide) (by decide)⟩

/-- Witness for C4: the sample symbol list is sorted, the name `ab` of the key
occurs in it, and the binary search returns index 0, the start of its run. -/
theorem sym2_lt_strict_weak_order_witness :
    Sorted sampleNames sampleSymbols ∧
    (∃ s ∈ sampleSymbols, name sampleNames s = name sampleNames (sampleSym 7 0 0)) ∧
    findFirst sampleNames sampleSymbols (sampleSym 7 0 0) = some 0 ∧
    ∃ (i : Nat) (s : ElfFWC_Sym2),
      findFirst sampleNames sampleSymbols (sampleSym 7 0 0) = some i ∧
      sampleSymbols[i]? = some s ∧
      name sampleNames s = name sampleNames (sampleSym 7 0 0) ∧
      ∀ (j : Nat) (t : ElfFWC_Sym2), j < i → sampleSymbols[j]? = some t →
        name sampleNames t ≠ name sampleNames (sampleSym 7 0 0) :=
  ⟨by decide, by decide, by decide,
    ((sym2_lt_strict_weak_order sampleNames).2.2.2.2 sampleSymbols (by decide)).2
      (sampleSym 7 0 0) (by decide)⟩

end ElfFWC_Sym2
/-! ## Keywords -/

theorem cstr_append (s t : List Nat) (h : 0 ∈ s) : cstr (s ++ t) = cstr s := by
  induction s with
  | nil => simp at h
  | cons c s ih =>
    rw [List.cons_append, cstr_cons, cstr_cons]
    by_cases hc : c = 0
    · simp [hc]
    · have hs : 0 ∈ s := by
        rcases List.mem_cons.mp h with h0 | h0
        · exact absurd h0.symm hc
        · exact h0
      simp [hc, ih hs]

theorem tolower_eq_zero (c : Nat) : tolower c = 0 ↔ c = 0 := by
  unfold tolower
  split <;> omega

theorem strcasecmp_eq_strcmp (s1 s2 : List Nat) :
    strcasecmp s1 s2 = strcmp (s1.map tolower) (s2.map tolower) := by
  induction s1 generalizing s2 with
  | nil =>
    cases s2 with
    | nil => rfl
    | cons c2 s2 => rfl
  | cons c1 s1 ih =>
    cases s2 with
    | nil => rfl
    | cons c2 s2 =>
      simp only [strcasecmp, List.map_cons, strcmp, tolower_eq_zero, ih s2]

theorem cstr_map_tolower (s : List Nat) : cstr (s.map tolower) = (cstr s).map tolower := by
  induction s with
  | nil => rfl
  | cons c s ih =>
    simp only [List.map_cons, cstr_cons, tolower_eq_zero]
    by_cases h : c = 0
    · simp [h]
    · simp [h, ih]

theorem tolower_eq_asciiLower (c : Nat) : tolower c = asciiLower c := by
  unfold tolower
  by_cases h : 65 ≤ c ∧ c ≤ 90
  · obtain ⟨h1, h2⟩ := h
    interval_cases c <;> rfl
  · rw [if_neg h]
    unfold asciiLower
    split <;> first | rfl | omega

theorem sameLetter_lower (x y : Nat) (h : sameLetter x y = true) :
    asciiLower x = asciiLower y := by
  rw [← tolower_eq_asciiLower, ← tolower_eq_asciiLower]
  unfold sameLetter at h
  rw [decide_eq_true_iff] at h
  unfold tolower
  split_ifs <;> omega

theorem sameUpToCase_lower (s t : List Nat) (h : sameUpToCase s t = true) :
    s.map asciiLower = t.map asciiLower := by
  induction s generalizing t with
  | nil =>
    cases t with
    | nil => rfl
    | cons y t => simp [sameUpToCase] at h
  | cons x s ih =>
    cases t with
    | nil => simp [sameUpToCase] at h
    | cons y t =>
      simp only [sameUpToCase, Bool.and_eq_true] at h
      rw [List.map_cons, List.map_cons, sameLetter_lower x y h.1, ih t h.2]

theorem lower_sameLetter (x y : Nat) (h : asciiLower x = asciiLower y) :
    sameLetter x y = true := by
  rw [← tolower_eq_asciiLower, ← tolower_eq_asciiLower] at h
  unfold sameLetter
  rw [decide_eq_true_iff]
  unfold tolower at h
  split_ifs at h <;> omega

theorem lower_sameUpToCase (s t : List Nat) (h : s.map asciiLower = t.map asciiLower) :
    sameUpToCase s t = true := by
  induction s generalizing t with
  | nil =>
    cases t with
    | nil => rfl
    | cons y t => simp at h
  | cons x s ih =>
    cases t with
    | nil => simp at h
    | cons y t =>
      rw [List.map_cons, List.map_cons, List.cons.injEq] at h
      simp only [sameUpToCase, Bool.and_eq_true]
      exact ⟨lower_sameLetter x y h.1, ih t h.2⟩

theorem map_tolower_eq (s : List Nat) : s.map tolower = s.map asciiLower := by
  apply List.map_congr_left
  intro c _
  exact tolower_eq_asciiLower c

theorem strcasecmp_lt_iff (s1 s2 : List Nat) :
    strcasecmp s1 s2 < 0 ↔
      List.Lex (fun x y : Nat => x < y) ((cstr s1).map asciiLower) ((cstr s2).map asciiLower) := by
  rw [strcasecmp_eq_strcmp, strcmp_lt_iff, cstr_map_tolower, cstr_map_tolower, map_tolower_eq,
    map_tolower_eq]

namespace SKeyword

theorem cstr_toBytes (a : SKeyword) (ha : a.Terminated) (r : List Nat) :
    cstr (a.toBytes ++ r) = a.cname := by
  unfold toBytes cname
  rw [List.append_assoc]
  exact cstr_append _ _ ha

theorem lt_iff_lower (a b : SKeyword) (ha : a.Terminated) (hb : b.Terminated) (ra rb : List Nat) :
    strcasecmp (a.toBytes ++ ra) (b.toBytes ++ rb) < 0 ↔
      List.Lex (fun x y : Nat => x < y) a.lowerName b.lowerName := by
  rw [strcasecmp_lt_iff, cstr_toBytes a ha, cstr_toBytes b hb]
  rfl

theorem lex_irrefl (l : List Nat) : ¬ List.Lex (fun x y : Nat => x < y) l l :=
  fun h => lt_irrefl l h

theorem lex_neither (l1 l2 : List Nat) :
    (¬ List.Lex (fun x y : Nat => x < y) l1 l2 ∧ ¬ List.Lex (fun x y : Nat => x < y) l2 l1) ↔
      l1 = l2 := by
  constructor
  · rintro ⟨h1, h2⟩
    rcases lt_trichotomy l1 l2 with h | h | h
    · exact absurd h h1
    · exact h
    · exact absurd h h2
  · rintro rfl
    exact ⟨lex_irrefl _, lex_irrefl _⟩

/-- Counterexample for C5: two keyword records whose names are the same 28
letters, filling the array without a NUL, and whose ids are 1 and 2.  The
compare reads on into the member `id` and finds the first less than the
second, although the two names are equal and so neither lower-cased name
precedes the other. -/
theorem keyword_lt_reads_id :
    lt sampleFull1 sampleFull2 = true ∧ sampleFull1.name = sampleFull2.name ∧
    sampleFull1.name.length = nameSize ∧ ¬ sampleFull1.Terminated ∧
    sampleFull1.lowerName = sampleFull2.lowerName ∧
    sameUpToCase sampleFull1.cname sampleFull2.cname = true ∧
    ¬ (lt sampleFull1 sampleFull2 = true ↔
      List.Lex (fun x y : Nat => x < y) sampleFull1.lowerName sampleFull2.lowerName) := by
  have h1 : lt sampleFull1 sampleFull2 = true := by decide
  refine ⟨h1, rfl, rfl, by decide, rfl, by decide, ?_⟩
  intro h
  exact lex_irrefl _ (h.mp h1)

/-- C5, amended: for keyword records whose names are NUL-terminated within the
array `name`, `operator <` holds exactly when the lower-cased name of `a`
precedes the lower-cased name of `b` in byte-wise lexicographic order, the
lower case being that of the table of ASCII letters; two keywords are
equivalent, neither less than the other, exactly when their lower-cased names
are equal, which is exactly when the names differ only in letter case; and
the result does not depend on the memory that follows the two records. -/
theorem keyword_lt_iff (a b : SKeyword) (ha : a.Terminated) (hb : b.Terminated) :
    (lt a b = true ↔ List.Lex (fun x y : Nat => x < y) a.lowerName b.lowerName) ∧
    ((lt a b = false ∧ lt b a = false) ↔ a.lowerName = b.lowerName) ∧
    (sameUpToCase a.cname b.cname = true ↔ lt a b = false ∧ lt b a = false) ∧
    (∀ ra rb : List Nat,
      decide (strcasecmp (a.toBytes ++ ra) (b.toBytes ++ rb) < 0) = lt a b) := by
  have key : ∀ x y : SKeyword, x.Terminated → y.Terminated →
      (lt x y = true ↔ List.Lex (fun x y : Nat => x < y) x.lowerName y.lowerName) := by
    intro x y hx hy
    have := lt_iff_lower x y hx hy [] []
    rw [List.append_nil, List.append_nil] at this
    unfold lt
    rw [decide_eq_true_iff]
    exact this
  have neither : (lt a b = false ∧ lt b a = false) ↔ a.lowerName = b.lowerName := by
    rw [← Bool.not_eq_true, ← Bool.not_eq_true, key a b ha hb, key b a hb ha]
    exact lex_neither _ _
  refine ⟨key a b ha hb, neither, ⟨fun h => ?_, fun h => ?_⟩, fun ra rb => ?_⟩
  · exact neither.mpr (sameUpToCase_lower _ _ h)
  · exact lower_sameUpToCase _ _ (neither.mp h)
  · rw [Bool.eq_iff_iff, decide_eq_true_iff, lt_iff_lower a b ha hb ra rb, key a b ha hb]

/-- Witness for C5: `Section` and `SECTION` are different names that differ only
in letter case and are equivalent, with the same lower-cased name `section`,
while the byte-wise compare puts `SECTION` first; and `public` is less than
`Section` although the byte `S` is below the byte `p`. -/
theorem keyword_lt_iff_witness :
    sampleSection.Terminated ∧ sampleSECTION.Terminated ∧
    sameUpToCase sampleSection.cname sampleSECTION.cname = true ∧
    sampleSection.cname ≠ sampleSECTION.cname ∧
    (lt sampleSection sampleSECTION = false ∧ lt sampleSECTION sampleSection = false) ∧
    sampleSection.lowerName = [115, 101, 99, 116, 105, 111, 110] ∧
    sampleSECTION.lowerName = [115, 101, 99, 116, 105, 111, 110] ∧
    strcmp sampleSECTION.toBytes sampleSection.toBytes < 0 ∧
    lt samplePublic sampleSection = true ∧ lt sampleSection samplePublic = false ∧
    strcmp sampleSection.toBytes samplePublic.toBytes < 0 :=
  ⟨by decide, by decide, by decide, by decide,
    (keyword_lt_iff sampleSection sampleSECTION (by decide) (by decide)).2.2.1.mp (by decide),
    by decide, by decide, by decide, by decide, by decide, by decide⟩

end SKeyword

namespace SInstruction2

theorem ltOp_iff (a b : SInstruction2) :
    ltOp a b = true ↔ a.op1 < b.op1 ∨ (a.op1 = b.op1 ∧ a.op2 < b.op2) := by
  unfold ltOp
  split
  · simp; omega
  · split
    · simp; omega
    · simp; omega

theorem key_lt_iff (c1 f1 o1 p1 c2 f2 o2 p2 : Nat) :
    (toLex (c1, toLex (f1, toLex (o1, p1))) : Nat ×ₗ Nat ×ₗ Nat ×ₗ Nat) <
        toLex (c2, toLex (f2, toLex (o2, p2))) ↔
      c1 < c2 ∨ (c1 = c2 ∧ (f1 < f2 ∨ (f1 = f2 ∧ (o1 < o2 ∨ (o1 = o2 ∧ p1 < p2))))) := by
  simp only [Prod.Lex.lt_iff, ofLex_toLex]

theorem ltOp_eq (a b : SInstruction2) :
    ltOp a b = decide (a.op1 < b.op1 ∨ (a.op1 = b.op1 ∧ a.op2 < b.op2)) := by
  rw [Bool.eq_iff_iff, ltOp_iff, decide_eq_true_iff]

/-- C6 (amended): `operator <` on `SInstruction2` is the lexicographic order on
(category, format, op1, op2) in which the format counts for single-format
records (category 1) only; between records of any other category the format
is not compared.  The second part spells the order out. -/
theorem instruction2_lt_iff (a b : SInstruction2) :
    (lt a b = true ↔ key1 a < key1 b) ∧
    (lt a b = true ↔
      a.category < b.category ∨
      (a.category = b.category ∧
        ((a.category = 1 ∧ a.format < b.format) ∨
          ((a.category ≠ 1 ∨ a.format = b.format) ∧
            (a.op1 < b.op1 ∨ (a.op1 = b.op1 ∧ a.op2 < b.op2)))))) := by
  constructor
  · unfold key1
    rw [key_lt_iff]
    unfold lt
    rw [ltOp_eq]
    split_ifs <;>
      simp only [decide_eq_true_iff, Bool.false_eq_true, true_iff, false_iff, true_and,
        lt_self_iff_false, false_or] <;>
      omega
  · unfold lt
    rw [ltOp_eq]
    split_ifs <;>
      simp only [decide_eq_true_iff, Bool.false_eq_true, true_iff, false_iff] <;>
      omega

/-- Counterexample for C6: two records of category 2, formats 5 and 3, op1 0
and 1.  The first is less than the second by `operator <`, which skips the
format, while (2, 5, 0, 0) does not precede (2, 3, 1, 0) lexicographically. -/
theorem instruction2_lt_not_lex :
    lt (sampleInstr 2 5 0 0) (sampleInstr 2 3 1 0) = true ∧
      ¬ (key (sampleInstr 2 5 0 0) < key (sampleInstr 2 3 1 0)) := by
  decide

end SInstruction2
/-! ## Symbols sorted by address, instruction templates -/

namespace ElfFWC_Sym

theorem sym_lt_iff (a b : ElfFWC_Sym) :
    lt a b = true ↔
      a.st_shndx < b.st_shndx ∨ (a.st_shndx = b.st_shndx ∧ a.st_value < b.st_value) := by
  unfold lt
  split_ifs <;> simp only [decide_eq_true_iff, Bool.false_eq_true, true_iff, false_iff] <;> omega

/-- C7: `operator <` on `ElfFWC_Sym` sorts symbols by address: `a < b` exactly
when the section index of `a` is smaller, or the section indices are equal
and the value of `a` is smaller; it is irreflexive and transitive, and its
incomparability is transitive. -/
theorem sym_lt_by_address :
    (∀ a b : ElfFWC_Sym, lt a b = true ↔
      a.st_shndx < b.st_shndx ∨ (a.st_shndx = b.st_shndx ∧ a.st_value < b.st_value)) ∧
    (∀ a : ElfFWC_Sym, lt a a = false) ∧
    (∀ a b c : ElfFWC_Sym, lt a b = true → lt b c = true → lt a c = true) ∧
    (∀ a b c : ElfFWC_Sym, lt a b = false ∧ lt b a = false →
      lt b c = false ∧ lt c b = false → lt a c = false ∧ lt c a = false) := by
  refine ⟨sym_lt_iff, ?_, ?_, ?_⟩
  · intro a
    rw [← Bool.not_eq_true, sym_lt_iff]; omega
  · intro a b c
    rw [sym_lt_iff, sym_lt_iff, sym_lt_iff]; omega
  · intro a b c
    simp only [← Bool.not_eq_true, sym_lt_iff]; omega

end ElfFWC_Sym

namespace STemplate

/-- Positions of `il`, `mode` and `ilmd` in the first word, as the three
declarations allocate them. -/
theorem il_mode_layout (x : STemplate) (h : x.i0 < 2 ^ 32) :
    a.il x = x.i0 / 2 ^ 30 % 4 ∧ d.il x = x.i0 / 2 ^ 30 % 4 ∧
    a.mode x = x.i0 / 2 ^ 27 % 8 ∧ d.mode x = x.i0 / 2 ^ 27 % 8 ∧
    t.ilmd x = x.i0 / 2 ^ 28 % 16 := by
  have e1 : fieldOffset aDecl .il = 30 := by decide
  have e2 : fieldOffset dDecl .il = 30 := by decide
  have e3 : fieldOffset aDecl .mode = 27 := by decide
  have e4 : fieldOffset dDecl .mode = 27 := by decide
  have e5 : fieldOffset tDecl .ilmd = 28 := by decide
  have w1 : fieldWidth aDecl .il = 2 := by decide
  have w2 : fieldWidth dDecl .il = 2 := by decide
  have w3 : fieldWidth aDecl .mode = 3 := by decide
  have w4 : fieldWidth dDecl .mode = 3 := by decide
  have w5 : fieldWidth tDecl .ilmd = 4 := by decide
  simp only [a.il, d.il, a.mode, d.mode, t.ilmd, readField, e1, e2, e3, e4, e5, w1, w2, w3, w4,
    w5, bits, q]
  omega

/-- C8: for every 32-bit first instruction word, `il` is a 2-bit member and
`mode` a 3-bit member in both views `a` and `d`, the two views read them
identically as bits 30-31 and bits 27-29 of the word, and the 4-bit member
`ilmd` of the tiny view equals `4 * il + mode / 2`. -/
theorem il_mode_fields (x : STemplate) (h : x.i0 < 2 ^ 32) :
    fieldWidth aDecl .il = 2 ∧ fieldWidth dDecl .il = 2 ∧
    fieldWidth aDecl .mode = 3 ∧ fieldWidth dDecl .mode = 3 ∧
    fieldWidth tDecl .ilmd = 4 ∧
    a.il x = d.il x ∧ a.il x = x.i0 / 2 ^ 30 % 4 ∧
    a.mode x = d.mode x ∧ a.mode x = x.i0 / 2 ^ 27 % 8 ∧
    t.ilmd x = 4 * a.il x + a.mode x / 2 := by
  obtain ⟨h1, h2, h3, h4, h5⟩ := il_mode_layout x h
  refine ⟨by decide, by decide, by decide, by decide, by decide, ?_, h1, ?_, h3, ?_⟩
  · rw [h1, h2]
  · rw [h3, h4]
  · rw [h1, h3, h5]; omega

/-- Witness for C8: the word 0xB8000000 has `il` = 2 and `mode` = 7 in both
views and `ilmd` = 11. -/
theorem il_mode_fields_witness :
    (⟨0xB8000000, 0, 0⟩ : STemplate).i0 < 2 ^ 32 ∧
    (fieldWidth aDecl .il = 2 ∧ fieldWidth dDecl .il = 2 ∧
      fieldWidth aDecl .mode = 3 ∧ fieldWidth dDecl .mode = 3 ∧
      fieldWidth tDecl .ilmd = 4 ∧
      a.il ⟨0xB8000000, 0, 0⟩ = d.il ⟨0xB8000000, 0, 0⟩ ∧
      a.il ⟨0xB8000000, 0, 0⟩ = (⟨0xB8000000, 0, 0⟩ : STemplate).i0 / 2 ^ 30 % 4 ∧
      a.mode ⟨0xB8000000, 0, 0⟩ = d.mode ⟨0xB8000000, 0, 0⟩ ∧
      a.mode ⟨0xB8000000, 0, 0⟩ = (⟨0xB8000000, 0, 0⟩ : STemplate).i0 / 2 ^ 27 % 8 ∧
      t.ilmd ⟨0xB8000000, 0, 0⟩ = 4 * a.il ⟨0xB8000000, 0, 0⟩ + a.mode ⟨0xB8000000, 0, 0⟩ / 2) ∧
    a.il ⟨0xB8000000, 0, 0⟩ = 2 ∧ a.mode ⟨0xB8000000, 0, 0⟩ = 7 ∧
    t.ilmd ⟨0xB8000000, 0, 0⟩ = 11 :=
  ⟨by decide, il_mode_fields ⟨0xB8000000, 0, 0⟩ (by decide), by decide, by decide, by decide⟩

/-- Counterexample for C9: the word 0x70000000 is in tiny format, its `ilmd`
being 0b0111, and its `il` is 1, not 0. -/
theorem tiny_il_not_zero :
    (⟨0x70000000, 0, 0⟩ : STemplate).i0 < 2 ^ 32 ∧ t.ilmd ⟨0x70000000, 0, 0⟩ = 7 ∧
      a.il ⟨0x70000000, 0, 0⟩ = 1 ∧ a.il ⟨0x70000000, 0, 0⟩ ≠ 0 := by
  decide

/-- C9 (amended): every 32-bit word in tiny format T, that is every word whose
4-bit `ilmd` member equals 0b0111, has its `il` member equal to 01 (and its
`mode` member equal to 6 or 7). -/
theorem tiny_il (x : STemplate) (h : x.i0 < 2 ^ 32) (ht : t.ilmd x = 7) :
    a.il x = 1 ∧ (a.mode x = 6 ∨ a.mode x = 7) := by
  obtain ⟨h1, -, h3, -, h5⟩ := il_mode_layout x h
  rw [h5] at ht
  rw [h1, h3]
  omega

/-- Witness for C9 (amended): the tiny-format word 0x7ABCDEF0. -/
theorem tiny_il_witness :
    (⟨0x7ABCDEF0, 0, 0⟩ : STemplate).i0 < 2 ^ 32 ∧ t.ilmd ⟨0x7ABCDEF0, 0, 0⟩ = 7 ∧
      (a.il ⟨0x7ABCDEF0, 0, 0⟩ = 1 ∧
        (a.mode ⟨0x7ABCDEF0, 0, 0⟩ = 6 ∨ a.mode ⟨0x7ABCDEF0, 0, 0⟩ = 7)) :=
  ⟨by decide, by decide, tiny_il ⟨0x7ABCDEF0, 0, 0⟩ (by decide) (by decide)⟩

/-- Counterexample for C10: the words 0 and 0x80000000 agree on their five
least-significant bits, and their `il` members are 0 and 2. -/
theorem il_not_in_low_bits :
    (⟨0, 0, 0⟩ : STemplate).i0 < 2 ^ 32 ∧ (⟨0x80000000, 0, 0⟩ : STemplate).i0 < 2 ^ 32 ∧
      (⟨0, 0, 0⟩ : STemplate).i0 % 2 ^ 5 = (⟨0x80000000, 0, 0⟩ : STemplate).i0 % 2 ^ 5 ∧
      a.il ⟨0, 0, 0⟩ = 0 ∧ a.il ⟨0x80000000, 0, 0⟩ = 2 ∧
      a.il ⟨0, 0, 0⟩ ≠ a.il ⟨0x80000000, 0, 0⟩ := by
  decide

/-- C10 (amended): the `il` and `mode` members of an instruction's first word
are given by the high-order bits of that word: any two 32-bit words that agree
on their five most-significant bits have equal `il` and equal `mode`. -/
theorem il_mode_high_bits (x y : STemplate) (hx : x.i0 < 2 ^ 32) (hy : y.i0 < 2 ^ 32)
    (h : x.i0 / 2 ^ 27 = y.i0 / 2 ^ 27) :
    a.il x = a.il y ∧ a.mode x = a.mode y := by
  obtain ⟨h1, -, h3, -, -⟩ := il_mode_layout x hx
  obtain ⟨k1, -, k3, -, -⟩ := il_mode_layout y hy
  rw [h1, h3, k1, k3]
  omega

/-- Witness for C10 (amended): the words 0xB8000000 and 0xBFFFFFFF agree on
their five most-significant bits. -/
theorem il_mode_high_bits_witness :
    (⟨0xB8000000, 0, 0⟩ : STemplate).i0 < 2 ^ 32 ∧
    (⟨0xBFFFFFFF, 0, 0⟩ : STemplate).i0 < 2 ^ 32 ∧
    (⟨0xB8000000, 0, 0⟩ : STemplate).i0 / 2 ^ 27 = (⟨0xBFFFFFFF, 0, 0⟩ : STemplate).i0 / 2 ^ 27 ∧
    (a.il ⟨0xB8000000, 0, 0⟩ = a.il ⟨0xBFFFFFFF, 0, 0⟩ ∧
      a.mode ⟨0xB8000000, 0, 0⟩ = a.mode ⟨0xBFFFFFFF, 0, 0⟩) :=
  ⟨by decide, by decide, by decide,
    il_mode_high_bits ⟨0xB8000000, 0, 0⟩ ⟨0xBFFFFFFF, 0, 0⟩ (by decide) (by decide)
      (by decide)⟩

end STemplate

/-! ## Masks -/

/-- Masking with a run of `n` one-bits starting at bit `k` keeps exactly those bits. -/
theorem land_run (x k n : Nat) : x &&& (2 ^ k * (2 ^ n - 1)) = 2 ^ k * (x / 2 ^ k % 2 ^ n) := by
  apply Nat.eq_of_testBit_eq
  intro i
  rw [Nat.testBit_and, Nat.testBit_mul_pow_two, Nat.testBit_mul_pow_two,
    Nat.testBit_two_pow_sub_one, Nat.testBit_mod_two_pow, ← Nat.shiftRight_eq_div_pow,
    Nat.testBit_shiftRight]
  by_cases h : i ≥ k
  · have : k + (i - k) = i := by omega
    simp [h, this, Bool.and_comm]
  · simp [h]

theorem land_0xFF (x : Nat) : x &&& 0xFF = x % 256 := by
  have := land_run x 0 8
  norm_num at this
  exact this

theorem land_0x1F (x : Nat) : x &&& 0x1F = x % 32 := by
  have := land_run x 0 5
  norm_num at this
  exact this

theorem land_0xE0 (x : Nat) : x &&& 0xE0 = 32 * (x / 32 % 8) := by
  have := land_run x 5 3
  norm_num at this
  exact this

theorem land_not32_0xFF (x : Nat) : x &&& not32 0xFF = 256 * (x / 256 % 2 ^ 24) := by
  have := land_run x 8 24
  norm_num at this
  exact this

theorem lor_low_byte (j a : Nat) (hj : j % 256 = 0) (ha : a < 256) : j ||| a = j + a := by
  have h := Nat.mul_add_lt_is_or (i := 8) (b := a) (by norm_num; exact ha) (j / 256)
  have hj' : 2 ^ 8 * (j / 256) = j := by omega
  rw [hj'] at h
  exact h.symm

theorem land_EQ (x : Nat) : x &&& EQ = 256 * (x / 256 % 2) := by
  have := land_run x 8 1
  norm_num at this
  exact this

theorem land_D2 (x : Nat) : x &&& D2 = 512 * (x / 512 % 2) := by
  have := land_run x 9 1
  norm_num at this
  exact this

theorem land_D3 (x : Nat) : x &&& D3 = 1024 * (x / 1024 % 2) := by
  have := land_run x 10 1
  norm_num at this
  exact this

theorem land_OP_UNS (x : Nat) : x &&& OP_UNS = 4096 * (x / 4096 % 2) := by
  have := land_run x 12 1
  norm_num at this
  exact this

/-! ## Bit-field assignment in the templates -/

theorem ofQ_q (q i2 : Nat) : (STemplate.ofQ q i2).q = q % 2 ^ 64 := by
  unfold STemplate.ofQ STemplate.q
  simp only
  omega

theorem writeField_fresh {α : Type} [DecidableEq α] (decl : List (α × Nat)) (f : α)
    (st v : Nat) (hst : st < 2 ^ fieldOffset decl f) :
    writeField decl f st v = st + 2 ^ fieldOffset decl f * (v % 2 ^ fieldWidth decl f) ∧
      writeField decl f st v < 2 ^ (fieldOffset decl f + fieldWidth decl f) := by
  have h1 : st % 2 ^ fieldOffset decl f = st := Nat.mod_eq_of_lt hst
  have hle : 2 ^ fieldOffset decl f ≤ 2 ^ (fieldOffset decl f + fieldWidth decl f) :=
    Nat.pow_le_pow_right (by norm_num) (Nat.le_add_right _ _)
  have h2 : st / 2 ^ (fieldOffset decl f + fieldWidth decl f) = 0 :=
    Nat.div_eq_of_lt (lt_of_lt_of_le hst hle)
  have h3 : v % 2 ^ fieldWidth decl f < 2 ^ fieldWidth decl f :=
    Nat.mod_lt _ (by positivity)
  have heq : writeField decl f st v =
      st + 2 ^ fieldOffset decl f * (v % 2 ^ fieldWidth decl f) := by
    unfold writeField
    rw [h1, h2]
    simp
  refine ⟨heq, ?_⟩
  rw [heq, Nat.pow_add]
  calc st + 2 ^ fieldOffset decl f * (v % 2 ^ fieldWidth decl f)
      < 2 ^ fieldOffset decl f + 2 ^ fieldOffset decl f * (v % 2 ^ fieldWidth decl f) := by
        omega
    _ = 2 ^ fieldOffset decl f * (v % 2 ^ fieldWidth decl f + 1) := by ring
    _ ≤ 2 ^ fieldOffset decl f * 2 ^ fieldWidth decl f :=
        Nat.mul_le_mul_left _ h3

namespace STemplate

theorem a_write_fresh (f : AField) (off len : Nat) (ho : fieldOffset aDecl f = off)
    (hw : fieldWidth aDecl f = len) (hol : off + len ≤ 64) (x : STemplate) (v : Nat)
    (hx : x.q < 2 ^ off) :
    (a.write f v x).q = x.q + 2 ^ off * (v % 2 ^ len) ∧ (a.write f v x).q < 2 ^ (off + len) := by
  subst ho hw
  obtain ⟨h1, h2⟩ := writeField_fresh aDecl f x.q v hx
  have h3 : writeField aDecl f x.q v < 2 ^ 64 :=
    lt_of_lt_of_le h2 (Nat.pow_le_pow_right (by norm_num) hol)
  unfold a.write
  rw [ofQ_q, Nat.mod_eq_of_lt h3]
  exact ⟨h1, h2⟩

theorem a_pack_q (vals : AField → Nat) :
    (a.pack vals).q =
      vals .rt % 2 ^ 5 + 2 ^ 5 * (vals .mask % 2 ^ 3) + 2 ^ 8 * (vals .rs % 2 ^ 5) +
      2 ^ 13 * (vals .ot % 2 ^ 3) + 2 ^ 16 * (vals .rd % 2 ^ 5) + 2 ^ 21 * (vals .op1 % 2 ^ 6) +
      2 ^ 27 * (vals .mode % 2 ^ 3) + 2 ^ 30 * (vals .il % 2 ^ 2) +
      2 ^ 32 * (vals .im2 % 2 ^ 16) + 2 ^ 48 * (vals .ru % 2 ^ 5) +
      2 ^ 53 * (vals .im3 % 2 ^ 6) + 2 ^ 59 * (vals .mode2 % 2 ^ 3) +
      2 ^ 62 * (vals .op2 % 2 ^ 2) := by
  simp only [a.pack, aDecl, List.foldl_cons, List.foldl_nil]
  have h0 : (⟨0, 0, 0⟩ : STemplate).q < 2 ^ 0 := by decide
  have e0 : (⟨0, 0, 0⟩ : STemplate).q = 0 := by decide
  obtain ⟨e1, h1⟩ := a_write_fresh .rt 0 5 (by decide) (by decide) (by norm_num) _ (vals .rt) h0
  obtain ⟨e2, h2⟩ := a_write_fresh .mask 5 3 (by decide) (by decide) (by norm_num) _
    (vals .mask) h1
  obtain ⟨e3, h3⟩ := a_write_fresh .rs 8 5 (by decide) (by decide) (by norm_num) _ (vals .rs) h2
  obtain ⟨e4, h4⟩ := a_write_fresh .ot 13 3 (by decide) (by decide) (by norm_num) _ (vals .ot) h3
  obtain ⟨e5, h5⟩ := a_write_fresh .rd 16 5 (by decide) (by decide) (by norm_num) _ (vals .rd) h4
  obtain ⟨e6, h6⟩ := a_write_fresh .op1 21 6 (by decide) (by decide) (by norm_num) _
    (vals .op1) h5
  obtain ⟨e7, h7⟩ := a_write_fresh .mode 27 3 (by decide) (by decide) (by norm_num) _
    (vals .mode) h6
  obtain ⟨e8, h8⟩ := a_write_fresh .il 30 2 (by decide) (by decide) (by norm_num) _ (vals .il) h7
  obtain ⟨e9, h9⟩ := a_write_fresh .im2 32 16 (by decide) (by decide) (by norm_num) _
    (vals .im2) h8
  obtain ⟨e10, h10⟩ := a_write_fresh .ru 48 5 (by decide) (by decide) (by norm_num) _
    (vals .ru) h9
  obtain ⟨e11, h11⟩ := a_write_fresh .im3 53 6 (by decide) (by decide) (by norm_num) _
    (vals .im3) h10
  obtain ⟨e12, h12⟩ := a_write_fresh .mode2 59 3 (by decide) (by decide) (by norm_num) _
    (vals .mode2) h11
  obtain ⟨e13, -⟩ := a_write_fresh .op2 62 2 (by decide) (by decide) (by norm_num) _
    (vals .op2) h12
  rw [e13, e12, e11, e10, e9, e8, e7, e6, e5, e4, e3, e2, e1, e0]
  norm_num

theorem a_read_eq (f : AField) (x : STemplate) :
    a.read f x = match f with
      | .rt => x.q / 2 ^ 0 % 2 ^ 5
      | .mask => x.q / 2 ^ 5 % 2 ^ 3
      | .rs => x.q / 2 ^ 8 % 2 ^ 5
      | .ot => x.q / 2 ^ 13 % 2 ^ 3
      | .rd => x.q / 2 ^ 16 % 2 ^ 5
      | .op1 => x.q / 2 ^ 21 % 2 ^ 6
      | .mode => x.q / 2 ^ 27 % 2 ^ 3
      | .il => x.q / 2 ^ 30 % 2 ^ 2
      | .im2 => x.q / 2 ^ 32 % 2 ^ 16
      | .ru => x.q / 2 ^ 48 % 2 ^ 5
      | .im3 => x.q / 2 ^ 53 % 2 ^ 6
      | .mode2 => x.q / 2 ^ 59 % 2 ^ 3
      | .op2 => x.q / 2 ^ 62 % 2 ^ 2 := by
  cases f <;> rfl

theorem a_width_eq (f : AField) :
    fieldWidth aDecl f = match f with
      | .rt => 5 | .mask => 3 | .rs => 5 | .ot => 3 | .rd => 5 | .op1 => 6 | .mode => 3
      | .il => 2 | .im2 => 16 | .ru => 5 | .im3 => 6 | .mode2 => 3 | .op2 => 2 := by
  cases f <;> rfl

theorem a_read_pack (vals : AField → Nat) (hv : ∀ f, vals f < 2 ^ fieldWidth aDecl f)
    (f : AField) : a.read f (a.pack vals) = vals f := by
  have b1 := hv .rt
  have b2 := hv .mask
  have b3 := hv .rs
  have b4 := hv .ot
  have b5 := hv .rd
  have b6 := hv .op1
  have b7 := hv .mode
  have b8 := hv .il
  have b9 := hv .im2
  have b10 := hv .ru
  have b11 := hv .im3
  have b12 := hv .mode2
  have b13 := hv .op2
  simp only [a_width_eq] at b1 b2 b3 b4 b5 b6 b7 b8 b9 b10 b11 b12 b13
  rw [a_read_eq, a_pack_q]
  cases f <;> simp only <;> omega

theorem a_pack_read (x : STemplate) : (a.pack (fun f => a.read f x)).q = x.q := by
  have hq : x.q < 2 ^ 64 := by unfold q; omega
  rw [a_pack_q]
  simp only [a_read_eq, Nat.mod_mod]
  generalize x.q = v at hq ⊢
  have c1 : v % 2 ^ 8 = v / 2 ^ 0 % 2 ^ 5 + 2 ^ 5 * (v / 2 ^ 5 % 2 ^ 3) := by omega
  have c2 : v % 2 ^ 13 = v % 2 ^ 8 + 2 ^ 8 * (v / 2 ^ 8 % 2 ^ 5) := by omega
  have c3 : v % 2 ^ 16 = v % 2 ^ 13 + 2 ^ 13 * (v / 2 ^ 13 % 2 ^ 3) := by omega
  have c4 : v % 2 ^ 21 = v % 2 ^ 16 + 2 ^ 16 * (v / 2 ^ 16 % 2 ^ 5) := by omega
  have c5 : v % 2 ^ 27 = v % 2 ^ 21 + 2 ^ 21 * (v / 2 ^ 21 % 2 ^ 6) := by omega
  have c6 : v % 2 ^ 30 = v % 2 ^ 27 + 2 ^ 27 * (v / 2 ^ 27 % 2 ^ 3) := by omega
  have c7 : v % 2 ^ 32 = v % 2 ^ 30 + 2 ^ 30 * (v / 2 ^ 30 % 2 ^ 2) := by omega
  have c8 : v % 2 ^ 48 = v % 2 ^ 32 + 2 ^ 32 * (v / 2 ^ 32 % 2 ^ 16) := by omega
  have c9 : v % 2 ^ 53 = v % 2 ^ 48 + 2 ^ 48 * (v / 2 ^ 48 % 2 ^ 5) := by omega
  have c10 : v % 2 ^ 59 = v % 2 ^ 53 + 2 ^ 53 * (v / 2 ^ 53 % 2 ^ 6) := by omega
  have c11 : v % 2 ^ 62 = v % 2 ^ 59 + 2 ^ 59 * (v / 2 ^ 59 % 2 ^ 3) := by omega
  have c12 : v = v % 2 ^ 62 + 2 ^ 62 * (v / 2 ^ 62 % 2 ^ 2) := by omega
  generalize v / 2 ^ 0 % 2 ^ 5 = t0 at *
  generalize v / 2 ^ 5 % 2 ^ 3 = t1 at *
  generalize v / 2 ^ 8 % 2 ^ 5 = t2 at *
  generalize v / 2 ^ 13 % 2 ^ 3 = t3 at *
  generalize v / 2 ^ 16 % 2 ^ 5 = t4 at *
  generalize v / 2 ^ 21 % 2 ^ 6 = t5 at *
  generalize v / 2 ^ 27 % 2 ^ 3 = t6 at *
  generalize v / 2 ^ 30 % 2 ^ 2 = t7 at *
  generalize v / 2 ^ 32 % 2 ^ 16 = t8 at *
  generalize v / 2 ^ 48 % 2 ^ 5 = t9 at *
  generalize v / 2 ^ 53 % 2 ^ 6 = t10 at *
  generalize v / 2 ^ 59 % 2 ^ 3 = t11 at *
  generalize v / 2 ^ 62 % 2 ^ 2 = t12 at *
  generalize v % 2 ^ 8 = m1 at *
  generalize v % 2 ^ 13 = m2 at *
  generalize v % 2 ^ 16 = m3 at *
  generalize v % 2 ^ 21 = m4 at *
  generalize v % 2 ^ 27 = m5 at *
  generalize v % 2 ^ 30 = m6 at *
  generalize v % 2 ^ 32 = m7 at *
  generalize v % 2 ^ 48 = m8 at *
  generalize v % 2 ^ 53 = m9 at *
  generalize v % 2 ^ 59 = m10 at *
  generalize v % 2 ^ 62 = m11 at *
  omega

end STemplate
namespace STemplate

theorem d_layout :
    fieldOffset dDecl .im2 = 0 ∧ fieldWidth dDecl .im2 = 24 ∧
    fieldOffset dDecl .op1 = 24 ∧ fieldWidth dDecl .op1 = 3 ∧
    fieldOffset dDecl .mode = 27 ∧ fieldWidth dDecl .mode = 3 ∧
    fieldOffset dDecl .il = 30 ∧ fieldWidth dDecl .il = 2 := by
  decide

/-- C12: view `d` reads `im2` as the low 24 bits of the first word taken as a
two's-complement integer, so within -2^23 .. 2^23 - 1, and reads `d.op1` as
`a.op1 / 8`; assigning an integer of that range to `d.im2` and reading it
back yields it, and leaves `op1`, `mode` and `il` unchanged. -/
theorem d_im2_signed (x : STemplate) (hx : x.i0 < 2 ^ 32) (v : Int)
    (hv1 : -(2 ^ 23 : Int) ≤ v) (hv2 : v < 2 ^ 23) :
    d.im2 x = (if x.i0 % 2 ^ 24 < 2 ^ 23 then ((x.i0 % 2 ^ 24 : Nat) : Int)
      else ((x.i0 % 2 ^ 24 : Nat) : Int) - 2 ^ 24) ∧
    (-(2 ^ 23 : Int) ≤ d.im2 x ∧ d.im2 x < 2 ^ 23) ∧
    d.op1 x = a.op1 x / 8 ∧
    d.im2 (d.setIm2 v x) = v ∧
    d.op1 (d.setIm2 v x) = d.op1 x ∧
    d.mode (d.setIm2 v x) = d.mode x ∧ d.il (d.setIm2 v x) = d.il x ∧
    a.mode (d.setIm2 v x) = a.mode x ∧ a.il (d.setIm2 v x) = a.il x := by
  obtain ⟨o1, w1, o2, w2, o3, w3, o4, w4⟩ := d_layout
  have ao : fieldOffset aDecl .op1 = 21 ∧ fieldWidth aDecl .op1 = 6 ∧
      fieldOffset aDecl .mode = 27 ∧ fieldWidth aDecl .mode = 3 ∧
      fieldOffset aDecl .il = 30 ∧ fieldWidth aDecl .il = 2 := by decide
  obtain ⟨ao1, aw1, ao2, aw2, ao3, aw3⟩ := ao
  have hu : toUnsigned 24 v < 2 ^ 24 := SExpression.toUnsigned_lt 24 v
  have hs : toSigned 24 (toUnsigned 24 v) = v := by
    unfold toSigned toUnsigned
    split <;> omega
  simp only [d.im2, d.op1, d.mode, d.il, a.op1, a.mode, a.il, d.setIm2, readSigned, readField,
    writeSigned, writeField, o1, w1, o2, w2, o3, w3, o4, w4, ao1, aw1, ao2, aw2, ao3, aw3, bits,
    q]
  refine ⟨?_, ?_, ?_, ?_, ?_, ?_, ?_, ?_, ?_⟩
  · unfold toSigned
    simp only [Nat.pow_zero, Nat.div_one, Nat.mod_mod]
    have : x.i0 % 2 ^ 32 % 2 ^ 24 = x.i0 % 2 ^ 24 := by omega
    rw [this]
  · unfold toSigned
    split <;> omega
  · omega
  · have : ((x.i0 % 2 ^ 32 % 2 ^ 0 + 2 ^ 0 * (toUnsigned 24 v % 2 ^ 24) +
        2 ^ (0 + 24) * (x.i0 % 2 ^ 32 / 2 ^ (0 + 24))) % 2 ^ 32) / 2 ^ 0 % 2 ^ 24 =
        toUnsigned 24 v := by omega
    rw [this, hs]
  · omega
  · omega
  · omega
  · omega
  · omega

end STemplate
namespace STinyTemplate

theorem tiny_layout :
    fieldOffset tDecl .rs = 0 ∧ fieldWidth tDecl .rs = 4 ∧
    fieldOffset tDecl .rd = 4 ∧ fieldWidth tDecl .rd = 5 ∧
    fieldOffset tDecl .op1 = 9 ∧ fieldWidth tDecl .op1 = 5 := by
  decide

theorem tiny_pack_i (rs : Int) (rd op1 : Nat) :
    (t.pack rs rd op1).i = toUnsigned 4 rs + 2 ^ 4 * (rd % 2 ^ 5) + 2 ^ 9 * (op1 % 2 ^ 5) := by
  obtain ⟨o1, w1, o2, w2, o3, w3⟩ := tiny_layout
  have hu : toUnsigned 4 rs < 2 ^ 4 := SExpression.toUnsigned_lt 4 rs
  simp only [t.pack, writeSigned, writeField, o1, w1, o2, w2, o3, w3]
  omega

/-- C13: the view `t` splits a 32-bit word into `tiny1`, its low 14 bits,
`tiny2`, the next 14 bits, and `ilmd`, the top 4 bits; the members `rs`
(4 bits, signed), `rd` and `op1` (5 bits each) of `STinyTemplate` occupy
exactly 14 bits; reading the three members of a 14-bit value and packing them
gives the value back, and packing an in-range triple gives a 14-bit value from
which the triple is read back. -/
theorem tiny_fields (x : STemplate) (hx : x.i0 < 2 ^ 32) (v : Nat) (hv : v < 2 ^ 14)
    (rs : Int) (rd op1 : Nat) (hrs : -8 ≤ rs ∧ rs ≤ 7) (hrd : rd < 2 ^ 5) (hop : op1 < 2 ^ 5) :
    (STemplate.t.tiny1 x = x.i0 % 2 ^ 14 ∧ STemplate.t.tiny2 x = x.i0 / 2 ^ 14 % 2 ^ 14 ∧
      STemplate.t.ilmd x = x.i0 / 2 ^ 28 ∧
      x.i0 = STemplate.t.tiny1 x + 2 ^ 14 * STemplate.t.tiny2 x + 2 ^ 28 * STemplate.t.ilmd x) ∧
    (fieldWidth tDecl .rs = 4 ∧ fieldWidth tDecl .rd = 5 ∧ fieldWidth tDecl .op1 = 5 ∧
      (∀ p : Nat, p < 14 → (coveringFields tDecl p).length = 1) ∧
      (∀ p : Nat, 14 ≤ p → coveringFields tDecl p = [])) ∧
    ((-8 ≤ t.rs ⟨v⟩ ∧ t.rs ⟨v⟩ ≤ 7) ∧ t.rd ⟨v⟩ < 2 ^ 5 ∧ t.op1 ⟨v⟩ < 2 ^ 5 ∧
      t.pack (t.rs ⟨v⟩) (t.rd ⟨v⟩) (t.op1 ⟨v⟩) = ⟨v⟩) ∧
    ((t.pack rs rd op1).i < 2 ^ 14 ∧ t.rs (t.pack rs rd op1) = rs ∧
      t.rd (t.pack rs rd op1) = rd ∧ t.op1 (t.pack rs rd op1) = op1) := by
  obtain ⟨o1, w1, o2, w2, o3, w3⟩ := tiny_layout
  have l1 : fieldOffset STemplate.tDecl .tiny1 = 0 ∧ fieldWidth STemplate.tDecl .tiny1 = 14 ∧
      fieldOffset STemplate.tDecl .tiny2 = 14 ∧ fieldWidth STemplate.tDecl .tiny2 = 14 ∧
      fieldOffset STemplate.tDecl .ilmd = 28 ∧ fieldWidth STemplate.tDecl .ilmd = 4 := by decide
  obtain ⟨p1, q1, p2, q2, p3, q3⟩ := l1
  refine ⟨?_, ⟨w1, w2, w3, by decide, ?_⟩, ?_, ?_⟩
  · simp only [STemplate.t.tiny1, STemplate.t.tiny2, STemplate.t.ilmd, readField, bits, p1, q1, p2,
      q2, p3, q3]
    refine ⟨?_, ?_, ?_, ?_⟩ <;> omega
  · intro p hp
    unfold coveringFields
    rw [List.filter_eq_nil_iff]
    intro f _
    cases f <;> simp only [fieldCovers, o1, w1, o2, w2, o3, w3, decide_eq_true_eq] <;> omega
  · have hu : ∀ u : Nat, u < 2 ^ 4 → toUnsigned 4 (toSigned 4 u) = u := by
      intro u hu
      unfold toUnsigned toSigned
      split <;> omega
    have hr : ∀ u : Nat, u < 2 ^ 4 → -8 ≤ toSigned 4 u ∧ toSigned 4 u ≤ 7 := by
      intro u hu
      unfold toSigned
      split <;> omega
    have hb : v % 2 ^ 32 / 2 ^ 0 % 2 ^ 4 < 2 ^ 4 := Nat.mod_lt _ (by norm_num)
    refine ⟨?_, ?_, ?_, ?_⟩
    · simp only [t.rs, readSigned, readField, bits, o1, w1]
      exact hr _ hb
    · simp only [t.rd, readField, bits, o2, w2]
      omega
    · simp only [t.op1, readField, bits, o3, w3]
      omega
    · have : (t.pack (t.rs ⟨v⟩) (t.rd ⟨v⟩) (t.op1 ⟨v⟩)).i = v := by
        rw [tiny_pack_i]
        simp only [t.rs, t.rd, t.op1, readSigned, readField, bits, o1, w1, o2, w2, o3, w3]
        rw [hu _ hb]
        omega
      cases hp : t.pack (t.rs ⟨v⟩) (t.rd ⟨v⟩) (t.op1 ⟨v⟩) with
      | mk i =>
        rw [hp] at this
        simp only at this
        rw [this]
  · have hu : toUnsigned 4 rs < 2 ^ 4 := SExpression.toUnsigned_lt 4 rs
    have hs : toSigned 4 (toUnsigned 4 rs) = rs := by
      unfold toSigned toUnsigned
      split <;> omega
    have hi := tiny_pack_i rs rd op1
    refine ⟨?_, ?_, ?_, ?_⟩
    · rw [hi]; omega
    · simp only [t.rs, readSigned, readField, bits, o1, w1, hi]
      have : (toUnsigned 4 rs + 2 ^ 4 * (rd % 2 ^ 5) + 2 ^ 9 * (op1 % 2 ^ 5)) % 2 ^ 32 / 2 ^ 0 %
          2 ^ 4 = toUnsigned 4 rs := by omega
      rw [this, hs]
    · simp only [t.rd, readField, bits, o2, w2, hi]
      omega
    · simp only [t.op1, readField, bits, o3, w3, hi]
      omega

end STinyTemplate
/-! ## Operator, keyword, jump and register ids -/

theorem operatorFlags_sum (F : Finset Nat) (hF : F ⊆ operatorFlags) :
    F.sum id = (if EQ ∈ F then EQ else 0) + (if D2 ∈ F then D2 else 0) +
      (if D3 ∈ F then D3 else 0) + (if OP_UNS ∈ F then OP_UNS else 0) := by
  have h : F = operatorFlags.filter (fun f => f ∈ F) := by
    rw [Finset.filter_mem_eq_inter, Finset.inter_eq_right.mpr hF]
  conv_lhs => rw [h]
  rw [Finset.sum_filter]
  unfold operatorFlags
  rw [Finset.sum_insert (by decide), Finset.sum_insert (by decide),
    Finset.sum_insert (by decide), Finset.sum_singleton]
  simp only [id]
  omega

theorem operatorId_decode (c : Nat) (hc : c < 256) (F : Finset Nat) (hF : F ⊆ operatorFlags) :
    operatorId c F &&& 0xFF = c ∧
    (operatorId c F &&& EQ ≠ 0 ↔ EQ ∈ F) ∧ (operatorId c F &&& D2 ≠ 0 ↔ D2 ∈ F) ∧
    (operatorId c F &&& D3 ≠ 0 ↔ D3 ∈ F) ∧ (operatorId c F &&& OP_UNS ≠ 0 ↔ OP_UNS ∈ F) := by
  unfold operatorId
  rw [operatorFlags_sum F hF]
  simp only [land_0xFF, land_EQ, land_D2, land_D3, land_OP_UNS]
  by_cases h1 : EQ ∈ F <;> by_cases h2 : D2 ∈ F <;> by_cases h3 : D3 ∈ F <;>
    by_cases h4 : OP_UNS ∈ F <;>
    simp only [h1, h2, h3, h4, if_true, if_false, iff_true, iff_false, ne_eq, not_not] <;>
    (try simp only [EQ, D2, D3, OP_UNS]) <;>
    omega

/-- C14: operator ids decode uniquely.  For a character code `c` below 256 and a
set `F` of additions among `EQ`, `D2`, `D3`, `OP_UNS`, the id `c` plus the sum
of `F` has low byte `c` and has exactly the additions of `F` set; hence two
different pairs of character and additions never give the same id. -/
theorem operator_ids_decode_uniquely (c : Nat) (hc : c < 256) (F : Finset Nat)
    (hF : F ⊆ operatorFlags) :
    operatorId c F &&& 0xFF = c ∧
    (∀ f ∈ operatorFlags, (operatorId c F &&& f ≠ 0 ↔ f ∈ F)) ∧
    (∀ (c' : Nat) (F' : Finset Nat), c' < 256 → F' ⊆ operatorFlags →
      operatorId c F = operatorId c' F' → c = c' ∧ F = F') := by
  obtain ⟨h0, h1, h2, h3, h4⟩ := operatorId_decode c hc F hF
  have hall : ∀ (c : Nat) (F : Finset Nat), c < 256 → F ⊆ operatorFlags →
      ∀ f ∈ operatorFlags, (operatorId c F &&& f ≠ 0 ↔ f ∈ F) := by
    intro c F hc hF f hf
    obtain ⟨-, h1, h2, h3, h4⟩ := operatorId_decode c hc F hF
    simp only [operatorFlags, Finset.mem_insert, Finset.mem_singleton] at hf
    rcases hf with rfl | rfl | rfl | rfl <;> assumption
  refine ⟨h0, hall c F hc hF, ?_⟩
  intro c' F' hc' hF' heq
  obtain ⟨h0', -⟩ := operatorId_decode c' hc' F' hF'
  refine ⟨?_, ?_⟩
  · rw [← h0, ← h0', heq]
  · ext f
    constructor
    · intro hf
      have := (hall c F hc hF f (hF hf)).mpr hf
      rw [heq] at this
      exact (hall c' F' hc' hF' f (hF hf)).mp this
    · intro hf
      have := (hall c' F' hc' hF' f (hF' hf)).mpr hf
      rw [← heq] at this
      exact (hall c F hc hF f (hF' hf)).mp this

/-- C15: the twenty token types are pairwise distinct, every keyword id of a
directive, attribute, type, option, named register or high level language
directive has the token type of its kind in the bits from bit 24 on, and the
keyword ids are pairwise distinct (each fits a non-negative `int`). -/
theorem keyword_id_token_type :
    tokenTypes.length = 20 ∧ tokenTypes.Nodup ∧
    (∀ id ∈ directiveIds, tokenTypeOf id = TOK_DIR) ∧
    (∀ id ∈ attributeIds, tokenTypeOf id = TOK_ATT) ∧
    (∀ id ∈ typeIds, tokenTypeOf id = TOK_TYP) ∧
    (∀ id ∈ optionIds, tokenTypeOf id = TOK_OPT) ∧
    (∀ id ∈ registerIds, tokenTypeOf id = TOK_REG) ∧
    (∀ id ∈ hllIds, tokenTypeOf id = TOK_HLL) ∧
    (∀ id ∈ keywordIds, id < 2 ^ 31) ∧
    keywordIds.Nodup := by
  refine ⟨rfl, ?_, ?_, ?_, ?_, ?_, ?_, ?_, ?_, ?_⟩ <;> decide

/-- C17: every jump id has its low 8 bits zero and the arithmetic ids named are
below 0x100; for a jump id `j` and any id `a` below 0x100 the combined id
`j | a` equals `j + a`, has `a` in its low byte and `j` in the bits above. -/
theorem jump_ids_combine :
    (∀ j ∈ jumpIds, j &&& 0xFF = 0) ∧
    (∀ a ∈ arithmeticIds, a < 0x100) ∧
    (∀ j ∈ jumpIds, ∀ a : Nat, a < 0x100 →
      j ||| a = j + a ∧ (j ||| a) &&& 0xFF = a ∧ (j ||| a) &&& not32 0xFF = j) := by
  have hj : ∀ j ∈ jumpIds, j % 256 = 0 ∧ j < 2 ^ 32 := by decide
  refine ⟨?_, by decide, ?_⟩
  · intro j hjm
    rw [land_0xFF]
    exact (hj j hjm).1
  · intro j hjm a ha
    obtain ⟨h1, h2⟩ := hj j hjm
    rw [lor_low_byte j a h1 ha, land_0xFF, land_not32_0xFF]
    refine ⟨rfl, ?_, ?_⟩ <;> omega

/-- C18: for every register family prefix and every number below 32 the code
`f + n` fits in 8 bits, has `n` in its low five bits and `f` in the three bits
above, so distinct pairs give distinct codes; the low byte of `REG_SP` is
`REG_R + 31`; and the codes 0x1C, 0x1D, 0x1E of threadp, datap and ip equal no
code of r0..r31 or v0..v31. -/
theorem register_code_decompose :
    (∀ f ∈ registerFamilies, ∀ n : Nat, n < 32 →
      registerCode f n < 2 ^ 8 ∧ registerCode f n &&& 0x1F = n ∧
        registerCode f n &&& 0xE0 = f) ∧
    (∀ f ∈ registerFamilies, ∀ f' ∈ registerFamilies, ∀ n n' : Nat, n < 32 → n' < 32 →
      registerCode f n = registerCode f' n' → f = f' ∧ n = n') ∧
    REG_SP &&& 0xFF = registerCode REG_R 31 ∧
    REG_THREADP &&& 0xFF = 0x1C ∧ REG_DATAP &&& 0xFF = 0x1D ∧ REG_IP &&& 0xFF = 0x1E ∧
    (∀ id ∈ [REG_THREADP, REG_DATAP, REG_IP], ∀ n : Nat, n < 32 →
      id &&& 0xFF ≠ registerCode REG_R n ∧ id &&& 0xFF ≠ registerCode REG_V n) := by
  have hf : ∀ f ∈ registerFamilies, f % 32 = 0 ∧ f ≤ 0xC0 := by decide
  have hid : ∀ id ∈ [REG_THREADP, REG_DATAP, REG_IP], id % 256 < 0x20 := by decide
  refine ⟨?_, ?_, by decide, by decide, by decide, by decide, ?_⟩
  · intro f hfm n hn
    obtain ⟨h1, h2⟩ := hf f hfm
    unfold registerCode
    rw [land_0x1F, land_0xE0]
    refine ⟨?_, ?_, ?_⟩ <;> omega
  · intro f hfm f' hfm' n n' hn hn' heq
    obtain ⟨h1, -⟩ := hf f hfm
    obtain ⟨h1', -⟩ := hf f' hfm'
    unfold registerCode at heq
    constructor <;> omega
  · intro id hidm n hn
    have := hid id hidm
    rw [land_0xFF]
    unfold registerCode
    simp only [REG_R, REG_V]
    constructor <;> omega

/-! ## Flags of combined expressions -/

namespace SExpression

theorem lor_eq_zero (p q : Nat) : p ||| q = 0 ↔ p = 0 ∧ q = 0 := by
  constructor
  · intro h
    have hb : ∀ i, p.testBit i = false ∧ q.testBit i = false := by
      intro i
      have := congrArg (fun x => Nat.testBit x i) h
      simpa [Nat.testBit_or] using this
    constructor
    · apply Nat.eq_of_testBit_eq
      intro i
      simp [(hb i).1]
    · apply Nat.eq_of_testBit_eq
      intro i
      simp [(hb i).2]
  · rintro ⟨rfl, rfl⟩
    rfl

theorem has_flag_lor (x y F : Nat) :
    (x ||| y) &&& F ≠ 0 ↔ (x &&& F ≠ 0 ∨ y &&& F ≠ 0) := by
  rw [Nat.and_distrib_right, Ne, lor_eq_zero]
  tauto

/-- C16: combining expressions never loses a flag: if `a` or `b` carries
`XPR_UNRESOLV` then `a | b` carries it, and for every `XPR_` flag `F` the
combined `etype` has `F` exactly when that of `a` or of `b` has it; when `b`
holds zero in `sym1`, `sym2` and `value`, `a | b` keeps those of `a`. -/
theorem combine_keeps_flags (a b : SExpression) (ha : a.InRange) (hb : b.InRange) :
    ((hasFlag a XPR_UNRESOLV = true ∨ hasFlag b XPR_UNRESOLV = true) →
      hasFlag (a ||| b) XPR_UNRESOLV = true) ∧
    (∀ F ∈ xprFlags, (hasFlag (a ||| b) F = true ↔ hasFlag a F = true ∨ hasFlag b F = true)) ∧
    (b.sym1 = 0 → b.sym2 = 0 → b.value = 0 →
      (a ||| b).sym1 = a.sym1 ∧ (a ||| b).sym2 = a.sym2 ∧ (a ||| b).value = a.value) := by
  obtain ⟨a1, -, a3, -, a5, a6, -⟩ := ha
  obtain ⟨b1, -, b3, -, b5, b6, -⟩ := hb
  have hflag : ∀ F : Nat,
      (hasFlag (a ||| b) F = true ↔ hasFlag a F = true ∨ hasFlag b F = true) := by
    intro F
    unfold hasFlag
    rw [or_members]
    simp only [bne_iff_ne, Nat.mod_eq_of_lt a3, Nat.mod_eq_of_lt b3]
    exact has_flag_lor _ _ _
  refine ⟨(hflag XPR_UNRESOLV).mpr, fun F _ => hflag F, ?_⟩
  intro h1 h2 h3
  rw [or_members]
  simp only [h1, h2, h3, Nat.zero_mod, Nat.or_zero, Nat.mod_eq_of_lt a1, Nat.mod_eq_of_lt a5,
    Nat.mod_eq_of_lt a6, and_self]

end SExpression

namespace STemplate

theorem a_attain (f : AField) (n : Nat) (hn : n < 2 ^ fieldWidth aDecl f) :
    ∃ y : STemplate, a.read f y = n := by
  refine ⟨a.pack (fun g => if g = f then n else 0), ?_⟩
  have := a_read_pack (fun g => if g = f then n else 0) (by
    intro g
    by_cases h : g = f
    · subst h; simpa using hn
    · simp only [h, if_false]; positivity) f
  simpa using this

theorem a_read_lt (f : AField) (x : STemplate) : a.read f x < 2 ^ fieldWidth aDecl f := by
  unfold a.read readField bits
  exact Nat.mod_lt _ (by positivity)

/-- C11: the thirteen members of view `a` have the widths 5, 3, 5, 3, 5, 6, 3, 2,
16, 5, 6, 3, 2; every one of the 64 bits belongs to exactly one member, the
first eight members lying in the first word and the last five in the second;
reading the members of a packed in-range tuple returns the tuple, and packing
the members read from any 64-bit value returns that value; `rt`, `rs`, `rd`,
`ru` hold exactly the numbers 0..31 and `mask` holds exactly 0..7. -/
theorem view_a_fields (vals : AField → Nat) (hv : ∀ f, vals f < 2 ^ fieldWidth aDecl f)
    (x : STemplate) :
    aDecl.map Prod.snd = [5, 3, 5, 3, 5, 6, 3, 2, 16, 5, 6, 3, 2] ∧
    (∀ p : Nat, p < 64 → (coveringFields aDecl p).length = 1) ∧
    (∀ f ∈ [AField.rt, .mask, .rs, .ot, .rd, .op1, .mode, .il],
      fieldOffset aDecl f + fieldWidth aDecl f ≤ 32) ∧
    (∀ f ∈ [AField.im2, .ru, .im3, .mode2, .op2],
      32 ≤ fieldOffset aDecl f ∧ fieldOffset aDecl f + fieldWidth aDecl f ≤ 64) ∧
    (∀ f, a.read f (a.pack vals) = vals f) ∧
    (a.pack (fun f => a.read f x)).q = x.q ∧
    (a.rt x < 32 ∧ a.rs x < 32 ∧ a.rd x < 32 ∧ a.ru x < 32 ∧ a.mask x < 8) ∧
    (∀ n : Nat, n < 32 → (∃ y, a.rt y = n) ∧ (∃ y, a.rs y = n) ∧ (∃ y, a.rd y = n) ∧
      (∃ y, a.ru y = n)) ∧
    (∀ n : Nat, n < 8 → ∃ y, a.mask y = n) := by
  refine ⟨rfl, by decide, by decide, by decide, a_read_pack vals hv, a_pack_read x,
    ⟨a_read_lt .rt x, a_read_lt .rs x, a_read_lt .rd x, a_read_lt .ru x, a_read_lt .mask x⟩,
    ?_, ?_⟩
  · intro n hn
    exact ⟨a_attain .rt n hn, a_attain .rs n hn, a_attain .rd n hn, a_attain .ru n hn⟩
  · intro n hn
    exact a_attain .mask n hn

/-- Witness for C11: the tuple that gives every member its own width as value
is in range and is read back; the members of 0x0123456789ABCDEF re-pack to it. -/
theorem view_a_fields_witness :
    (∀ f, (fun g => fieldWidth aDecl g) f < 2 ^ fieldWidth aDecl f) ∧
    (∀ f, a.read f (a.pack (fun g => fieldWidth aDecl g)) = fieldWidth aDecl f) ∧
    (a.pack (fun f => a.read f ⟨0x89ABCDEF, 0x01234567, 0⟩)).q =
      (⟨0x89ABCDEF, 0x01234567, 0⟩ : STemplate).q :=
  ⟨fun f => by cases f <;> decide,
    (view_a_fields (fun g => fieldWidth aDecl g) (fun f => by cases f <;> decide)
      ⟨0x89ABCDEF, 0x01234567, 0⟩).2.2.2.2.1,
    (view_a_fields (fun g => fieldWidth aDecl g) (fun f => by cases f <;> decide)
      ⟨0x89ABCDEF, 0x01234567, 0⟩).2.2.2.2.2.1⟩

end STemplate

namespace STemplate

/-- Witness for C12: the word 0xB8FFFFFE reads `d.im2` = -2; writing -5 there
is read back and leaves the upper members unchanged. -/
theorem d_im2_signed_witness :
    (⟨0xB8FFFFFE, 0, 0⟩ : STemplate).i0 < 2 ^ 32 ∧ -(2 ^ 23 : Int) ≤ -5 ∧ (-5 : Int) < 2 ^ 23 ∧
    d.im2 ⟨0xB8FFFFFE, 0, 0⟩ = -2 ∧
    d.im2 (d.setIm2 (-5) ⟨0xB8FFFFFE, 0, 0⟩) = -5 ∧
    d.op1 (d.setIm2 (-5) ⟨0xB8FFFFFE, 0, 0⟩) = d.op1 ⟨0xB8FFFFFE, 0, 0⟩ :=
  ⟨by decide, by decide, by decide, by decide,
    (d_im2_signed ⟨0xB8FFFFFE, 0, 0⟩ (by decide) (-5) (by decide) (by decide)).2.2.2.1,
    (d_im2_signed ⟨0xB8FFFFFE, 0, 0⟩ (by decide) (-5) (by decide) (by decide)).2.2.2.2.1⟩

end STemplate

namespace STinyTemplate

/-- Witness for C13: the word 0x7ABCDEF0 splits into two tiny instructions; the
14-bit value 0x1EF0 has the members (0, 15, 15), and the triple (-3, 17, 9)
packs to a 14-bit value from which it is read back. -/
theorem tiny_fields_witness :
    (⟨0x7ABCDEF0, 0, 0⟩ : STemplate).i0 < 2 ^ 32 ∧ 0x1EF0 < 2 ^ 14 ∧
    ((-8 : Int) ≤ -3 ∧ (-3 : Int) ≤ 7) ∧ 17 < 2 ^ 5 ∧ 9 < 2 ^ 5 ∧
    STemplate.t.tiny1 ⟨0x7ABCDEF0, 0, 0⟩ = 0x1EF0 ∧
    t.pack (t.rs ⟨0x1EF0⟩) (t.rd ⟨0x1EF0⟩) (t.op1 ⟨0x1EF0⟩) = ⟨0x1EF0⟩ ∧
    ((t.pack (-3) 17 9).i < 2 ^ 14 ∧ t.rs (t.pack (-3) 17 9) = -3 ∧
      t.rd (t.pack (-3) 17 9) = 17 ∧ t.op1 (t.pack (-3) 17 9) = 9) :=
  ⟨by decide, by decide, by decide, by decide, by decide, by decide,
    (tiny_fields ⟨0x7ABCDEF0, 0, 0⟩ (by decide) 0x1EF0 (by decide) (-3) 17 9 (by decide)
      (by decide) (by decide)).2.2.1.2.2.2,
    (tiny_fields ⟨0x7ABCDEF0, 0, 0⟩ (by decide) 0x1EF0 (by decide) (-3) 17 9 (by decide)
      (by decide) (by decide)).2.2.2⟩

end STinyTemplate

/-- Witness for C14: the character `>` (62) with the additions `D2` and `EQ`,
the operator `>>=`. -/
theorem operator_ids_decode_uniquely_witness :
    62 < 256 ∧ ({EQ, D2} : Finset Nat) ⊆ operatorFlags ∧ operatorId 62 {EQ, D2} = 0x33E ∧
    operatorId 62 {EQ, D2} &&& 0xFF = 62 ∧
    (∀ f ∈ operatorFlags, (operatorId 62 {EQ, D2} &&& f ≠ 0 ↔ f ∈ ({EQ, D2} : Finset Nat))) :=
  ⟨by decide, by decide, by decide,
    (operator_ids_decode_uniquely 62 (by decide) {EQ, D2} (by decide)).1,
    (operator_ids_decode_uniquely 62 (by decide) {EQ, D2} (by decide)).2.1⟩

namespace SExpression

/-- Witness for C16: `sampleU` carries `XPR_UNRESOLV` with a symbol reference
and an addend, and `sampleB` holds no symbol and no value. -/
theorem combine_keeps_flags_witness :
    sampleU.InRange ∧ sampleB.InRange ∧ hasFlag sampleU XPR_UNRESOLV = true ∧
    hasFlag (sampleU ||| sampleB) XPR_UNRESOLV = true ∧
    (sampleU ||| sampleB).sym1 = 7 ∧ (sampleU ||| sampleB).value = 5 :=
  ⟨by decide, by decide, by decide,
    (combine_keeps_flags sampleU sampleB (by decide) (by decide)).1 (Or.inl (by decide)),
    ((combine_keeps_flags sampleU sampleB (by decide) (by decide)).2.2 rfl rfl rfl).1,
    ((combine_keeps_flags sampleU sampleB (by decide) (by decide)).2.2 rfl rfl rfl).2.2⟩

end SExpression

/-! ## Format lookup -/

theorem criterion_le (crit : Nat) (x : STemplate) :
    criterion crit x ≤ criterionMax crit := by
  have h1 : STemplate.a.mode2 x < 2 ^ fieldWidth STemplate.aDecl .mode2 :=
    STemplate.a_read_lt .mode2 x
  have h2 : STemplate.a.op1 x < 2 ^ fieldWidth STemplate.aDecl .op1 :=
    STemplate.a_read_lt .op1 x
  have hw1 : fieldWidth STemplate.aDecl .mode2 = 3 := by decide
  have hw2 : fieldWidth STemplate.aDecl .op1 = 6 := by decide
  rw [hw1] at h1
  rw [hw2] at h2
  unfold criterion criterionMax
  split
  · omega
  · omega
  · omega
  · omega
  · omega
  · split <;> omega
  · omega

theorem lookupWalk_reaches (table : List SFormatIndex) (x : STemplate) (h : Nested table) :
    ∀ (fuel pos : Nat), pos < table.length → table.length - pos ≤ fuel →
      ∃ leaf, lookupWalk table x fuel pos = some leaf ∧ leaf.crit = 0 ∧ leaf ∈ table := by
  intro fuel
  induction fuel with
  | zero => intro pos hpos hf; omega
  | succ fuel ih =>
    intro pos hpos hf
    have hget : table[pos]? = some table[pos] := List.getElem?_eq_getElem hpos
    have hn := h.2 pos hpos
    rw [List.getD_eq_getElem?_getD, hget] at hn
    simp only [Option.getD_some] at hn
    simp only [lookupWalk, hget]
    by_cases hc : table[pos].crit = 0
    · simp only [hc, if_true]
      exact ⟨table[pos], rfl, hc, List.getElem_mem hpos⟩
    · simp only [hc, if_false]
      unfold nodeNested at hn
      simp only [Bool.or_eq_true, beq_iff_eq, hc, false_or, Bool.and_eq_true,
        decide_eq_true_eq] at hn
      have hcr := criterion_le table[pos].crit x
      exact ih _ (by omega) (by omega)

theorem lookupWalk_mono (table : List SFormatIndex) (x : STemplate) (leaf : SFormatIndex) :
    ∀ (fuel pos : Nat), lookupWalk table x fuel pos = some leaf →
      lookupWalk table x (fuel + 1) pos = some leaf := by
  intro fuel
  induction fuel with
  | zero => intro pos h; simp [lookupWalk] at h
  | succ fuel ih =>
    intro pos h
    rw [lookupWalk] at h ⊢
    cases hget : table[pos]? with
    | none => rw [hget] at h; simp at h
    | some node =>
      rw [hget] at h
      simp only at h ⊢
      by_cases hc : node.crit = 0
      · simpa [hc] using h
      · simp only [hc, if_false] at h ⊢
        exact ih _ h

theorem lookupWalk_fuel (table : List SFormatIndex) (x : STemplate) (leaf : SFormatIndex)
    (fuel pos : Nat) (h : lookupWalk table x fuel pos = some leaf) :
    ∀ fuel' : Nat, fuel ≤ fuel' → lookupWalk table x fuel' pos = some leaf := by
  intro fuel' hle
  obtain ⟨k, rfl⟩ := Nat.exists_eq_add_of_le hle
  induction k with
  | zero => exact h
  | succ k ih => exact lookupWalk_mono table x leaf _ pos (ih (Nat.le_add_right _ _))

/-- C19: format lookup is total on nested tables.  For every instruction header
the walk reaches a node with `crit` = 0 once it is given as many steps as the
tables have nodes, and the same node with any more steps; `lookupFormat`
returns the format index of that leaf when it is the index of a record of the
format list, and the invalid sentinel otherwise. -/
theorem lookupFormat_total (table : List SFormatIndex) (formatListSize invalid : Nat)
    (h : Nested table) (instruct : Nat) :
    (∃ leaf, (∀ fuel : Nat, table.length ≤ fuel →
        lookupWalk table (STemplate.ofQ instruct 0) fuel
          (STemplate.a.il (STemplate.ofQ instruct 0) * 8 +
            STemplate.a.mode (STemplate.ofQ instruct 0)) = some leaf) ∧
      leaf.crit = 0 ∧ leaf ∈ table ∧
      lookupFormat table formatListSize invalid instruct =
        (if leaf.index < formatListSize then leaf.index else invalid)) ∧
    (lookupFormat table formatListSize invalid instruct < formatListSize ∨
      lookupFormat table formatListSize invalid instruct = invalid) := by
  have h1 : STemplate.a.il (STemplate.ofQ instruct 0) < 2 ^ fieldWidth STemplate.aDecl .il :=
    STemplate.a_read_lt .il _
  have h2 : STemplate.a.mode (STemplate.ofQ instruct 0) < 2 ^ fieldWidth STemplate.aDecl .mode :=
    STemplate.a_read_lt .mode _
  have hw1 : fieldWidth STemplate.aDecl .il = 2 := by decide
  have hw2 : fieldWidth STemplate.aDecl .mode = 3 := by decide
  rw [hw1] at h1
  rw [hw2] at h2
  have h32 := h.1
  obtain ⟨leaf, hwalk, hcrit, hmem⟩ := lookupWalk_reaches table (STemplate.ofQ instruct 0) h
    table.length (STemplate.a.il (STemplate.ofQ instruct 0) * 8 +
      STemplate.a.mode (STemplate.ofQ instruct 0)) (by omega) (by omega)
  have hres : lookupFormat table formatListSize invalid instruct =
      (if leaf.index < formatListSize then leaf.index else invalid) := by
    unfold lookupFormat
    rw [hwalk]
  refine ⟨⟨leaf, lookupWalk_fuel table _ leaf _ _ hwalk, hcrit, hmem, hres⟩, ?_⟩
  rw [hres]
  split
  · left; assumption
  · right; rfl

/-- Witness for C19: the sample tables are nested; the header 0x45000000 has
`il` = 1, `mode` = 0 and `op1 / 8` = 5, and the walk ends at format 45. -/
theorem lookupFormat_total_witness :
    Nested sampleTable ∧
    lookupFormat sampleTable 48 0 0x45000000 = 45 ∧
    (lookupFormat sampleTable 48 0 0x45000000 < 48 ∨
      lookupFormat sampleTable 48 0 0x45000000 = 0) :=
  ⟨by decide, by decide, (lookupFormat_total sampleTable 48 0 (by decide) 0x45000000).2⟩

/-- Without the nesting the walk need not reach a leaf: in the sample cycle it
returns to the start of the first table at every step, whatever the fuel. -/
theorem lookupWalk_cycle (fuel : Nat) :
    lookupWalk sampleCycle (STemplate.ofQ 0 0) fuel 0 = none := by
  induction fuel with
  | zero => rfl
  | succ fuel ih =>
    have hget : sampleCycle[0]? = some ⟨6, 0⟩ := by decide
    have hc : criterion 6 (STemplate.ofQ 0 0) = 0 := by decide
    simp only [lookupWalk, hget, hc]
    exact ih

/-! ## Bitwise OR of signed members -/

theorem ldiff_lt_two_pow (n m w : Nat) (hn : n < 2 ^ w) : Nat.ldiff n m < 2 ^ w := by
  apply Nat.lt_pow_two_of_testBit
  intro i hi
  rw [Nat.testBit_ldiff, Nat.testBit_lt_two_pow (lt_of_lt_of_le hn (Nat.pow_le_pow_right (by norm_num) hi))]
  rfl

theorem land_lt_two_pow (m n w : Nat) (hm : m < 2 ^ w) : m &&& n < 2 ^ w :=
  lt_of_le_of_lt Nat.and_le_left hm

theorem lor_compl_right (m n w : Nat) (hm : m < 2 ^ w) (hn : n < 2 ^ w) :
    m ||| (2 ^ w - (n + 1)) = 2 ^ w - (Nat.ldiff n m + 1) := by
  apply Nat.eq_of_testBit_eq
  intro i
  rw [Nat.testBit_or, Nat.testBit_two_pow_sub_succ hn,
    Nat.testBit_two_pow_sub_succ (ldiff_lt_two_pow n m w hn), Nat.testBit_ldiff]
  by_cases hi : i < w
  · simp only [hi, decide_True, Bool.true_and]
    cases m.testBit i <;> cases n.testBit i <;> rfl
  · have : m.testBit i = false :=
      Nat.testBit_lt_two_pow (lt_of_lt_of_le hm (Nat.pow_le_pow_right (by norm_num) (by omega)))
    simp [hi, this]

theorem lor_compl_both (m n w : Nat) (hm : m < 2 ^ w) (hn : n < 2 ^ w) :
    (2 ^ w - (m + 1)) ||| (2 ^ w - (n + 1)) = 2 ^ w - ((m &&& n) + 1) := by
  apply Nat.eq_of_testBit_eq
  intro i
  rw [Nat.testBit_or, Nat.testBit_two_pow_sub_succ hm, Nat.testBit_two_pow_sub_succ hn,
    Nat.testBit_two_pow_sub_succ (land_lt_two_pow m n w hm), Nat.testBit_and]
  by_cases hi : i < w
  · simp only [hi, decide_True, Bool.true_and]
    cases m.testBit i <;> cases n.testBit i <;> rfl
  · simp [hi]

theorem toUnsigned_ofNat64 (m : Nat) (hm : m < 2 ^ 63) : toUnsigned 64 (Int.ofNat m) = m := by
  unfold toUnsigned
  rw [Int.ofNat_eq_coe]
  omega

theorem toUnsigned_negSucc64 (n : Nat) (hn : n < 2 ^ 63) :
    toUnsigned 64 (Int.negSucc n) = 2 ^ 64 - (n + 1) := by
  unfold toUnsigned
  rw [Int.negSucc_eq]
  omega

theorem toSigned_nonneg64 (k : Nat) (hk : k < 2 ^ 63) : toSigned 64 k = Int.ofNat k := by
  unfold toSigned
  rw [Int.ofNat_eq_coe]
  split <;> omega

theorem toSigned_neg64 (k : Nat) (hk : k < 2 ^ 63) :
    toSigned 64 (2 ^ 64 - (k + 1)) = Int.negSucc k := by
  unfold toSigned
  rw [Int.negSucc_eq]
  split <;> omega

theorem toSigned_lor64 (x y : Int) (hx1 : -(2 ^ 63 : Int) ≤ x) (hx2 : x < 2 ^ 63)
    (hy1 : -(2 ^ 63 : Int) ≤ y) (hy2 : y < 2 ^ 63) :
    toSigned 64 (toUnsigned 64 x ||| toUnsigned 64 y) = Int.lor x y := by
  cases x with
  | ofNat m =>
    have hm : m < 2 ^ 63 := by rw [Int.ofNat_eq_coe] at hx2; omega
    cases y with
    | ofNat n =>
      have hn : n < 2 ^ 63 := by rw [Int.ofNat_eq_coe] at hy2; omega
      rw [toUnsigned_ofNat64 m hm, toUnsigned_ofNat64 n hn,
        toSigned_nonneg64 _ (Nat.or_lt_two_pow hm hn)]
      rfl
    | negSucc n =>
      have hn : n < 2 ^ 63 := by rw [Int.negSucc_eq] at hy1; omega
      rw [toUnsigned_ofNat64 m hm, toUnsigned_negSucc64 n hn,
        lor_compl_right m n 64 (by omega) (by omega),
        toSigned_neg64 _ (ldiff_lt_two_pow n m 63 hn)]
      rfl
  | negSucc m =>
    have hm : m < 2 ^ 63 := by rw [Int.negSucc_eq] at hx1; omega
    cases y with
    | ofNat n =>
      have hn : n < 2 ^ 63 := by rw [Int.ofNat_eq_coe] at hy2; omega
      rw [toUnsigned_negSucc64 m hm, toUnsigned_ofNat64 n hn, Nat.lor_comm,
        lor_compl_right n m 64 (by omega) (by omega),
        toSigned_neg64 _ (ldiff_lt_two_pow m n 63 hm)]
      rfl
    | negSucc n =>
      have hn : n < 2 ^ 63 := by rw [Int.negSucc_eq] at hy1; omega
      rw [toUnsigned_negSucc64 m hm, toUnsigned_negSucc64 n hn,
        lor_compl_both m n 64 (by omega) (by omega),
        toSigned_neg64 _ (land_lt_two_pow m n 63 hm)]
      rfl

theorem toUnsigned_ofNat8 (m : Nat) (hm : m < 2 ^ 7) : toUnsigned 8 (Int.ofNat m) = m := by
  unfold toUnsigned
  rw [Int.ofNat_eq_coe]
  omega

theorem toUnsigned_negSucc8 (n : Nat) (hn : n < 2 ^ 7) :
    toUnsigned 8 (Int.negSucc n) = 2 ^ 8 - (n + 1) := by
  unfold toUnsigned
  rw [Int.negSucc_eq]
  omega

theorem toSigned_nonneg8 (k : Nat) (hk : k < 2 ^ 7) : toSigned 8 k = Int.ofNat k := by
  unfold toSigned
  rw [Int.ofNat_eq_coe]
  split <;> omega

theorem toSigned_neg8 (k : Nat) (hk : k < 2 ^ 7) :
    toSigned 8 (2 ^ 8 - (k + 1)) = Int.negSucc k := by
  unfold toSigned
  rw [Int.negSucc_eq]
  split <;> omega

theorem toSigned_lor8 (x y : Int) (hx1 : -(2 ^ 7 : Int) ≤ x) (hx2 : x < 2 ^ 7)
    (hy1 : -(2 ^ 7 : Int) ≤ y) (hy2 : y < 2 ^ 7) :
    toSigned 8 (toUnsigned 8 x ||| toUnsigned 8 y) = Int.lor x y := by
  cases x with
  | ofNat m =>
    have hm : m < 2 ^ 7 := by rw [Int.ofNat_eq_coe] at hx2; omega
    cases y with
    | ofNat n =>
      have hn : n < 2 ^ 7 := by rw [Int.ofNat_eq_coe] at hy2; omega
      rw [toUnsigned_ofNat8 m hm, toUnsigned_ofNat8 n hn,
        toSigned_nonneg8 _ (Nat.or_lt_two_pow hm hn)]
      rfl
    | negSucc n =>
      have hn : n < 2 ^ 7 := by rw [Int.negSucc_eq] at hy1; omega
      rw [toUnsigned_ofNat8 m hm, toUnsigned_negSucc8 n hn,
        lor_compl_right m n 8 (by omega) (by omega),
        toSigned_neg8 _ (ldiff_lt_two_pow n m 7 hn)]
      rfl
  | negSucc m =>
    have hm : m < 2 ^ 7 := by rw [Int.negSucc_eq] at hx1; omega
    cases y with
    | ofNat n =>
      have hn : n < 2 ^ 7 := by rw [Int.ofNat_eq_coe] at hy2; omega
      rw [toUnsigned_negSucc8 m hm, toUnsigned_ofNat8 n hn, Nat.lor_comm,
        lor_compl_right n m 8 (by omega) (by omega),
        toSigned_neg8 _ (ldiff_lt_two_pow m n 7 hm)]
      rfl
    | negSucc n =>
      have hn : n < 2 ^ 7 := by rw [Int.negSucc_eq] at hy1; omega
      rw [toUnsigned_negSucc8 m hm, toUnsigned_negSucc8 n hn,
        lor_compl_both m n 8 (by omega) (by omega),
        toSigned_neg8 _ (land_lt_two_pow m n 7 hm)]
      rfl

/-! ## Field-wise reading of the combine -/

namespace SExpression

theorem or_inRange (a b : SExpression) : (a ||| b).InRange := by
  rw [or_members]
  have hs64 : ∀ u : Nat, -(2 ^ 63 : Int) ≤ toSigned 64 u ∧ toSigned 64 u < 2 ^ 63 := by
    intro u; unfold toSigned; split <;> omega
  have hs8 : ∀ u : Nat, -(2 ^ 7 : Int) ≤ toSigned 8 u ∧ toSigned 8 u < 2 ^ 7 := by
    intro u; unfold toSigned; split <;> omega
  have hor : ∀ (w x y : Nat), x % 2 ^ w ||| y % 2 ^ w < 2 ^ w := fun w x y =>
    Nat.or_lt_two_pow (Nat.mod_lt _ (by positivity)) (Nat.mod_lt _ (by positivity))
  exact ⟨hor 64 _ _, hs64 _, hor 32 _ _, hor 32 _ _, hor 32 _ _, hor 32 _ _, hor 32 _ _,
    hor 8 _ _, hor 8 _ _, hor 8 _ _, hor 8 _ _, hs8 _, hor 8 _ _, hor 8 _ _, hor 8 _ _,
    hor 8 _ _, hor 8 _ _, hor 8 _ _, hor 8 _ _⟩

/-- C21: for expressions whose members hold values of their declared C types,
every member of `a | b` (value, offset, etype, tokens, sym1, sym2, instruction
and the twelve one-byte members) is the bitwise OR of that member of `a` and of
`b`, in two's complement for the signed `offset` and `scale`; the structure is
48 bytes, a whole number of 64-bit words, and the loop runs over all six of
them, so that every member of the result holds a value of its C type. -/
theorem combine_fieldwise (a b : SExpression) (ha : a.InRange) (hb : b.InRange) :
    a ||| b =
      { value := a.value ||| b.value
        offset := Int.lor a.offset b.offset
        etype := a.etype ||| b.etype
        tokens := a.tokens ||| b.tokens
        sym1 := a.sym1 ||| b.sym1
        sym2 := a.sym2 ||| b.sym2
        instruction := a.instruction ||| b.instruction
        optionbits := a.optionbits ||| b.optionbits
        base := a.base ||| b.base
        index := a.index ||| b.index
        length := a.length ||| b.length
        scale := Int.lor a.scale b.scale
        symscale := a.symscale ||| b.symscale
        mask := a.mask ||| b.mask
        reg1 := a.reg1 ||| b.reg1
        reg2 := a.reg2 ||| b.reg2
        reg3 := a.reg3 ||| b.reg3
        fallback := a.fallback ||| b.fallback
        unused1 := a.unused1 ||| b.unused1 } ∧
    (sizeof = 48 ∧ sizeof % sizeofU64 = 0 ∧ a.toWords.length = sizeof / sizeofU64 ∧
      (a ||| b).toWords.length = sizeof / sizeofU64) ∧
    (a ||| b).InRange := by
  refine ⟨?_, ⟨rfl, rfl, by rw [(toWords_words6 a).1]; rfl,
    by rw [(toWords_words6 (a ||| b)).1]; rfl⟩, or_inRange a b⟩
  obtain ⟨a1, ⟨a2, a2'⟩, a3, a4, a5, a6, a7, a8, a9, a10, a11, ⟨a12, a12'⟩, a13, a14, a15, a16,
    a17, a18, a19⟩ := ha
  obtain ⟨b1, ⟨b2, b2'⟩, b3, b4, b5, b6, b7, b8, b9, b10, b11, ⟨b12, b12'⟩, b13, b14, b15, b16,
    b17, b18, b19⟩ := hb
  rw [or_members, toSigned_lor64 _ _ a2 a2' b2 b2', toSigned_lor8 _ _ a12 a12' b12 b12',
    Nat.mod_eq_of_lt a1, Nat.mod_eq_of_lt b1, Nat.mod_eq_of_lt a3, Nat.mod_eq_of_lt b3,
    Nat.mod_eq_of_lt a4, Nat.mod_eq_of_lt b4, Nat.mod_eq_of_lt a5, Nat.mod_eq_of_lt b5,
    Nat.mod_eq_of_lt a6, Nat.mod_eq_of_lt b6, Nat.mod_eq_of_lt a7, Nat.mod_eq_of_lt b7,
    Nat.mod_eq_of_lt a8, Nat.mod_eq_of_lt b8, Nat.mod_eq_of_lt a9, Nat.mod_eq_of_lt b9,
    Nat.mod_eq_of_lt a10, Nat.mod_eq_of_lt b10, Nat.mod_eq_of_lt a11, Nat.mod_eq_of_lt b11,
    Nat.mod_eq_of_lt a13, Nat.mod_eq_of_lt b13, Nat.mod_eq_of_lt a14, Nat.mod_eq_of_lt b14,
    Nat.mod_eq_of_lt a15, Nat.mod_eq_of_lt b15, Nat.mod_eq_of_lt a16, Nat.mod_eq_of_lt b16,
    Nat.mod_eq_of_lt a17, Nat.mod_eq_of_lt b17, Nat.mod_eq_of_lt a18, Nat.mod_eq_of_lt b18,
    Nat.mod_eq_of_lt a19, Nat.mod_eq_of_lt b19]

/-- Witness for C21: the two sample expressions are in range, and the `etype`
and `reg1` of their combination are the OR of the two members. -/
theorem combine_fieldwise_witness :
    sampleA.InRange ∧ sampleB.InRange ∧
    (sampleA ||| sampleB).etype = sampleA.etype ||| sampleB.etype ∧
    (sampleA ||| sampleB).reg1 = sampleA.reg1 ||| sampleB.reg1 ∧
    (sampleA ||| sampleB).toWords.length = sizeof / sizeofU64 :=
  ⟨by decide, by decide,
    congrArg SExpression.etype (combine_fieldwise sampleA sampleB (by decide) (by decide)).1,
    congrArg SExpression.reg1 (combine_fieldwise sampleA sampleB (by decide) (by decide)).1,
    (combine_fieldwise sampleA sampleB (by decide) (by decide)).2.1.2.2.2⟩

end SExpression

/-! ## Combining a code with an expression -/

namespace SCode

theorem orInto_six (a0 a1 a2 a3 a4 a5 a6 a7 a8 a9 a10 a11 b0 b1 b2 b3 b4 b5 : Nat) :
    orInto (SExpression.sizeof / SExpression.sizeofU64)
      [a0, a1, a2, a3, a4, a5, a6, a7, a8, a9, a10, a11]
      [a0, a1, a2, a3, a4, a5, a6, a7, a8, a9, a10, a11] [b0, b1, b2, b3, b4, b5] =
      [a0 ||| b0, a1 ||| b1, a2 ||| b2, a3 ||| b3, a4 ||| b4, a5 ||| b5, a6, a7, a8, a9, a10,
        a11] := by
  rfl

/-- C22: for every code `c` whose own members hold values of their declared C
types and every expression `e`, the `SExpression` part of `c | e` is
`(c as SExpression) | e`, and each of the members formatp, line, section,
address, label, dtype, instr1, fitNum, fitAddr, dest, numOp, size, sizeUnknown
and category of `c | e` equals that member of `c`. -/
theorem or_frame (c : SCode) (e : SExpression) (hc : c.OwnInRange) :
    (c ||| e).toSExpression = c.toSExpression ||| e ∧
    (c ||| e).formatp = c.formatp ∧ (c ||| e).line = c.line ∧
    (c ||| e).section_ = c.section_ ∧ (c ||| e).address = c.address ∧
    (c ||| e).label = c.label ∧ (c ||| e).dtype = c.dtype ∧ (c ||| e).instr1 = c.instr1 ∧
    (c ||| e).fitNum = c.fitNum ∧ (c ||| e).fitAddr = c.fitAddr ∧ (c ||| e).dest = c.dest ∧
    (c ||| e).numOp = c.numOp ∧ (c ||| e).size = c.size ∧
    (c ||| e).sizeUnknown = c.sizeUnknown ∧ (c ||| e).category = c.category := by
  obtain ⟨h1, h2, h3, h4, h5, h6, h7, h8, h9, h10, h11, h12, h13, h14⟩ := hc
  obtain ⟨a0, a1, a2, a3, a4, a5, ha, -⟩ :=
    SExpression.words6_cases (SExpression.toWords_words6 c.toSExpression)
  obtain ⟨b0, b1, b2, b3, b4, b5, hb, -⟩ :=
    SExpression.words6_cases (SExpression.toWords_words6 e)
  have hor : c.toSExpression ||| e =
      SExpression.ofWords [a0 ||| b0, a1 ||| b1, a2 ||| b2, a3 ||| b3, a4 ||| b4, a5 ||| b5] := by
    show SExpression.ofWords (SExpression.orLoop _ c.toSExpression.toWords e.toWords) = _
    rw [ha, hb, SExpression.orLoop_six]
  have hres : c ||| e = ofWords [a0 ||| b0, a1 ||| b1, a2 ||| b2, a3 ||| b3, a4 ||| b4,
      a5 ||| b5, c.formatp % 2 ^ 64,
      c.line % 2 ^ 32 + 2 ^ 32 * (c.section_ % 2 ^ 32),
      c.address % 2 ^ 32 + 2 ^ 32 * (c.label % 2 ^ 32),
      c.dtype % 2 ^ 32 + 2 ^ 32 * (c.instr1 % 2 ^ 32),
      c.fitNum % 2 ^ 32 + 2 ^ 32 * (c.fitAddr % 2 ^ 32),
      c.dest % 2 ^ 8 + 2 ^ 8 * (c.numOp % 2 ^ 8) + 2 ^ 16 * (c.size % 2 ^ 8)
        + 2 ^ 24 * (c.sizeUnknown % 2 ^ 8) + 2 ^ 32 * (c.category % 2 ^ 8)] := by
    show ofWords (orInto _ c.toWords c.toWords e.toWords) = _
    unfold toWords
    rw [ha, hb]
    simp only [List.cons_append, List.nil_append, orInto_six]
  rw [hres, hor]
  simp only [ofWords, List.getD_cons_zero, List.getD_cons_succ, bits]
  refine ⟨rfl, ?_, ?_, ?_, ?_, ?_, ?_, ?_, ?_, ?_, ?_, ?_, ?_, ?_, ?_⟩ <;> omega

/-- Witness for C22: the sample code combined with a sample expression keeps
its own members. -/
theorem or_frame_witness :
    sampleC.OwnInRange ∧
    (sampleC ||| SExpression.sampleB).toSExpression =
      sampleC.toSExpression ||| SExpression.sampleB ∧
    (sampleC ||| SExpression.sampleB).formatp = sampleC.formatp ∧
    (sampleC ||| SExpression.sampleB).category = sampleC.category :=
  ⟨by decide, (or_frame sampleC SExpression.sampleB (by decide)).1,
    (or_frame sampleC SExpression.sampleB (by decide)).2.1,
    (or_frame sampleC SExpression.sampleB (by decide)).2.2.2.2.2.2.2.2.2.2.2.2.2.2⟩

end SCode

/-! ## The order of instruction records is a strict weak order -/

namespace SInstruction2

theorem lt_iff_key1 (a b : SInstruction2) : lt a b = true ↔ key1 a < key1 b := by
  unfold key1
  rw [key_lt_iff]
  unfold lt
  rw [ltOp_eq]
  split_ifs <;>
    simp only [decide_eq_true_iff, Bool.false_eq_true, true_iff, false_iff, true_and,
      lt_self_iff_false, false_or] <;>
    omega

theorem lt_false_iff_key1 (a b : SInstruction2) : lt a b = false ↔ key1 b ≤ key1 a := by
  rw [← not_lt, ← lt_iff_key1]; simp

/-- C23: `operator <` on `SInstruction2` is irreflexive, asymmetric and
transitive on all records, whatever their categories, and incomparability is
transitive; for two records of the same category other than 1, `a < b` exactly
when `(a.op1, a.op2)` precedes `(b.op1, b.op2)`, the format not being compared. -/
theorem instruction2_strict_weak_order :
    (∀ a : SInstruction2, lt a a = false) ∧
    (∀ a b : SInstruction2, lt a b = true → lt b a = false) ∧
    (∀ a b c : SInstruction2, lt a b = true → lt b c = true → lt a c = true) ∧
    (∀ a b c : SInstruction2, lt a b = false ∧ lt b a = false →
      lt b c = false ∧ lt c b = false → lt a c = false ∧ lt c a = false) ∧
    (∀ a b : SInstruction2, a.category = b.category → a.category ≠ 1 →
      (lt a b = true ↔ a.op1 < b.op1 ∨ (a.op1 = b.op1 ∧ a.op2 < b.op2))) := by
  refine ⟨?_, ?_, ?_, ?_, ?_⟩
  · intro a
    rw [lt_false_iff_key1]
  · intro a b h
    rw [lt_iff_key1] at h
    rw [lt_false_iff_key1]
    exact le_of_lt h
  · intro a b c hab hbc
    rw [lt_iff_key1] at hab hbc ⊢
    exact lt_trans hab hbc
  · rintro a b c ⟨h1, h2⟩ ⟨h3, h4⟩
    rw [lt_false_iff_key1] at h1 h2 h3 h4
    exact ⟨(lt_false_iff_key1 a c).mpr (le_trans h3 h1),
      (lt_false_iff_key1 c a).mpr (le_trans h2 h4)⟩
  · intro a b hcat h1
    have h1' : ¬ b.category = 1 := by omega
    unfold lt
    rw [ltOp_eq]
    split_ifs <;>
      simp only [decide_eq_true_iff, Bool.false_eq_true, true_iff, false_iff] <;>
      omega

end SInstruction2

/-! ## Growth of the name buffer -/

theorem cstr_drop_append (B more : List Nat) (off : Nat) (h : NulTerminated B off) :
    cstr ((B ++ more).drop off) = cstr (B.drop off) := by
  unfold NulTerminated at h
  have hle : off ≤ B.length := by
    by_contra hc
    rw [List.drop_eq_nil_of_le (by omega)] at h
    simp at h
  rw [List.drop_append_of_le_length hle]
  exact cstr_append _ _ h

namespace ElfFWC_Sym2

theorem name_append (B more : List Nat) (a : ElfFWC_Sym2) (h : NulTerminated B a.st_name) :
    name (B ++ more) a = name B a :=
  cstr_drop_append B more a.st_name h

/-- C24: if the buffer `B` is an initial part of the buffer `B2` and the names of
the symbols `a` and `b` are NUL-terminated within `B`, then `a < b`, `b < a` and
`a == b` have the same value under `B2` as under `B`, and so have the two
names. -/
theorem order_stable_under_growth (B B2 : List Nat) (a b : ElfFWC_Sym2) (hpre : B <+: B2)
    (ha : NulTerminated B a.st_name) (hb : NulTerminated B b.st_name) :
    lt B2 a b = lt B a b ∧ eq B2 a b = eq B a b ∧ lt B2 b a = lt B b a ∧
      name B2 a = name B a ∧ name B2 b = name B b := by
  obtain ⟨more, rfl⟩ := hpre
  have na := name_append B more a ha
  have nb := name_append B more b hb
  refine ⟨?_, ?_, ?_, na, nb⟩
  · rw [Bool.eq_iff_iff, lt_iff_name, lt_iff_name, na, nb]
  · rw [Bool.eq_iff_iff, eq_iff_name, eq_iff_name, na, nb]
  · rw [Bool.eq_iff_iff, lt_iff_name, lt_iff_name, na, nb]

/-- Witness for C24: the sample buffer with one more name appended orders the
symbols named `ab` and `cd` as before. -/
theorem order_stable_under_growth_witness :
    sampleNames <+: sampleNames ++ [101, 102, 0] ∧
    NulTerminated sampleNames (sampleSym 1 1 0x10).st_name ∧
    NulTerminated sampleNames (sampleSym 4 1 0x30).st_name ∧
    lt (sampleNames ++ [101, 102, 0]) (sampleSym 1 1 0x10) (sampleSym 4 1 0x30) =
      lt sampleNames (sampleSym 1 1 0x10) (sampleSym 4 1 0x30) ∧
    eq (sampleNames ++ [101, 102, 0]) (sampleSym 1 1 0x10) (sampleSym 4 1 0x30) =
      eq sampleNames (sampleSym 1 1 0x10) (sampleSym 4 1 0x30) :=
  ⟨List.prefix_append _ _, by decide, by decide,
    (order_stable_under_growth sampleNames (sampleNames ++ [101, 102, 0]) (sampleSym 1 1 0x10)
      (sampleSym 4 1 0x30) (List.prefix_append _ _) (by decide) (by decide)).1,
    (order_stable_under_growth sampleNames (sampleNames ++ [101, 102, 0]) (sampleSym 1 1 0x10)
      (sampleSym 4 1 0x30) (List.prefix_append _ _) (by decide) (by decide)).2.1⟩

end ElfFWC_Sym2

/-! ## Equality of symbol addresses -/

namespace ElfFWC_Sym

/-- C25: for all `ElfFWC_Sym` records, `a == b` exactly when the section indices
are equal and the values are equal, which holds exactly when neither `a < b`
nor `b < a`: `==` is the equivalence induced by the address order. -/
theorem sym_eq_iff_same_address (a b : ElfFWC_Sym) :
    (eq a b = true ↔ a.st_shndx = b.st_shndx ∧ a.st_value = b.st_value) ∧
    ((a.st_shndx = b.st_shndx ∧ a.st_value = b.st_value) ↔
      (lt a b = false ∧ lt b a = false)) ∧
    (eq a b = true ↔ (lt a b = false ∧ lt b a = false)) := by
  have h1 : eq a b = true ↔ a.st_shndx = b.st_shndx ∧ a.st_value = b.st_value := by
    unfold eq
    rw [Bool.and_eq_true, decide_eq_true_eq, decide_eq_true_eq]
  have h2 : (a.st_shndx = b.st_shndx ∧ a.st_value = b.st_value) ↔
      (lt a b = false ∧ lt b a = false) := by
    rw [← Bool.not_eq_true, ← Bool.not_eq_true, sym_lt_iff, sym_lt_iff]
    omega
  exact ⟨h1, h2, h1.trans h2⟩

end ElfFWC_Sym

/-! ## Relocations sorted by address -/

namespace ElfFWC_Rela2

theorem rela_lt_iff (a b : ElfFWC_Rela2) :
    lt a b = true ↔
      a.r_section < b.r_section ∨ (a.r_section = b.r_section ∧ a.r_offset < b.r_offset) := by
  unfold lt
  split_ifs <;> simp only [decide_eq_true_iff, Bool.false_eq_true, true_iff, false_iff] <;> omega

theorem rela_lt_false_iff (a b : ElfFWC_Rela2) :
    lt a b = false ↔
      b.r_section < a.r_section ∨ (a.r_section = b.r_section ∧ b.r_offset ≤ a.r_offset) := by
  rw [← Bool.not_eq_true, rela_lt_iff]
  omega

/-- C26: `operator <` on `ElfFWC_Rela2` holds exactly when the section of `a` is
smaller, or the sections are equal and the offset of `a` is smaller; it is
irreflexive, asymmetric and transitive with incomparability transitive; two
relocations are incomparable exactly when their sections and offsets are
equal, as the two samples are, which differ in symbol, addend, type, scale and
reference symbol. -/
theorem rela_lt_by_address :
    (∀ a b : ElfFWC_Rela2, lt a b = true ↔
      a.r_section < b.r_section ∨ (a.r_section = b.r_section ∧ a.r_offset < b.r_offset)) ∧
    (∀ a : ElfFWC_Rela2, lt a a = false) ∧
    (∀ a b : ElfFWC_Rela2, lt a b = true → lt b a = false) ∧
    (∀ a b c : ElfFWC_Rela2, lt a b = true → lt b c = true → lt a c = true) ∧
    (∀ a b c : ElfFWC_Rela2, lt a b = false ∧ lt b a = false →
      lt b c = false ∧ lt c b = false → lt a c = false ∧ lt c a = false) ∧
    (∀ a b : ElfFWC_Rela2, (lt a b = false ∧ lt b a = false) ↔
      (a.r_section = b.r_section ∧ a.r_offset = b.r_offset)) ∧
    (lt sampleR sampleS = false ∧ lt sampleS sampleR = false ∧ sampleR ≠ sampleS) := by
  refine ⟨rela_lt_iff, ?_, ?_, ?_, ?_, ?_, by decide⟩
  · intro a
    rw [rela_lt_false_iff]
    omega
  · intro a b h
    rw [rela_lt_iff] at h
    rw [rela_lt_false_iff]
    omega
  · intro a b c hab hbc
    rw [rela_lt_iff] at hab hbc ⊢
    omega
  · rintro a b c ⟨h1, h2⟩ ⟨h3, h4⟩
    rw [rela_lt_false_iff] at h1 h2 h3 h4
    rw [rela_lt_false_iff, rela_lt_false_iff]
    omega
  · intro a b
    rw [rela_lt_false_iff, rela_lt_false_iff]
    omega

end ElfFWC_Rela2

/-! ## The jump bit -/

/-- Counterexample for C27: `II_ALIGN` is among the instruction ids, has the bit
`II_JUMP_INSTR` set and is none of the ten jump ids, so the bit does not single
out the jump ids among the instruction ids. -/
theorem align_has_jump_bit :
    II_ALIGN ∈ instructionIds ∧ isJumpInstr II_ALIGN = true ∧ II_ALIGN ∉ jumpIds ∧
    ¬ (∀ id ∈ instructionIds, isJumpInstr id = true ↔ id ∈ jumpIds) := by
  refine ⟨by decide, by decide, by decide, ?_⟩
  intro h
  exact absurd ((h II_ALIGN (by decide)).mp (by decide)) (by decide)

/-- C27, amended: among the 59 instruction ids (the two masks left out), an id
other than `II_ALIGN` has the bit `II_JUMP_INSTR` set exactly when it is one of
the ten jump ids; `II_ALIGN` has the value of the mask itself and is no jump
id, so the ids with the bit set are the jump ids and `II_ALIGN`. -/
theorem jump_bit_identifies_jumps :
    instructionIds.length = 59 ∧
    (∀ id ∈ instructionIds, id ≠ II_ALIGN → (isJumpInstr id = true ↔ id ∈ jumpIds)) ∧
    (∀ id ∈ instructionIds, isJumpInstr id = true ↔ id ∈ jumpIds ∨ id = II_ALIGN) ∧
    II_ALIGN = II_JUMP_INSTR ∧ II_ALIGN ∉ jumpIds ∧
    (∀ id ∈ jumpIds, id ∈ instructionIds) := by
  refine ⟨rfl, ?_, ?_, rfl, ?_, ?_⟩ <;> decide

/-! ## Inverting a jump condition -/

theorem testBit_0x100 (i : Nat) : Nat.testBit 0x100 i = decide (i = 8) := by
  have : (0x100 : Nat) = 2 ^ 8 := by norm_num
  rw [this, Nat.testBit_two_pow]
  by_cases h : i = 8
  · simp [h]
  · have : ¬ 8 = i := fun h2 => h h2.symm
    simp [h, this]

/-- C28: flipping `II_JUMP_INVERT` twice gives the id back; it maps
`II_JUMP_ZERO` to `II_JUMP_NOTZERO` and back; it leaves the `II_JUMP_INSTR` bit
and the low 8 bits of every id unchanged; the images of `II_JUMP_POSITIVE`,
`II_JUMP_NEGATIVE`, `II_JUMP_OVERFLOW`, `II_JUMP_CARRY`, `II_JUMP_UABOVE`,
`II_JUMP_ALL1` and `II_JUMP_NFINITE` are no jump id and no instruction id at
all; and the image of a jump id differs from it and keeps the jump bit. -/
theorem invert_condition_involution :
    (∀ j : Nat, invertCondition (invertCondition j) = j) ∧
    invertCondition II_JUMP_ZERO = II_JUMP_NOTZERO ∧
    invertCondition II_JUMP_NOTZERO = II_JUMP_ZERO ∧
    (∀ j : Nat, invertCondition j &&& II_JUMP_INSTR = j &&& II_JUMP_INSTR ∧
      invertCondition j &&& 0xFF = j &&& 0xFF) ∧
    (∀ j ∈ oneWayConditions, invertCondition j ∉ jumpIds ∧ invertCondition j ∉ instructionIds) ∧
    (∀ j ∈ jumpIds, invertCondition j ≠ j ∧ invertCondition j &&& II_JUMP_INSTR ≠ 0) := by
  refine ⟨?_, by decide, by decide, ?_, by decide, by decide⟩
  · intro j
    unfold invertCondition
    exact Nat.xor_cancel_right _ _
  · intro j
    unfold invertCondition II_JUMP_INVERT II_JUMP_INSTR
    constructor
    · apply Nat.eq_of_testBit_eq
      intro i
      rw [Nat.testBit_and, Nat.testBit_and, Nat.testBit_xor, testBit_0x100]
      have h20 : (0x100000 : Nat) = 2 ^ 20 := by norm_num
      rw [h20, Nat.testBit_two_pow]
      by_cases h : 20 = i
      · subst h; simp
      · simp [h]
    · apply Nat.eq_of_testBit_eq
      intro i
      have hff : (0xFF : Nat) = 2 ^ 8 - 1 := by norm_num
      rw [Nat.testBit_and, Nat.testBit_and, Nat.testBit_xor, testBit_0x100, hff,
        Nat.testBit_two_pow_sub_one]
      by_cases h : i = 8
      · subst h; simp
      · simp [h]

/-! ## The generic type tests -/

/-- Counterexample for C29: `TYP_STRING` is a defined type id that passes the
test `t & TYP_INT` and is no integer type id, signed or unsigned. -/
theorem string_passes_int_test :
    TYP_STRING ∈ definedTypeIds ∧ isIntType TYP_STRING = true ∧
    TYP_STRING ∉ intTypeIds ∧ TYP_STRING ∉ unsignedTypeIds ∧
    ¬ (∀ t ∈ definedTypeIds, isIntType t = true ↔ t ∈ intTypeIds ∨ t ∈ unsignedTypeIds) := by
  refine ⟨by decide, by decide, by decide, by decide, ?_⟩
  intro h
  exact absurd ((h TYP_STRING (by decide)).mp (by decide)) (by decide)

/-- C29, amended: over the 15 defined type ids (five integer types, the same
with `TYP_UNS` added, four floating point types and `TYP_STRING`), the test
`t & TYP_INT` is non-zero exactly for the integer types and `TYP_STRING`, hence
exactly for the integer types among the ids other than `TYP_STRING`; the test
`t & TYP_FLOAT` is non-zero exactly for the floating point types; no id passes
both tests. -/
theorem type_tests_classify :
    definedTypeIds.length = 15 ∧ definedTypeIds.Nodup ∧
    (∀ t ∈ definedTypeIds,
      isIntType t = true ↔ t ∈ intTypeIds ∨ t ∈ unsignedTypeIds ∨ t = TYP_STRING) ∧
    (∀ t ∈ definedTypeIds, isFloatType t = true ↔ t ∈ floatTypeIds) ∧
    (∀ t ∈ definedTypeIds, t ≠ TYP_STRING →
      (isIntType t = true ↔ t ∈ intTypeIds ∨ t ∈ unsignedTypeIds)) ∧
    (∀ t ∈ definedTypeIds, ¬ (isIntType t = true ∧ isFloatType t = true)) := by
  refine ⟨rfl, ?_, ?_, ?_, ?_, ?_⟩ <;> decide

/-! ## Bounds of the lookup criteria -/

/-- C30: for every instruction, the criteria 1 to 5 evaluate to at most 7 and
criterion 6 to 0 or 1, so no criterion exceeds 7; the 6-bit field `op1` is
below 64 and equals `8 * (op1 / 8) + op1 % 8`, the values of criteria 2 and 3;
and each of the 64 values of `op1` occurs, with those two criteria as its
quotient and remainder by 8. -/
theorem criterion_bounded :
    (∀ (crit : Nat) (x : STemplate), 1 ≤ crit → crit ≤ 5 → criterion crit x ≤ 7) ∧
    (∀ x : STemplate, criterion 6 x = 0 ∨ criterion 6 x = 1) ∧
    (∀ (crit : Nat) (x : STemplate), criterion crit x ≤ 7) ∧
    (∀ x : STemplate, STemplate.a.op1 x < 64 ∧
      STemplate.a.op1 x = 8 * criterion 2 x + criterion 3 x) ∧
    (∀ v : Nat, v < 64 → ∃ x : STemplate, STemplate.a.op1 x = v ∧
      criterion 2 x = v / 8 ∧ criterion 3 x = v % 8) := by
  have hmax : ∀ crit : Nat, criterionMax crit ≤ 7 := by
    intro crit
    unfold criterionMax
    split <;> omega
  refine ⟨?_, ?_, ?_, ?_, ?_⟩
  · intro crit x _ _
    exact le_trans (criterion_le crit x) (hmax crit)
  · intro x
    simp only [criterion]
    split_ifs <;> simp
  · intro crit x
    exact le_trans (criterion_le crit x) (hmax crit)
  · intro x
    have h2 : STemplate.a.op1 x < 2 ^ fieldWidth STemplate.aDecl .op1 :=
      STemplate.a_read_lt .op1 x
    have hw2 : fieldWidth STemplate.aDecl .op1 = 6 := by decide
    rw [hw2] at h2
    simp only [criterion]
    omega
  · intro v hv
    obtain ⟨x, hx⟩ := STemplate.a_attain .op1 v (by
      have hw2 : fieldWidth STemplate.aDecl .op1 = 6 := by decide
      rw [hw2]; omega)
    have hx' : STemplate.a.op1 x = v := hx
    exact ⟨x, hx', by simp only [criterion, hx'], by simp only [criterion, hx']⟩

/-! ## Algebra of the combine -/

namespace SExpression

theorem or_comm_words (a b : SExpression) : a ||| b = b ||| a := by
  rw [or_members, or_members]
  simp only [Nat.lor_comm (a.value % 2 ^ 64), Nat.lor_comm (toUnsigned 64 a.offset),
    Nat.lor_comm (a.etype % 2 ^ 32), Nat.lor_comm (a.tokens % 2 ^ 32),
    Nat.lor_comm (a.sym1 % 2 ^ 32), Nat.lor_comm (a.sym2 % 2 ^ 32),
    Nat.lor_comm (a.instruction % 2 ^ 32), Nat.lor_comm (a.optionbits % 2 ^ 8),
    Nat.lor_comm (a.base % 2 ^ 8), Nat.lor_comm (a.index % 2 ^ 8),
    Nat.lor_comm (a.length % 2 ^ 8), Nat.lor_comm (toUnsigned 8 a.scale),
    Nat.lor_comm (a.symscale % 2 ^ 8), Nat.lor_comm (a.mask % 2 ^ 8),
    Nat.lor_comm (a.reg1 % 2 ^ 8), Nat.lor_comm (a.reg2 % 2 ^ 8),
    Nat.lor_comm (a.reg3 % 2 ^ 8), Nat.lor_comm (a.fallback % 2 ^ 8),
    Nat.lor_comm (a.unused1 % 2 ^ 8)]

theorem or_self_inRange (a : SExpression) (ha : a.InRange) : a ||| a = a := by
  obtain ⟨a1, ⟨a2, a2'⟩, a3, a4, a5, a6, a7, a8, a9, a10, a11, ⟨a12, a12'⟩, a13, a14, a15, a16,
    a17, a18, a19⟩ := ha
  rw [or_members]
  simp only [Nat.or_self, toSigned_toUnsigned_int64 _ a2 a2', toSigned_toUnsigned_int8 _ a12 a12',
    Nat.mod_eq_of_lt a1, Nat.mod_eq_of_lt a3, Nat.mod_eq_of_lt a4, Nat.mod_eq_of_lt a5,
    Nat.mod_eq_of_lt a6, Nat.mod_eq_of_lt a7, Nat.mod_eq_of_lt a8, Nat.mod_eq_of_lt a9,
    Nat.mod_eq_of_lt a10, Nat.mod_eq_of_lt a11, Nat.mod_eq_of_lt a13, Nat.mod_eq_of_lt a14,
    Nat.mod_eq_of_lt a15, Nat.mod_eq_of_lt a16, Nat.mod_eq_of_lt a17, Nat.mod_eq_of_lt a18,
    Nat.mod_eq_of_lt a19]

theorem or_zero_inRange (a : SExpression) (ha : a.InRange) : a ||| zero = a := by
  obtain ⟨a1, ⟨a2, a2'⟩, a3, a4, a5, a6, a7, a8, a9, a10, a11, ⟨a12, a12'⟩, a13, a14, a15, a16,
    a17, a18, a19⟩ := ha
  rw [or_members]
  simp only [zero, Nat.zero_mod, Nat.or_zero, toUnsigned_zero,
    toSigned_toUnsigned_int64 _ a2 a2', toSigned_toUnsigned_int8 _ a12 a12',
    Nat.mod_eq_of_lt a1, Nat.mod_eq_of_lt a3, Nat.mod_eq_of_lt a4, Nat.mod_eq_of_lt a5,
    Nat.mod_eq_of_lt a6, Nat.mod_eq_of_lt a7, Nat.mod_eq_of_lt a8, Nat.mod_eq_of_lt a9,
    Nat.mod_eq_of_lt a10, Nat.mod_eq_of_lt a11, Nat.mod_eq_of_lt a13, Nat.mod_eq_of_lt a14,
    Nat.mod_eq_of_lt a15, Nat.mod_eq_of_lt a16, Nat.mod_eq_of_lt a17, Nat.mod_eq_of_lt a18,
    Nat.mod_eq_of_lt a19]

/-- C31: the combine is commutative, `a | b = b | a`, and for an expression
whose members hold values of their declared C types it is idempotent,
`a | a = a`, with the all-zero expression as identity on both sides,
`a | 0 = a` and `0 | a = a`; the equalities are equalities of structures, hence
hold on every member. -/
theorem combine_comm_idem (a b : SExpression) (ha : a.InRange) :
    a ||| b = b ||| a ∧ a ||| a = a ∧ a ||| zero = a ∧ zero ||| a = a ∧ zero.InRange := by
  refine ⟨or_comm_words a b, or_self_inRange a ha, or_zero_inRange a ha, ?_, by decide⟩
  rw [or_comm_words zero a]
  exact or_zero_inRange a ha

/-- Witness for C31: the sample expression is in range, commutes with the
other sample, is its own combination and is kept by the all-zero expression. -/
theorem combine_comm_idem_witness :
    sampleA.InRange ∧ sampleA ||| sampleB = sampleB ||| sampleA ∧ sampleA ||| sampleA = sampleA ∧
    sampleA ||| zero = sampleA ∧ zero ||| sampleA = sampleA :=
  ⟨by decide, (combine_comm_idem sampleA sampleB (by decide)).1,
    (combine_comm_idem sampleA sampleB (by decide)).2.1,
    (combine_comm_idem sampleA sampleB (by decide)).2.2.1,
    (combine_comm_idem sampleA sampleB (by decide)).2.2.2.1⟩

end SExpression

/-! ## Fit flags are distinct single bits -/

theorem flag_and_flag : ∀ f ∈ fitFlags, ∀ g ∈ fitFlags, (f &&& g ≠ 0 ↔ f = g) := by
  decide

theorem bitmapOf_and (s : List Nat) (F : Nat) :
    bitmapOf s &&& F ≠ 0 ↔ ∃ g ∈ s, g &&& F ≠ 0 := by
  induction s with
  | nil => simp [bitmapOf]
  | cons g s ih =>
    have : bitmapOf (g :: s) = g ||| bitmapOf s := rfl
    rw [this, SExpression.has_flag_lor, ih]
    simp

/-- C32: the 21 fit flags are pairwise distinct, each is the single bit of its
number in `fitBits` (all below bit 31), and no two share a bit; `IFIT_J` is
`IFIT_J8 | IFIT_J16 | IFIT_J32`, so for every bitmap `m` the test `m & IFIT_J`
is non-zero exactly when one of the three flags is set in `m`; and the bitmap
of any collection of fit flags has a flag set exactly when the flag belongs to
the collection. -/
theorem fit_flags_unambiguous :
    fitFlags.length = 21 ∧ fitFlags.Nodup ∧ fitFlags = fitBits.map (fun k => 2 ^ k) ∧
    fitBits.Nodup ∧ (∀ k ∈ fitBits, k < 31) ∧
    (∀ f ∈ fitFlags, ∀ g ∈ fitFlags, f ≠ g → f &&& g = 0) ∧
    IFIT_J = IFIT_J8 ||| IFIT_J16 ||| IFIT_J32 ∧ IFIT_J = 0x20220 ∧
    (∀ m : Nat, m &&& IFIT_J ≠ 0 ↔
      (m &&& IFIT_J8 ≠ 0 ∨ m &&& IFIT_J16 ≠ 0 ∨ m &&& IFIT_J32 ≠ 0)) ∧
    (∀ s : List Nat, (∀ g ∈ s, g ∈ fitFlags) →
      ∀ f ∈ fitFlags, (bitmapOf s &&& f ≠ 0 ↔ f ∈ s)) := by
  refine ⟨rfl, by decide, by decide, by decide, by decide, by decide, rfl, by decide, ?_, ?_⟩
  · intro m
    unfold IFIT_J
    rw [Nat.and_comm m, SExpression.has_flag_lor, SExpression.has_flag_lor, Nat.and_comm m,
      Nat.and_comm m, Nat.and_comm m, or_assoc]
  · intro s hs f hf
    rw [bitmapOf_and]
    constructor
    · rintro ⟨g, hg, hgf⟩
      have := (flag_and_flag g (hs g hg) f hf).mp hgf
      exact this ▸ hg
    · intro hfs
      exact ⟨f, hfs, (flag_and_flag f hf f hf).mpr rfl⟩

end ForwardCom
